import Mathlib

/-!
A verification development for the `fsbuilder` Ansible module
(`plugins/modules/fsbuilder.py`): a declarative filesystem-state
reconciler.  The Python module is shallowly embedded: the filesystem is
an association list from path strings to entries (regular files with
content and `(device, inode)` identity, directories, symbolic links),
and every state handler of the `FSBuilder` class is transliterated into
an executable Lean function over that model.  External collaborators
(the validate-command runner, the clock) are passed in explicitly via a
context; the Ansible attribute applier is modelled for invocations that
supply no ownership/mode arguments, where `set_fs_attributes_if_different`
returns its incoming changed flag unchanged and touches nothing.
-/

namespace FSBuilder

/-! ## String and path helpers (embedding `os.path` and `str` methods) -/

/-- `os.path.dirname`: everything before the final slash, with trailing
slashes stripped from the head unless the head is all slashes. -/
def dirname (p : String) : String :=
  let r := p.data.reverse
  match r.dropWhile (· ≠ '/') with
  | [] => ""
  | _ :: rest0 =>
    let head := rest0.reverse ++ ['/']
    let stripped := (head.reverse.dropWhile (· = '/')).reverse
    String.mk (if stripped.isEmpty then head else stripped)

/-- `os.path.basename`: everything after the final slash. -/
def basename (p : String) : String :=
  String.mk (p.data.reverse.takeWhile (· ≠ '/')).reverse

/-- Python `s.rstrip("/")`. -/
def rstripSlash (p : String) : String :=
  String.mk (p.data.reverse.dropWhile (· = '/')).reverse

/-- Python `s.rstrip("\n\r")`: drop trailing newline and carriage-return
characters. -/
def rstripNl (s : String) : String :=
  String.mk (s.data.reverse.dropWhile (fun c => c = '\n' ∨ c = '\r')).reverse

/-- Python `s.endswith("\n")`. -/
def endsWithNl (s : String) : Bool :=
  match s.data.reverse with
  | [] => false
  | c :: _ => c = '\n'

/-- Split a character list into chunks after every `\n`, keeping the
newline at the end of each chunk: what `readlines` does to the already
newline-translated text a text-mode handle yields. -/
def splitAfterNl : List Char → List (List Char)
  | [] => []
  | c :: cs =>
    if c = '\n' then ['\n'] :: splitAfterNl cs
    else
      match splitAfterNl cs with
      | [] => [[c]]
      | l :: ls => (c :: l) :: ls

/-- The universal-newline translation a text-mode `open` performs while
reading: `\r\n` and a lone `\r` both become `\n`. -/
def univNl : List Char → List Char
  | [] => []
  | '\r' :: '\n' :: rest => '\n' :: univNl rest
  | '\r' :: cs => '\n' :: univNl cs
  | c :: cs => c :: univNl cs

/-- `f.readlines()` on a text-mode handle
(`open(dest, errors="surrogateescape")`): universal-newline translation
of the stored bytes, then a split after every `\n`. -/
def toLines (s : String) : List String :=
  (splitAfterNl (univNl s.data)).map String.mk

/-- The `str.splitlines()` line-boundary characters other than `\n` and
`\r`. -/
def isOtherBreak (c : Char) : Bool :=
  c = '\x0b' ∨ c = '\x0c' ∨ c = '\x1c' ∨ c = '\x1d' ∨ c = '\x1e' ∨
  c = '\x85' ∨ c = '\u2028' ∨ c = '\u2029'

/-- `str.splitlines(True)` on an in-memory string (used for the
`blockinfile` block): split at every line boundary, keeping it, with
`\r\n` counting as a single boundary. -/
def splitLinesKeep : List Char → List (List Char)
  | [] => []
  | '\r' :: '\n' :: rest => ['\r', '\n'] :: splitLinesKeep rest
  | '\r' :: cs => ['\r'] :: splitLinesKeep cs
  | c :: cs =>
    if c = '\n' ∨ isOtherBreak c then [c] :: splitLinesKeep cs
    else
      match splitLinesKeep cs with
      | [] => [[c]]
      | l :: ls => (c :: l) :: ls

/-- `block.splitlines(True)` as a list of line strings. -/
def toLinesKeep (s : String) : List String :=
  (splitLinesKeep s.data).map String.mk

/-- `"".join(lines)`. -/
def joinLines (ls : List String) : String :=
  ls.foldr (fun a b => a ++ b) ""

/-- Whether `sub` occurs as a contiguous substring of `s`. -/
def strContains (s sub : String) : Bool :=
  decide (sub.data <:+: s.data)

/-- String prefix test on the underlying character lists. -/
def strPref (a b : String) : Bool :=
  a.data.isPrefixOf b.data

/-- The scan of `substPercentS`: replace every `%s` occurrence. -/
def substPSGo (arg : List Char) : List Char → List Char
  | [] => []
  | '%' :: 's' :: rest => arg ++ substPSGo arg rest
  | c :: rest => c :: substPSGo arg rest

/-- Python `template % arg` for a validate command: substitute the
placeholder `"%s"` with the staged file path.  (The module requires the
placeholder to be present and passes a single argument, so exactly one
`%s` occurs in well-formed commands.) -/
def substPercentS (template arg : String) : String :=
  String.mk (substPSGo arg.data template.data)

/-- Split a character list at every occurrence of the character `c`
(the semantics of `str.split(c)` / `String.splitOn` for a one-character
separator). -/
def splitOnChar (c : Char) : List Char → List (List Char)
  | [] => [[]]
  | x :: rest =>
    let r := splitOnChar c rest
    if x = c then [] :: r
    else
      match r with
      | h :: t => (x :: h) :: t
      | [] => [[x]]

/-- The scan of `replaceSub`: replace every non-overlapping occurrence
of `sub` (nonempty) left to right. -/
def replaceSubGo (sub rep : List Char) (hs : sub ≠ []) : List Char → List Char
  | [] => []
  | c :: cs =>
    if sub.isPrefixOf (c :: cs) then
      rep ++ replaceSubGo sub rep hs (List.drop sub.length (c :: cs))
    else c :: replaceSubGo sub rep hs cs
termination_by l => l.length
decreasing_by
  · simp only [List.length_drop, List.length_cons]
    have : sub.length ≠ 0 := fun h => hs (List.eq_nil_of_length_eq_zero h)
    omega
  · simp

/-- Python `s.replace(sub, rep)` (used for the `{mark}` substitution in
marker templates). -/
def replaceSub (s sub rep : String) : String :=
  if h : sub.data = [] then s
  else String.mk (replaceSubGo sub.data rep.data h s.data)

theorem dropWhileLenLe {α} (p : α → Bool) (l : List α) :
    (l.dropWhile p).length ≤ l.length := by
  induction l with
  | nil => simp [List.dropWhile]
  | cons a l ih =>
    simp only [List.dropWhile]
    split
    · exact Nat.le_trans ih (Nat.le_succ _)
    · exact Nat.le_refl _

theorem tailLenLe {α} (l : List α) : l.tail.length ≤ l.length := by
  cases l <;> simp

/-- The remainder of a pattern after skipping a `[...]` character class
is no longer than the pattern after the opening bracket. -/
theorem classDropLe (q : Char → Bool) (ps : List Char) :
    (List.dropWhile q
        (if ps.head? = some '!' then ps.tail else ps)).length ≤ ps.length := by
  refine Nat.le_trans (dropWhileLenLe _ _) ?_
  split
  · exact Nat.le_trans (tailLenLe _) (Nat.le_refl _)
  · exact Nat.le_refl _

theorem classRestLe (q : Char → Bool) (ps : List Char) :
    ((List.dropWhile q
        (if ps.head? = some '!' then ps.tail else ps)).tail).length ≤ ps.length :=
  Nat.le_trans (tailLenLe _) (classDropLe q ps)

/-- `fnmatch`-style glob matching for one path: `*` and `?` match any
characters, `[...]`/`[!...]` match a character class (the module only
routes a `dest` through `glob.glob` when its basename contains one of
`*`, `?`, `[`).  This models `glob.glob` as a filter over the paths
present in the filesystem. -/
def globMatchChars : List Char → List Char → Bool
  | [], [] => true
  | [], _ :: _ => false
  | '*' :: ps, [] => globMatchChars ps []
  | '*' :: ps, c :: cs =>
    globMatchChars ps (c :: cs) || (c ≠ '/' && globMatchChars ('*' :: ps) cs)
  | '?' :: ps, c :: cs => c ≠ '/' && globMatchChars ps cs
  | '[' :: ps, c :: cs =>
    let neg := ps.head? = some '!'
    let body := if neg then ps.tail else ps
    let cls := body.takeWhile (· ≠ ']')
    let rest := (body.dropWhile (· ≠ ']')).tail
    (if neg then !(cls.contains c) else cls.contains c) &&
      globMatchChars rest cs
  | p :: ps, c :: cs => p = c && globMatchChars ps cs
  | _ :: _, [] => false
termination_by ps cs => ps.length + cs.length
decreasing_by
  all_goals simp_wf
  all_goals try omega
  · have hRest := classRestLe (fun x => !decide (x = ']')) ps
    have hDrop := classDropLe (fun x => !decide (x = ']')) ps
    omega

def globMatch (pat p : String) : Bool :=
  globMatchChars pat.data p.data

/-- The prefix-of-each-accumulated-component helper for `ancestorPaths`. -/
def prefixesAux (pre : String) : List String → List String
  | [] => []
  | h :: t =>
    let cur := if pre = "" then h else pre ++ "/" ++ h
    cur :: prefixesAux cur t

/-- All ancestor paths of `p` up to and including `p` itself, at `/`
boundaries (used to model `os.makedirs` creating missing parents). -/
def ancestorPaths (p : String) : List String :=
  match (splitOnChar '/' p.data).map String.mk with
  | "" :: rest => (prefixesAux "" rest).map (fun s => "/" ++ s)
  | parts => prefixesAux "" parts

/-- `q` lies strictly inside the directory `d` (path-prefix test used to
model recursive removal and renaming of a directory subtree). -/
def underPath (d q : String) : Bool :=
  strPref (d ++ "/") q

/-! ## The filesystem model -/

/-- The kind of an on-disk entity: regular file with its byte content
(modelled as a string), directory, or symbolic link storing a target
path verbatim. -/
inductive EKind where
  | file (content : String)
  | dir
  | symlink (target : String)
  deriving DecidableEq, Repr

/-- One filesystem entry: its kind plus the stat identity `(dev, ino)`
and timestamps used by `state=touch`. -/
structure Entry where
  kind : EKind
  dev : Nat
  ino : Nat
  atime : Nat := 0
  mtime : Nat := 0
  deriving DecidableEq, Repr

/-- The filesystem: an association list from absolute path strings to
entries.  Lookup returns the first (most recently written) binding. -/
abbrev FS := List (String × Entry)

def lookupFS (fs : FS) (p : String) : Option Entry :=
  (List.find? (fun pe => pe.1 = p) fs).map (·.2)

/-- Store (create or overwrite) the entry at path `p`. -/
def setEntry (fs : FS) (p : String) (e : Entry) : FS :=
  (p, e) :: List.filter (fun pe => pe.1 ≠ p) fs

/-- `os.unlink` / removing one path. -/
def removeEntry (fs : FS) (p : String) : FS :=
  List.filter (fun pe => pe.1 ≠ p) fs

/-- `shutil.rmtree`: remove `d` and every path inside it. -/
def removeSubtree (fs : FS) (d : String) : FS :=
  List.filter (fun pe => ¬(pe.1 = d ∨ underPath d pe.1 = true)) fs

/-- `os.rename old new` on a whole subtree: every path at or inside
`old` is rebound under `new`. -/
def renameSubtree (fs : FS) (old new : String) : FS :=
  List.map (fun pe =>
    if pe.1 = old ∨ underPath old pe.1 = true
    then (new ++ pe.1.drop old.length, pe.2) else pe) fs

def keysFS (fs : FS) : List String := List.map Prod.fst fs

/-- Total length of all path strings: any strictly longer name is fresh. -/
def totalPathLen (fs : FS) : Nat :=
  List.foldr (fun (pe : String × Entry) n => pe.1.length + n) 0 fs

/-- A fresh inode number: one past the largest inode in use. -/
def freshIno (fs : FS) : Nat :=
  List.foldr (fun (pe : String × Entry) n => max pe.2.ino n) 0 fs + 1

/-- The staging-file name chosen by `tempfile.mkstemp(dir=dest_dir)`:
a name inside `dir` guaranteed (by length) not to collide with any
existing path. -/
def freshTmpName (fs : FS) (dir : String) : String :=
  dir ++ "/.fsbuilder-stage-" ++ String.mk (List.replicate (totalPathLen fs + 1) 'x')

/-- Follow symbolic links from `p` to the path of the final
non-symlink (or nonexistent) node; `none` models `ELOOP` exhaustion.
Link targets are taken verbatim as absolute paths. -/
def resolvePath (fs : FS) : Nat → String → Option String
  | 0, _ => none
  | fuel + 1, p =>
    match lookupFS fs p with
    | some e =>
      match e.kind with
      | .symlink t => resolvePath fs fuel t
      | _ => some p
    | none => some p

/-- The entry `p` resolves to, following symlinks (`os.stat` view). -/
def entryAt (fs : FS) (p : String) : Option Entry :=
  match resolvePath fs (fs.length + 1) p with
  | some q => lookupFS fs q
  | none => none

/-- `os.path.exists` (follows symlinks; `False` on dangling links and
symlink loops, as in CPython). -/
def pathExists (fs : FS) (p : String) : Bool :=
  (entryAt fs p).isSome

/-- `os.path.isfile`. -/
def isFile (fs : FS) (p : String) : Bool :=
  match entryAt fs p with
  | some e => match e.kind with | .file _ => true | _ => false
  | none => false

/-- `os.path.isdir`. -/
def isDir (fs : FS) (p : String) : Bool :=
  match entryAt fs p with
  | some e => match e.kind with | .dir => true | _ => false
  | none => false

/-- `os.path.islink` (lstat-level). -/
def isLink (fs : FS) (p : String) : Bool :=
  match lookupFS fs p with
  | some e => match e.kind with | .symlink _ => true | _ => false
  | none => false

/-- `os.readlink`. -/
def readLink (fs : FS) (p : String) : Option String :=
  match lookupFS fs p with
  | some e => match e.kind with | .symlink t => some t | _ => none
  | none => none

/-- `open(p).read()`: the content of the regular file `p` resolves to. -/
def readFileFS (fs : FS) (p : String) : Option String :=
  match entryAt fs p with
  | some e => match e.kind with | .file c => some c | _ => none
  | none => none

/-- `os.stat(p)`'s `(st_dev, st_ino)` pair (follows symlinks). -/
def statFS (fs : FS) (p : String) : Option (Nat × Nat) :=
  (entryAt fs p).map (fun e => (e.dev, e.ino))

/-- `os.listdir`: basenames of the immediate children of directory `d`. -/
def listDirFS (fs : FS) (d : String) : List String :=
  (keysFS fs).filter (fun q => dirname q = d && q ≠ d) |>.map basename

/-- The paths visited by `os.walk(d)` below `d` (used by
`state=directory` with `recurse`). -/
def walkPaths (fs : FS) (d : String) : List String :=
  (keysFS fs).filter (fun q => underPath d q)

/-- `glob.glob(pattern)` modelled as the existing paths matching the
pattern. -/
def globMatches (fs : FS) (pat : String) : List String :=
  (keysFS fs).filter (fun q => globMatch pat q)

def mkFile (content : String) (dev ino t : Nat) : Entry :=
  { kind := .file content, dev := dev, ino := ino, atime := t, mtime := t }

def mkDir (dev ino t : Nat) : Entry :=
  { kind := .dir, dev := dev, ino := ino, atime := t, mtime := t }

def mkSymlink (target : String) (dev ino t : Nat) : Entry :=
  { kind := .symlink target, dev := dev, ino := ino, atime := t, mtime := t }

/-- `os.makedirs(parent, exist_ok=True)`: create every missing ancestor
of `parent` (and `parent` itself) as a directory; `none` models the
`FileExistsError`/`NotADirectoryError` raised when a non-directory
already sits on the path (the model performs no partial creation in
that case, which no caller can observe since the module then aborts). -/
def makedirsFS (now : Nat) (fs : FS) (parent : String) : Option FS :=
  let anc := ancestorPaths parent
  if anc.isEmpty then none
  else if anc.any (fun a => (lookupFS fs a).isSome && !isDir fs a) then none
  else some (anc.foldl
    (fun f a => if (lookupFS f a).isSome then f else setEntry f a (mkDir 0 (freshIno f) now)) fs)

/-! ## Invocation parameters, context and results -/

/-- The `insertafter` option: the sentinel `EOF` or a compiled regular
expression, represented by its `re.search` matching function (the
module compiles the string and only ever calls `pattern.search`). -/
inductive AfterHint where
  | eof
  | pat (f : String → Bool)

/-- The `insertbefore` option: the sentinel `BOF` or a compiled regular
expression, represented by its `re.search` matching function. -/
inductive BeforeHint where
  | bof
  | pat (f : String → Bool)

/-- The module parameters after `AnsibleModule` parsing, mirroring
`build_argument_spec` (defaults included).  `regexp` is the compiled
pattern of the `regexp` string option, as its `search` function. -/
structure Params where
  dest : String
  state : String := "template"
  src : Option String := none
  content : Option String := none
  force : Bool := false
  forceBackup : Bool := false
  backup : Bool := false
  remoteSrc : Bool := false
  makedirs : Bool := false
  validate : Option String := none
  recurse : Bool := false
  follow : Bool := true
  accessTime : Option String := none
  modificationTime : Option String := none
  creates : Option String := none
  removes : Option String := none
  line : Option String := none
  regexp : Option (String → Bool) := none
  insertafter : Option AfterHint := none
  insertbefore : Option BeforeHint := none
  lineState : String := "present"
  block : Option String := none
  marker : String := "# {mark} MANAGED BLOCK"
  markerBegin : String := "BEGIN"
  markerEnd : String := "END"
  blockState : String := "present"

/-- External collaborators of one invocation: check/diff mode flags,
the clock (`time.time()`), and the validate-command runner
(`module.run_command`, returning `(rc, stdout, stderr)`). -/
structure Ctx where
  checkMode : Bool := false
  diffMode : Bool := false
  now : Nat := 0
  execCmd : String → Nat × String × String := fun _ => (0, "", "")

/-- The success-result fields the handlers populate (`dest`/`state`
echo fields are filled by `run`; the `diff` payload is
`(before, after)`). -/
structure Res where
  changed : Bool
  msg : String := ""
  stateField : String := ""
  backupFile : Option String := none
  skipped : Bool := false
  diff : Option (String × String) := none
  deriving DecidableEq, Repr

/-- The fields of a `fail_json` call (its keyword arguments, as produced
by the module source). -/
structure RunFail where
  msg : String
  rc : Option Nat := none
  stdout : Option String := none
  stderr : Option String := none
  deriving DecidableEq, Repr

/-- The outcome of one invocation, together with the filesystem it
leaves behind (failures also carry the filesystem, since some failure
paths mutate before aborting). -/
inductive Outcome where
  | ok (fs : FS) (r : Res)
  | failed (fs : FS) (f : RunFail)
  deriving DecidableEq, Repr

def Outcome.finalFS : Outcome → FS
  | .ok fs _ => fs
  | .failed fs _ => fs

def Outcome.isOk : Outcome → Bool
  | .ok _ _ => true
  | .failed _ _ => false

/-- The reported `changed` value of a successful outcome. -/
def Outcome.changedOf : Outcome → Option Bool
  | .ok _ r => some r.changed
  | .failed _ _ => none

/-- The `msg` of the outcome (success or failure). -/
def Outcome.msgOf : Outcome → String
  | .ok _ r => r.msg
  | .failed _ f => f.msg

/-- An internal exception reaching the `except Exception` boundary of
`main`, reported as `fail_json(msg=f"Unexpected error: {e}")`. -/
def unexpectedFail (fs : FS) (detail : String) : Outcome :=
  .failed fs { msg := "Unexpected error: " ++ detail }

/-! ## Collaborator primitives -/

/-- `module.set_fs_attributes_if_different(file_args, changed)` for an
invocation that supplies no `owner`/`group`/`mode` arguments: nothing
to apply, the incoming changed flag is returned unchanged and the
filesystem is untouched.  (The attribute applier is an external
collaborator; this development models attribute-free invocations.) -/
def applyAttributes (_path : String) (changed : Bool) : Bool := changed

/-- `module.sha256(path)`: used by the module solely to compare file
contents, so it is modelled by the content itself (`none` when the
path is not a readable regular file, as Ansible returns `None`). -/
def sha256FS (fs : FS) (p : String) : Option String := readFileFS fs p

/-- The name `module.backup_local(dest)` gives the timestamped backup
copy of `dest`. -/
def backupLocalName (dest : String) (now : Nat) : String :=
  dest ++ "." ++ toString now ++ ".bak"

/-- `module.backup_local(dest)`: copy `dest` to its timestamped backup
name and return that name. -/
def backupLocal (now : Nat) (fs : FS) (dest : String) : FS × String :=
  let name := backupLocalName dest now
  let content := (readFileFS fs dest).getD ""
  (setEntry fs name (mkFile content 0 (freshIno fs) now), name)

/-- `module.atomic_move(tmp, dest)`: an `os.rename` of the staged file
onto `dest`, replacing whatever (file, symlink, or nothing) sits at
`dest` itself; renaming onto an actual directory raises, which the
caller turns into a cleanup-and-fail. -/
def atomicMove (fs : FS) (tmp dest : String) : Option FS :=
  match lookupFS fs dest with
  | some e =>
    match e.kind with
    | .dir => none
    | _ =>
      match lookupFS fs tmp with
      | some te => some (setEntry (removeEntry fs tmp) dest te)
      | none => none
  | none =>
    match lookupFS fs tmp with
    | some te => some (setEntry (removeEntry fs tmp) dest te)
    | none => none

/-- `_parse_time`: epoch-seconds strings parse to a timestamp; the
`datetime.strptime` formats are abstracted to integral epoch strings
(anything else is the hard validation error of the source). -/
def parseTime (s : String) : Option Nat := s.toNat?

/-- `os.utime(p, (atime, mtime))` (follows symlinks). -/
def utimeFS (fs : FS) (p : String) (at_ mt : Nat) : Option FS :=
  match resolvePath fs (fs.length + 1) p with
  | some q =>
    match lookupFS fs q with
    | some e => some (setEntry fs q { e with atime := at_, mtime := mt })
    | none => none
  | none => none

/-- `open(p, "a")` used to create-if-missing: follows symlinks to the
final path; creates an empty regular file there if nothing exists;
existing regular files are left untouched; directories and symlink
loops raise. -/
def openAppendCreate (now : Nat) (fs : FS) (p : String) : Option FS :=
  match resolvePath fs (fs.length + 1) p with
  | some q =>
    match lookupFS fs q with
    | some e =>
      match e.kind with
      | .file _ => some fs
      | _ => none
    | none => some (setEntry fs q (mkFile "" 0 (freshIno fs) now))
  | none => none

/-! ## Shared constants (`fsbuilder_common.py` and `build_argument_spec`) -/

def VALID_STATES : List String :=
  ["template", "copy", "directory", "exists", "touch", "absent",
   "link", "hard", "lineinfile", "blockinfile"]

def NO_VALIDATE_STATES : List String :=
  ["directory", "absent", "link", "hard", "exists", "touch"]

/-- The option names accepted by `build_argument_spec`. -/
def argumentSpecKeys : List String :=
  ["dest", "src", "state", "content", "force", "force_backup", "backup",
   "remote_src", "makedirs", "validate", "recurse", "follow",
   "access_time", "modification_time", "creates", "removes", "on_error",
   "line", "regexp", "insertafter", "insertbefore", "line_state",
   "block", "marker", "marker_begin", "marker_end", "block_state"]

/-- The `default` of the `state` option in `build_argument_spec`. -/
def stateDefault : String := "template"

/-- `FSBuilder.STATE_HANDLERS`: state name to handler-method name. -/
def STATE_HANDLERS : List (String × String) :=
  [("copy", "_handle_copy"), ("template", "_handle_copy"),
   ("directory", "_handle_directory"), ("exists", "_handle_exists"),
   ("touch", "_handle_touch"), ("absent", "_handle_absent"),
   ("link", "_handle_link"), ("hard", "_handle_hard"),
   ("lineinfile", "_handle_lineinfile"), ("blockinfile", "_handle_blockinfile")]

def lookupHandler (s : String) : Option String :=
  (STATE_HANDLERS.find? (fun kv => kv.1 = s)).map (·.2)

/-! ## `FSBuilder` helper methods -/

/-- `FSBuilder._makedirs`: create the parent directories of `path` when
`makedirs=True`; returns the updated filesystem and whether directories
were (or would be) created; `none` models `os.makedirs` raising. -/
def stepMakedirs (ctx : Ctx) (p : Params) (path : String) (fs : FS) :
    Option (FS × Bool) :=
  if !p.makedirs then some (fs, false)
  else
    let parent := dirname path
    if isDir fs parent then some (fs, false)
    else if ctx.checkMode then some (fs, true)
    else
      match makedirsFS ctx.now fs parent with
      | some fs2 => some (fs2, true)
      | none => none

/-- The result of `FSBuilder._validate_file`: pass, or a `fail_json`
with the filesystem it leaves (the nonzero-exit path unlinks the staged
file first; the missing-placeholder path aborts immediately). -/
inductive ValidateRes where
  | pass
  | fail (fs : FS) (f : RunFail)
  deriving DecidableEq, Repr

/-- `FSBuilder._validate_file(tmp_path, validate_cmd)`. -/
def validateFile (ctx : Ctx) (fs : FS) (tmpPath validateCmd : String) :
    ValidateRes :=
  if !strContains validateCmd "%s" then
    .fail fs { msg := "validate command must contain %s: " ++ validateCmd }
  else
    let cmd := substPercentS validateCmd tmpPath
    let rse := ctx.execCmd cmd
    if rse.1 ≠ 0 then
      .fail (removeEntry fs tmpPath)
        { msg := "Validation failed: " ++ cmd,
          rc := some rse.1, stdout := some rse.2.1, stderr := some rse.2.2 }
    else .pass

/-- `FSBuilder._force_remove(dest)`: rename to a `.old` backup when
`force_backup`, else recursive/single removal. -/
def forceRemove (ctx : Ctx) (p : Params) (dest : String) (fs : FS) : FS :=
  if p.forceBackup then
    let cand := dest ++ ".old"
    let target :=
      if pathExists fs cand then dest ++ ".old." ++ toString ctx.now else cand
    renameSubtree fs dest target
  else if isDir fs dest && !isLink fs dest then removeSubtree fs dest
  else removeEntry fs dest

/-- `FSBuilder._write_content(dest, content, params)`: compare, stage
into a temp file in `dest`'s directory, validate, back up, atomically
move into place; clean the temp file up on failure. -/
def writeContent (ctx : Ctx) (p : Params) (dest content : String) (fs : FS) :
    Outcome :=
  if isFile fs dest && readFileFS fs dest = some content then
    .ok fs { changed := false }
  else
    let diff :=
      if ctx.diffMode then
        some ((if isFile fs dest then (readFileFS fs dest).getD "" else ""), content)
      else none
    if ctx.checkMode then .ok fs { changed := true, diff := diff }
    else
      let destDir := if dirname dest = "" then "." else dirname dest
      if !isDir fs destDir then unexpectedFail fs "mkstemp failed"
      else
        let tmpPath := freshTmpName fs destDir
        let fs1 := setEntry fs tmpPath (mkFile content 0 (freshIno fs) ctx.now)
        let afterValidate : ValidateRes :=
          match p.validate with
          | some v => validateFile ctx fs1 tmpPath v
          | none => .pass
        match afterValidate with
        | .fail fsF f => .failed fsF f
        | .pass =>
          let doBackup := p.backup && isFile fs1 dest
          let fs2 := if doBackup then (backupLocal ctx.now fs1 dest).1 else fs1
          let backupFile :=
            if doBackup then some (backupLocal ctx.now fs1 dest).2 else none
          match atomicMove fs2 tmpPath dest with
          | some fs3 =>
            .ok fs3 { changed := true, diff := diff, backupFile := backupFile }
          | none => unexpectedFail (removeEntry fs2 tmpPath) "atomic_move failed"

/-! ## State handlers -/

/-- The tail of `_handle_copy` for a content-based write: write, then
apply attributes outside check mode and set the message. -/
def copyContentFinish (ctx : Ctx) (dest : String) (out : Outcome) : Outcome :=
  match out with
  | .failed fsF f => .failed fsF f
  | .ok fs2 r =>
    let changed := if ctx.checkMode then r.changed else applyAttributes dest r.changed
    .ok fs2 { r with
              changed := changed,
              msg := if changed then "content updated" else "content already correct" }

/-- The stage-commit tail of `_copy_from_src` once the source has been
copied to the staged temp file: validate, back up, atomically move. -/
def copySrcCommit (ctx : Ctx) (p : Params) (dest tmpPath : String)
    (diff : Option (String × String)) (fs2 : FS) : Outcome :=
  let afterValidate : ValidateRes :=
    match p.validate with
    | some v => validateFile ctx fs2 tmpPath v
    | none => .pass
  match afterValidate with
  | .fail fsF f => .failed fsF f
  | .pass =>
    let doBackup := p.backup && isFile fs2 dest
    let fs3 := if doBackup then (backupLocal ctx.now fs2 dest).1 else fs2
    let backupFile :=
      if doBackup then some (backupLocal ctx.now fs2 dest).2 else none
    match atomicMove fs3 tmpPath dest with
    | some fs4 =>
      .ok fs4 { changed := applyAttributes dest true, msg := "file updated",
                diff := diff, backupFile := backupFile }
    | none => unexpectedFail (removeEntry fs3 tmpPath) "atomic_move failed"

/-- The post-conflict body of `FSBuilder._copy_from_src`: checksum
comparison, then stage-copy and `copySrcCommit`. -/
def copySrcBody (ctx : Ctx) (p : Params) (dest src : String) (fs : FS) :
    Outcome :=
  let srcChecksum := sha256FS fs src
  if isFile fs dest && sha256FS fs dest = srcChecksum then
    .ok fs { changed := applyAttributes dest false, msg := "file already correct" }
  else
    let diff :=
      if ctx.diffMode then
        match readFileFS fs src with
        | some a => some ((if isFile fs dest then (readFileFS fs dest).getD "" else ""), a)
        | none => some ("<binary or unreadable>", "<binary or unreadable>")
      else none
    if ctx.checkMode then
      .ok fs { changed := true, msg := "file would be updated", diff := diff }
    else
      let destDir := if dirname dest = "" then "." else dirname dest
      if !isDir fs destDir then unexpectedFail fs "mkstemp failed"
      else
        let tmpPath := freshTmpName fs destDir
        let fs1 := setEntry fs tmpPath (mkFile "" 0 (freshIno fs) ctx.now)
        match readFileFS fs1 src with
        | none => unexpectedFail (removeEntry fs1 tmpPath) "shutil.copy2 failed"
        | some c =>
          let fs2 := setEntry fs1 tmpPath (mkFile c 0 (freshIno fs) ctx.now)
          copySrcCommit ctx p dest tmpPath diff fs2

/-- `FSBuilder._copy_from_src(dest, src, params)`. -/
def copyFromSrc (ctx : Ctx) (p : Params) (dest src : String) (fs : FS) :
    Outcome :=
  if !pathExists fs src then
    .failed fs { msg := "Source file not found: " ++ src }
  else if pathExists fs dest && !isFile fs dest then
    if !p.force then
      .failed fs { msg := "Destination exists but is not a regular file: " ++ dest
                          ++ ". Use force=true." }
    else
      let fs1 := if ctx.checkMode then fs else forceRemove ctx p dest fs
      copySrcBody ctx p dest src fs1
  else copySrcBody ctx p dest src fs

/-- `FSBuilder._handle_copy(params)` (used for `state=copy` and
`state=template`, which the action plugin converts to copy). -/
def handleCopy (ctx : Ctx) (p : Params) (fs : FS) : Outcome :=
  let dest := p.dest
  if p.content.isSome && p.src.isSome then
    .failed fs { msg := "\x27content\x27 and \x27src\x27 are mutually exclusive" }
  else
    match stepMakedirs ctx p dest fs with
    | none => unexpectedFail fs "os.makedirs failed"
    | some (fs1, _) =>
      match p.content with
      | some content =>
        if pathExists fs1 dest && !isFile fs1 dest then
          if !p.force then
            .failed fs1 { msg := "Destination exists but is not a regular file: "
                                 ++ dest ++ ". Use force=true." }
          else
            let fs2 := if ctx.checkMode then fs1 else forceRemove ctx p dest fs1
            copyContentFinish ctx dest (writeContent ctx p dest content fs2)
        else copyContentFinish ctx dest (writeContent ctx p dest content fs1)
      | none =>
        match p.src with
        | some src => copyFromSrc ctx p dest src fs1
        | none =>
          .failed fs1 { msg := "Either \x27content\x27 or \x27src\x27 must be provided for state=copy" }

/-- The creation tail of `_handle_directory`. -/
def dirCreate (ctx : Ctx) (dest : String) (fs : FS) : Outcome :=
  if ctx.checkMode then
    .ok fs { changed := true, msg := "directory would be created", stateField := "directory" }
  else
    match makedirsFS ctx.now fs dest with
    | none => unexpectedFail fs "os.makedirs failed"
    | some fs2 =>
      .ok fs2 { changed := applyAttributes dest true, msg := "directory created",
                stateField := "directory" }

/-- `FSBuilder._handle_directory(params)`. -/
def handleDirectory (ctx : Ctx) (p : Params) (fs : FS) : Outcome :=
  let dest := rstripSlash p.dest
  match stepMakedirs ctx p dest fs with
  | none => unexpectedFail fs "os.makedirs failed"
  | some (fs1, _) =>
    if isDir fs1 dest && !isLink fs1 dest then
      let changed := applyAttributes dest false
      let changed :=
        if p.recurse then
          (walkPaths fs1 dest).foldl (fun ch q => applyAttributes q ch) changed
        else changed
      .ok fs1 { changed := changed, stateField := "directory",
                msg := if changed then "directory attributes changed"
                       else "directory already exists" }
    else if pathExists fs1 dest || isLink fs1 dest then
      if !p.force then
        .failed fs1 { msg := "Path exists but is not a directory: " ++ dest
                             ++ ". Use force=true to replace." }
      else
        let fs2 := if ctx.checkMode then fs1 else forceRemove ctx p dest fs1
        dirCreate ctx dest fs2
    else dirCreate ctx dest fs1

/-- The creation tail of `_handle_exists`. -/
def existsCreate (ctx : Ctx) (dest : String) (fs : FS) : Outcome :=
  if ctx.checkMode then
    .ok fs { changed := true, msg := "file would be created", stateField := "exists" }
  else
    match openAppendCreate ctx.now fs dest with
    | none => unexpectedFail fs "open failed"
    | some fs2 =>
      .ok fs2 { changed := applyAttributes dest true, msg := "file created",
                stateField := "exists" }

/-- `FSBuilder._handle_exists(params)`. -/
def handleExists (ctx : Ctx) (p : Params) (fs : FS) : Outcome :=
  let dest := p.dest
  match stepMakedirs ctx p dest fs with
  | none => unexpectedFail fs "os.makedirs failed"
  | some (fs1, _) =>
    if isFile fs1 dest && !isLink fs1 dest then
      .ok fs1 { changed := applyAttributes dest false, msg := "file already exists",
                stateField := "exists" }
    else if (pathExists fs1 dest || isLink fs1 dest) && !isFile fs1 dest then
      if !p.force then
        .failed fs1 { msg := "Path exists but is not a regular file: " ++ dest
                             ++ ". Use force=true." }
      else
        let fs2 := if ctx.checkMode then fs1 else forceRemove ctx p dest fs1
        existsCreate ctx dest fs2
    else existsCreate ctx dest fs1

/-- `FSBuilder._handle_touch(params)`: always reports changed. -/
def handleTouch (ctx : Ctx) (p : Params) (fs : FS) : Outcome :=
  let dest := p.dest
  match stepMakedirs ctx p dest fs with
  | none => unexpectedFail fs "os.makedirs failed"
  | some (fs1, _) =>
    if ctx.checkMode then
      .ok fs1 { changed := true, msg := "file would be touched", stateField := "touch" }
    else
      let created : Option FS :=
        if !pathExists fs1 dest then openAppendCreate ctx.now fs1 dest else some fs1
      match created with
      | none => unexpectedFail fs1 "open failed"
      | some fs2 =>
        let parsedA : Option (Option Nat) :=
          match p.accessTime with
          | none => some none
          | some s => (parseTime s).map some
        match parsedA with
        | none => .failed fs2 { msg := "Cannot parse time value: " ++ (p.accessTime.getD "") }
        | some at_ =>
          let parsedM : Option (Option Nat) :=
            match p.modificationTime with
            | none => some none
            | some s => (parseTime s).map some
          match parsedM with
          | none =>
            .failed fs2 { msg := "Cannot parse time value: " ++ (p.modificationTime.getD "") }
          | some mt =>
            match utimeFS fs2 dest (at_.getD ctx.now) (mt.getD ctx.now) with
            | none => unexpectedFail fs2 "utime failed"
            | some fs3 =>
              .ok fs3 { changed := applyAttributes dest true, msg := "file touched",
                        stateField := "touch" }

/-- `FSBuilder._handle_absent(params)`: remove file/directory, with glob
support in the basename.  (The source contains no safety gate: there is
no deny-list check and no unsafe-override option.) -/
def handleAbsent (ctx : Ctx) (p : Params) (fs : FS) : Outcome :=
  let dest := p.dest
  let hasGlob := (basename dest).data.any (fun c => c = '*' ∨ c = '?' ∨ c = '[')
  if hasGlob then
    let found := globMatches fs dest
    if found.isEmpty then
      .ok fs { changed := false, msg := "no paths matched glob pattern",
               stateField := "absent" }
    else
      let diff :=
        if ctx.diffMode then
          some (String.intercalate "\n" found ++ "\n", "")
        else none
      if ctx.checkMode then
        .ok fs { changed := true, diff := diff, stateField := "absent",
                 msg := toString found.length ++ " path(s) would be removed" }
      else
        let fs2 := found.foldl
          (fun f path =>
            if isDir f path && !isLink f path then removeSubtree f path
            else removeEntry f path) fs
        .ok fs2 { changed := true, diff := diff, stateField := "absent",
                  msg := toString found.length ++ " path(s) removed" }
  else
    if !pathExists fs dest && !isLink fs dest then
      .ok fs { changed := false, msg := "path does not exist", stateField := "absent" }
    else
      let diff :=
        if ctx.diffMode then
          let beforeContent :=
            if isFile fs dest then (readFileFS fs dest).getD ""
            else if isDir fs dest then
              let entries := listDirFS fs dest
              if entries.isEmpty then "" else String.intercalate "\n" entries ++ "\n"
            else ""
          some (beforeContent, "")
        else none
      if ctx.checkMode then
        .ok fs { changed := true, diff := diff, stateField := "absent",
                 msg := "path would be removed" }
      else
        let fs2 :=
          if isDir fs dest && !isLink fs dest then removeSubtree fs dest
          else removeEntry fs dest
        .ok fs2 { changed := true, diff := diff, stateField := "absent",
                  msg := "path removed" }

/-- The creation tail of `_handle_link`. -/
def linkCreate (ctx : Ctx) (src dest : String) (fs : FS) : Outcome :=
  if ctx.checkMode then
    .ok fs { changed := true, msg := "symlink would be created", stateField := "link" }
  else
    let fs2 := setEntry fs dest (mkSymlink src 0 (freshIno fs) ctx.now)
    .ok fs2 { changed := applyAttributes dest true, msg := "symlink created",
              stateField := "link" }

/-- `FSBuilder._handle_link(params)`. -/
def handleLink (ctx : Ctx) (p : Params) (fs : FS) : Outcome :=
  let dest := p.dest
  match p.src with
  | none => .failed fs { msg := "\x27src\x27 is required for state=link" }
  | some src =>
    if src = "" then .failed fs { msg := "\x27src\x27 is required for state=link" }
    else
      match stepMakedirs ctx p dest fs with
      | none => unexpectedFail fs "os.makedirs failed"
      | some (fs1, _) =>
        if isLink fs1 dest && readLink fs1 dest = some src then
          .ok fs1 { changed := applyAttributes dest false,
                    msg := "symlink already correct", stateField := "link" }
        else if pathExists fs1 dest || isLink fs1 dest then
          if !p.force then
            .failed fs1 { msg := "Path exists at " ++ dest
                                 ++ " but is not the correct symlink. Use force=true." }
          else
            let fs2 := if ctx.checkMode then fs1 else forceRemove ctx p dest fs1
            linkCreate ctx src dest fs2
        else linkCreate ctx src dest fs1

/-- `FSBuilder._handle_hard(params)`.  Note the already-correct test of
the source compares only `st_ino` of `dest` and `src` (`os.stat(dest)
.st_ino == os.stat(src).st_ino`), not the `(st_dev, st_ino)` pair. -/
def handleHard (ctx : Ctx) (p : Params) (fs : FS) : Outcome :=
  let dest := p.dest
  match p.src with
  | none => .failed fs { msg := "\x27src\x27 is required for state=hard" }
  | some src =>
    if src = "" then .failed fs { msg := "\x27src\x27 is required for state=hard" }
    else
      match stepMakedirs ctx p dest fs with
      | none => unexpectedFail fs "os.makedirs failed"
      | some (fs1, _) =>
        if pathExists fs1 dest && pathExists fs1 src
            && (statFS fs1 dest).map Prod.snd = (statFS fs1 src).map Prod.snd then
          .ok fs1 { changed := applyAttributes dest false,
                    msg := "hard link already correct", stateField := "hard" }
        else
          let conflict := pathExists fs1 dest || isLink fs1 dest
          if conflict && !p.force then
            .failed fs1 { msg := "Path exists at " ++ dest
                                 ++ " but is not the correct hard link. Use force=true." }
          else
            let doBackup :=
              conflict && !ctx.checkMode && p.backup && isFile fs1 dest
            let fs2 :=
              if conflict && !ctx.checkMode then
                forceRemove ctx p dest
                  (if doBackup then (backupLocal ctx.now fs1 dest).1 else fs1)
              else fs1
            let backupFile :=
              if doBackup then some (backupLocal ctx.now fs1 dest).2 else none
            if !pathExists fs2 src then
              .failed fs2 { msg := "Source file does not exist: " ++ src }
            else if ctx.checkMode then
              .ok fs2 { changed := true, msg := "hard link would be created",
                        stateField := "hard", backupFile := backupFile }
            else
              match entryAt fs2 src with
              | some e =>
                match e.kind with
                | .file _ =>
                  let fs3 := setEntry fs2 dest e
                  .ok fs3 { changed := applyAttributes dest true,
                            msg := "hard link created", stateField := "hard",
                            backupFile := backupFile }
                | _ => unexpectedFail fs2 "os.link failed"
              | none => unexpectedFail fs2 "os.link failed"

/-! ## Line-in-file and block-in-file -/

/-- The last index whose line the matcher accepts: the `for i, line in
enumerate(lines): if pattern.search(line): last_match_idx = i` loop. -/
def lastMatchIdx (f : String → Bool) : List String → Option Nat
  | [] => none
  | l :: ls =>
    match lastMatchIdx f ls with
    | some i => some (i + 1)
    | none => if f l then some 0 else none

/-- Insertion-position logic shared by `_lineinfile_present` once the
line is known to need inserting. -/
def lineinfileInsert (lines : List String) (lwn : String)
    (insertafter : Option AfterHint) (insertbefore : Option BeforeHint) :
    List String :=
  match insertbefore with
  | some .bof => lwn :: lines
  | some (.pat f) =>
    match lastMatchIdx f lines with
    | some i => lines.insertIdx i lwn
    | none => lines ++ [lwn]
  | none =>
    match insertafter with
    | some (.pat f) =>
      match lastMatchIdx f lines with
      | some i => lines.insertIdx (i + 1) lwn
      | none => lines ++ [lwn]
    | _ =>
      match lines.getLast? with
      | some l =>
        if !endsWithNl l then lines.dropLast ++ [l ++ "\n", lwn]
        else lines ++ [lwn]
      | none => [lwn]

/-- `FSBuilder._lineinfile_present(lines, line, regexp, insertafter,
insertbefore)`. -/
def lineinfilePresent (lines : List String) (line : String)
    (regexp : Option (String → Bool)) (insertafter : Option AfterHint)
    (insertbefore : Option BeforeHint) : List String :=
  let lwn := if endsWithNl line then line else line ++ "\n"
  match regexp with
  | some f =>
    match lastMatchIdx f lines with
    | some i =>
      if rstripNl (lines.getD i "") ≠ rstripNl line then lines.set i lwn
      else lines
    | none => lineinfileInsert lines lwn insertafter insertbefore
  | none =>
    if lines.any (fun l => rstripNl l = rstripNl line) then lines
    else lineinfileInsert lines lwn insertafter insertbefore

/-- `FSBuilder._lineinfile_absent(lines, line, regexp)`. -/
def lineinfileAbsent (lines : List String) (line : Option String)
    (regexp : Option (String → Bool)) : List String :=
  match regexp with
  | some f => lines.filter (fun l => !f l)
  | none =>
    match line with
    | some l0 => lines.filter (fun l => rstripNl l ≠ rstripNl l0)
    | none => lines

/-- The marker-pair scan of `_blockinfile_present`/`_blockinfile_absent`:
`begin_idx` keeps updating to the latest begin-marker line; the loop
breaks at the first end-marker line seen while a begin is recorded. -/
def findPairGo (bm em : String) : List String → Option Nat → Nat →
    Option (Nat × Nat)
  | [], _, _ => none
  | l :: ls, b, i =>
    let b2 := if rstripNl l = bm then some i else b
    match b2 with
    | some bi => if rstripNl l = em then some (bi, i) else findPairGo bm em ls b2 (i + 1)
    | none => findPairGo bm em ls none (i + 1)

def findPair (bm em : String) (lines : List String) : Option (Nat × Nat) :=
  findPairGo bm em lines none 0

/-- Append a block at end of file, first newline-terminating the prior
last line if needed (the shared default-EOF tail of
`_blockinfile_present`). -/
def appendBlockAtEof (lines blockLines : List String) : List String :=
  match lines.getLast? with
  | some l =>
    if !endsWithNl l then lines.dropLast ++ (l ++ "\n") :: blockLines
    else lines ++ blockLines
  | none => blockLines

/-- `FSBuilder._blockinfile_present(lines, block, begin_marker,
end_marker, insertafter, insertbefore)`. -/
def blockinfilePresent (lines : List String) (block bm em : String)
    (insertafter : Option AfterHint) (insertbefore : Option BeforeHint) :
    List String :=
  let block := if block ≠ "" && !endsWithNl block then block ++ "\n" else block
  let blockLines := (bm ++ "\n") :: toLinesKeep block ++ [em ++ "\n"]
  match findPair bm em lines with
  | some (b, e) => lines.take b ++ blockLines ++ lines.drop (e + 1)
  | none =>
    match insertbefore with
    | some .bof => blockLines ++ lines
    | some (.pat f) =>
      match lastMatchIdx f lines with
      | some i => lines.take i ++ blockLines ++ lines.drop i
      | none => appendBlockAtEof lines blockLines
    | none =>
      match insertafter with
      | some (.pat f) =>
        match lastMatchIdx f lines with
        | some i => lines.take (i + 1) ++ blockLines ++ lines.drop (i + 1)
        | none => appendBlockAtEof lines blockLines
      | _ => appendBlockAtEof lines blockLines

/-- `FSBuilder._blockinfile_absent(lines, begin_marker, end_marker)`. -/
def blockinfileAbsent (lines : List String) (bm em : String) : List String :=
  match findPair bm em lines with
  | some (b, e) => lines.take b ++ lines.drop (e + 1)
  | none => lines

/-- The write-and-finish tail shared by `_handle_lineinfile` and
`_handle_blockinfile` once the transformed lines differ: diff, check
mode, `_write_content`, result merge, attribute application. -/
def editWriteFinish (ctx : Ctx) (p : Params) (dest : String)
    (oldContent newContent : String) (fs : FS)
    (stateName checkMsg doneMsg : String) : Outcome :=
  let diff := if ctx.diffMode then some (oldContent, newContent) else none
  if ctx.checkMode then
    .ok fs { changed := true, msg := checkMsg, stateField := stateName, diff := diff }
  else
    match writeContent ctx p dest newContent fs with
    | .failed fsF f => .failed fsF f
    | .ok fs2 wr =>
      .ok fs2 { changed := applyAttributes dest true, msg := doneMsg,
                stateField := stateName,
                backupFile := wr.backupFile,
                diff := if wr.diff.isSome then wr.diff else diff }

/-- `FSBuilder._handle_lineinfile(params)`. -/
def handleLineinfile (ctx : Ctx) (p : Params) (fs : FS) : Outcome :=
  let dest := p.dest
  if p.insertafter.isSome && p.insertbefore.isSome then
    .failed fs { msg := "\x27insertafter\x27 and \x27insertbefore\x27 are mutually exclusive" }
  else if p.lineState = "present" && p.line.isNone then
    .failed fs { msg := "\x27line\x27 is required when line_state=present" }
  else if p.lineState = "absent" && p.line.isNone && p.regexp.isNone then
    .failed fs { msg := "\x27line\x27 or \x27regexp\x27 is required when line_state=absent" }
  else
    match stepMakedirs ctx p dest fs with
    | none => unexpectedFail fs "os.makedirs failed"
    | some (fs1, _) =>
      if !isFile fs1 dest && p.lineState ≠ "present" then
        .ok fs1 { changed := false, stateField := "lineinfile",
                  msg := "file does not exist, nothing to remove" }
      else
        let lines :=
          if isFile fs1 dest then toLines ((readFileFS fs1 dest).getD "") else []
        let lines2 :=
          if p.lineState = "present" then
            lineinfilePresent lines (p.line.getD "") p.regexp p.insertafter p.insertbefore
          else lineinfileAbsent lines p.line p.regexp
        if lines2 = lines then
          .ok fs1 { changed := applyAttributes dest false,
                    msg := "line already correct", stateField := "lineinfile" }
        else
          editWriteFinish ctx p dest (joinLines lines) (joinLines lines2) fs1
            "lineinfile" "line would be updated" "line updated"

/-- `FSBuilder._handle_blockinfile(params)`. -/
def handleBlockinfile (ctx : Ctx) (p : Params) (fs : FS) : Outcome :=
  let dest := p.dest
  if p.insertafter.isSome && p.insertbefore.isSome then
    .failed fs { msg := "\x27insertafter\x27 and \x27insertbefore\x27 are mutually exclusive" }
  else if p.blockState = "present" && p.block.isNone then
    .failed fs { msg := "\x27block\x27 is required when block_state=present" }
  else
    match stepMakedirs ctx p dest fs with
    | none => unexpectedFail fs "os.makedirs failed"
    | some (fs1, _) =>
      let bm := replaceSub p.marker "{mark}" p.markerBegin
      let em := replaceSub p.marker "{mark}" p.markerEnd
      if !isFile fs1 dest && p.blockState ≠ "present" then
        .ok fs1 { changed := false, stateField := "blockinfile",
                  msg := "file does not exist, nothing to remove" }
      else
        let lines :=
          if isFile fs1 dest then toLines ((readFileFS fs1 dest).getD "") else []
        let lines2 :=
          if p.blockState = "present" then
            blockinfilePresent lines (p.block.getD "") bm em p.insertafter p.insertbefore
          else blockinfileAbsent lines bm em
        if lines2 = lines then
          .ok fs1 { changed := applyAttributes dest false,
                    msg := "block already correct", stateField := "blockinfile" }
        else
          editWriteFinish ctx p dest (joinLines lines) (joinLines lines2) fs1
            "blockinfile" "block would be updated" "block updated"

/-! ## Dispatch (`FSBuilder.run`) -/

/-- `FSBuilder._check_creates_removes(params)`: the `creates`/`removes`
pre-flight guards (Python truthiness: an empty string is not set). -/
def checkCreatesRemoves (p : Params) (fs : FS) : Option Res :=
  match p.creates with
  | some c =>
    if c ≠ "" && pathExists fs c then
      some { changed := false, skipped := true,
             msg := "Skipped: \x27" ++ c ++ "\x27 exists" }
    else
      match p.removes with
      | some r =>
        if r ≠ "" && !pathExists fs r then
          some { changed := false, skipped := true,
                 msg := "Skipped: \x27" ++ r ++ "\x27 does not exist" }
        else none
      | none => none
  | none =>
    match p.removes with
    | some r =>
      if r ≠ "" && !pathExists fs r then
        some { changed := false, skipped := true,
               msg := "Skipped: \x27" ++ r ++ "\x27 does not exist" }
      else none
    | none => none

/-- The `handler = self.STATE_HANDLERS.get(state)` dispatch of
`FSBuilder.run()`: resolve the handler name and call the handler. -/
def dispatchState (ctx : Ctx) (p : Params) (fs : FS) : Outcome :=
  match lookupHandler p.state with
  | none => .failed fs { msg := "Unknown state: " ++ p.state }
  | some h =>
    if h = "_handle_copy" then handleCopy ctx p fs
    else if h = "_handle_directory" then handleDirectory ctx p fs
    else if h = "_handle_exists" then handleExists ctx p fs
    else if h = "_handle_touch" then handleTouch ctx p fs
    else if h = "_handle_absent" then handleAbsent ctx p fs
    else if h = "_handle_link" then handleLink ctx p fs
    else if h = "_handle_hard" then handleHard ctx p fs
    else if h = "_handle_lineinfile" then handleLineinfile ctx p fs
    else if h = "_handle_blockinfile" then handleBlockinfile ctx p fs
    else .failed fs { msg := "Unknown state: " ++ p.state }

/-- The `result.setdefault("state", state)` tail of `FSBuilder.run()`:
fill the echoed `state` field of a success result when the handler left
it empty. -/
def runFinish (state : String) (out : Outcome) : Outcome :=
  match out with
  | .ok f r =>
    .ok f { r with stateField := if r.stateField = "" then state else r.stateField }
  | x => x

/-- `FSBuilder.run()`: creates/removes guards, dispatch through
`STATE_HANDLERS`, and the `setdefault` of the echoed result fields. -/
def run (ctx : Ctx) (p : Params) (fs : FS) : Outcome :=
  match checkCreatesRemoves p fs with
  | some r => .ok fs { r with stateField := p.state }
  | none => runFinish p.state (dispatchState ctx p fs)

/-! ## Concrete fixtures used by the per-claim theorems -/

/-- A real (non-check) invocation context. -/
def realCtx : Ctx := {}

/-- A check-mode invocation context. -/
def checkCtx : Ctx := { checkMode := true }

/-- A filesystem holding `/etc` (with a file inside) and `/home`. -/
def etcFS : FS :=
  [("/etc", mkDir 1 10 0), ("/etc/passwd", mkFile "root:x:0:0\n" 1 11 0),
   ("/home", mkDir 1 12 0)]

/-- Two regular files with the same inode number on different devices. -/
def crossDevFS : FS :=
  [("/data/dest.txt", mkFile "content" 1 12345 0),
   ("/mnt/src.txt", mkFile "content" 2 12345 0)]

/-- A filesystem holding a staged temp file for validate-command runs. -/
def stagedFS : FS :=
  [("/work", mkDir 0 1 0), ("/work/stage.tmp", mkFile "cfg\n" 0 2 0)]

/-- `state=hard` parameters whose `force_backup` rename creates the
source path during the real run: `dest=/d` is renamed to `/d.old`,
which brings `src=/d.old/f` into existence mid-call. -/
def hardRenameParams : Params :=
  { dest := "/d", state := "hard", src := some "/d.old/f",
    force := true, forceBackup := true }

/-- A directory `/d` holding one file `/d/f` (the future `/d.old/f`). -/
def hardRenameFS : FS :=
  [("/d", mkDir 0 1 0), ("/d/f", mkFile "c" 0 2 0)]

/-- A plain content-based copy parameter set used as a concrete
check-mode-prediction input. -/
def copyContentParams : Params :=
  { dest := "/work/out.txt", state := "copy", content := some "x" }

/-- `state=touch` parameters on a fresh destination. -/
def touchParams : Params := { dest := "/work/f", state := "touch" }

/-- `q` is bound directly (without symlink indirection) to a regular
file in `fs`. -/
def plainFileAt (fs : FS) (q : String) : Bool :=
  match lookupFS fs q with
  | some e => match e.kind with | .file _ => true | _ => false
  | none => false

/-- The string contains no newline character. -/
def noNl (s : String) : Bool := s.data.all (fun c => !(c = '\n'))

/-- The string contains no carriage-return character (written raw, a
`\r` would be translated to `\n` when the file is read back in text
mode). -/
def noCr (s : String) : Bool := s.data.all (fun c => !(c = '\r'))

/-- Aliasing/wellformedness side conditions under which a second
identical real invocation reports no change (used by the amended
idempotence claim): a copy/hard source is a plain regular file not
reachable by extending `dest`; an `exists` destination is not a
symlink pointing at a regular file; `touch` is never stable (it always
reports a change); a `lineinfile` line is newline- and
carriage-return-free and matched by its own `regexp` (when one is
given), with the edited file's lines wellformed, carriage-return-free
and newline-terminated (a raw `\r` written out would come back as
`\n` through the text-mode read and defeat the comparison);
`blockinfile` markers are distinct, nonempty, newline- and
carriage-return-free and `rstrip`-clean, and neither the block body
nor the current file contains a marker line. -/
def stableForSecond (p : Params) (fs : FS) : Bool :=
  if p.state = "copy" ∨ p.state = "template" then
    match p.src with
    | some src => plainFileAt fs src && !strPref p.dest src
    | none => true
  else if p.state = "directory" then
    (ancestorPaths (rstripSlash p.dest)).contains (rstripSlash p.dest)
  else if p.state = "exists" then !(isLink fs p.dest && isFile fs p.dest)
  else if p.state = "hard" then
    match p.src with
    | some src => plainFileAt fs src && !strPref p.dest src
    | none => true
  else if p.state = "touch" then false
  else if p.state = "lineinfile" then
    (let lines :=
       if isFile fs p.dest then toLines ((readFileFS fs p.dest).getD "") else []
     lines.all (fun l2 => !(l2 = "")
       && l2.data.dropLast.all (fun ch => !(ch = '\n'))
       && l2.data.all (fun ch => !(ch = '\r'))) &&
     (if p.lineState = "present" then
       (match p.line with
        | some l =>
          noNl l && noCr l &&
          (match p.regexp with
           | some f => f (l ++ "\n")
           | none => true) &&
          lines.all (fun l2 => endsWithNl l2)
        | none => true)
      else lines.dropLast.all (fun l2 => endsWithNl l2)))
  else if p.state = "blockinfile" then
    (let bm := replaceSub p.marker "{mark}" p.markerBegin
     let em := replaceSub p.marker "{mark}" p.markerEnd
     let lines :=
       if isFile fs p.dest then toLines ((readFileFS fs p.dest).getD "") else []
     lines.all (fun l2 => !(l2 = "")
       && l2.data.dropLast.all (fun ch => !(ch = '\n'))
       && l2.data.all (fun ch => !(ch = '\r'))) &&
     lines.all (fun l2 => endsWithNl l2) &&
     noNl bm && noNl em && noCr bm && noCr em &&
     !(bm = em) && !(bm = "") && !(em = "") &&
     decide (rstripNl bm = bm) && decide (rstripNl em = em) &&
     (match p.block with
      | some b =>
        (toLinesKeep (if b ≠ "" && !endsWithNl b then b ++ "\n" else b)).all
          (fun l => !(l = "") && l.data.dropLast.all (fun ch => !(ch = '\n'))
            && l.data.all (fun ch => !(ch = '\r'))
            && endsWithNl l && !(rstripNl l = bm) && !(rstripNl l = em))
      | none => true) &&
     lines.all (fun l => !(rstripNl l = bm) && !(rstripNl l = em)))
  else true

/-! ## Claim theorems -/

/-- C1: the spec requires a safety gate for `state=absent` — `dest`
resolving to `/`, the empty path, or the deny-listed roots `/etc`,
`/usr`, `/boot`, `/dev` must fail with a safety error and remove
nothing unless an unsafe-override flag is set.  The source has no such
gate: `_handle_absent` with `dest="/etc"` proceeds to remove `/etc`
recursively and reports `changed=true` with `msg="path removed"` (no
failure), and `build_argument_spec` offers no unsafe-override option at
all (`allow_unsafe_deletes` is not among its keys).  Only the subpath
half of the claim holds (a nonexistent path under `/etc` is a no-op). -/
theorem absent_has_no_safety_gate :
    run realCtx { dest := "/etc", state := "absent" } etcFS
      = .ok [("/home", mkDir 1 12 0)]
          { changed := true, msg := "path removed", stateField := "absent" } ∧
    run realCtx { dest := "/etc/some-nonexistent-subpath", state := "absent" } etcFS
      = .ok etcFS
          { changed := false, msg := "path does not exist", stateField := "absent" } ∧
    "allow_unsafe_deletes" ∉ argumentSpecKeys := by
  refine ⟨by rfl, by rfl, by decide⟩

/-- C2: the spec requires hard-link idempotency to compare the full
`(device, inode)` pair.  The source's `_handle_hard` compares only
`st_ino`: for `dest` and `src` with equal inode numbers but different
device numbers it takes the "hard link already correct" branch,
reporting `changed=false` and relinking nothing (the filesystem is
returned untouched), where the claim requires `changed=true` and a
relink. -/
theorem hard_link_ignores_device :
    handleHard realCtx
      { dest := "/data/dest.txt", state := "hard", src := some "/mnt/src.txt" }
      crossDevFS
      = .ok crossDevFS
          { changed := false, msg := "hard link already correct", stateField := "hard" } := by
  rfl

/-- C9: the spec requires validate-command failures to be reported
without the command text in the primary `msg` field.  The source embeds
the substituted command directly in `msg` on the nonzero-exit path
(`msg = "Validation failed: <cmd>"`) and embeds the raw template in
`msg` on the missing-placeholder path, and attaches no separate
diagnostic field carrying the command. -/
theorem validate_failure_leaks_command :
    validateFile { execCmd := fun _ => (1, "out", "err") } stagedFS
        "/work/stage.tmp" "secret-tool --check %s"
      = .fail (removeEntry stagedFS "/work/stage.tmp")
          { msg := "Validation failed: secret-tool --check /work/stage.tmp",
            rc := some 1, stdout := some "out", stderr := some "err" } ∧
    strContains "Validation failed: secret-tool --check /work/stage.tmp"
      "secret-tool --check /work/stage.tmp" = true ∧
    validateFile realCtx stagedFS "/work/stage.tmp" "secret-tool --check"
      = .fail stagedFS { msg := "validate command must contain %s: secret-tool --check" } ∧
    strContains "validate command must contain %s: secret-tool --check"
      "secret-tool --check" = true := by
  refine ⟨by rfl, by decide, by rfl, by decide⟩

/-- C8: `state=touch` reports `changed=true` on every invocation that
returns a result — including check mode, including when the file
already exists, and including when no explicit
`access_time`/`modification_time` is supplied (the handler creates the
file if absent and then sets the timestamps). -/
theorem touch_always_reports_changed (ctx : Ctx) (p : Params) (fs fs2 : FS)
    (r : Res) (h : handleTouch ctx p fs = .ok fs2 r) : r.changed = true := by
  simp only [handleTouch] at h
  repeat' split at h
  all_goals
    first
      | (simp only [unexpectedFail] at h
         exact Outcome.noConfusion h)
      | (exact Outcome.noConfusion h)
      | (simp only [Outcome.ok.injEq] at h
         rw [← h.2]
         try rfl)

/-- Witness for C8 at a concrete input: a pre-existing file, no
explicit timestamps — the invocation still reports `changed=true`. -/
theorem touch_always_reports_changed_witness :
    handleTouch realCtx { dest := "/work/stage.tmp", state := "touch" } stagedFS
      = .ok [("/work/stage.tmp", mkFile "cfg\n" 0 2 0), ("/work", mkDir 0 1 0)]
          { changed := true, msg := "file touched", stateField := "touch" } ∧
    ({ changed := true, msg := "file touched", stateField := "touch" } : Res).changed
      = true := by
  constructor
  · rfl
  · exact touch_always_reports_changed realCtx
      { dest := "/work/stage.tmp", state := "touch" } stagedFS
      [("/work/stage.tmp", mkFile "cfg\n" 0 2 0), ("/work", mkDir 0 1 0)]
      { changed := true, msg := "file touched", stateField := "touch" } (by rfl)

/-! ### Last-match characterization (used by the insertion claims) -/

theorem lastMatchIdxNoneIff (f : String → Bool) (lines : List String) :
    lastMatchIdx f lines = none ↔ ∀ l ∈ lines, f l = false := by
  induction lines with
  | nil => simp [lastMatchIdx]
  | cons l ls ih =>
    simp only [lastMatchIdx]
    cases hm : lastMatchIdx f ls with
    | some i =>
      simp only [reduceCtorEq, false_iff]
      intro hall
      have : lastMatchIdx f ls = none := (ih.mpr (fun x hx => hall x (.tail _ hx)))
      rw [hm] at this
      exact Option.noConfusion this
    | none =>
      have hls := ih.mp hm
      constructor
      · intro hnone x hx
        cases hx with
        | head => by_cases hfl : f l = true
                  · rw [if_pos hfl] at hnone; exact Option.noConfusion hnone
                  · simpa using hfl
        | tail _ hx => exact hls x hx
      · intro hall
        have : f l = false := hall l (.head _)
        simp [this]

theorem lastMatchIdxSpec (f : String → Bool) (lines : List String) (j : Nat)
    (h : lastMatchIdx f lines = some j) :
    j < lines.length ∧ f (lines.getD j "") = true ∧
      ∀ k, j < k → k < lines.length → f (lines.getD k "") = false := by
  induction lines generalizing j with
  | nil => simp [lastMatchIdx] at h
  | cons l ls ih =>
    simp only [lastMatchIdx] at h
    cases hm : lastMatchIdx f ls with
    | some i =>
      rw [hm] at h
      cases h
      obtain ⟨hlt, hmatch, hafter⟩ := ih i hm
      refine ⟨by simpa using Nat.succ_lt_succ hlt, by simpa using hmatch, ?_⟩
      intro k hk1 hk2
      cases k with
      | zero => omega
      | succ k =>
        simp only [List.getD_cons_succ]
        exact hafter k (by omega) (by simpa using hk2)
    | none =>
      rw [hm] at h
      by_cases hfl : f l = true
      · rw [if_pos hfl] at h
        cases h
        refine ⟨by simp, by simpa using hfl, ?_⟩
        intro k hk1 hk2
        cases k with
        | zero => omega
        | succ k =>
          simp only [List.getD_cons_succ]
          have hall := (lastMatchIdxNoneIff f ls).mp hm
          have hklen : k < ls.length := by
            simp only [List.length_cons] at hk2; omega
          have hmem : ls.getD k "" ∈ ls := by
            rw [List.getD_eq_getElem?_getD, List.getElem?_eq_getElem hklen]
            exact List.getElem_mem hklen
          exact hall _ hmem
      · rw [if_neg hfl] at h
        exact Option.noConfusion h

/-- C7: insertion-position rules of `lineinfile` with
`line_state=present` once the line must be inserted (the regexp found
no line, or no regexp and the line is not present verbatim):
`insertbefore=BOF` prepends; `insertbefore=<regex>` inserts immediately
before the last matching line (no later line matches), or appends when
nothing matches; `insertafter=<regex>` (other than `EOF`) inserts
immediately after the last matching line, or appends; no hint or
`insertafter=EOF` appends, first newline-terminating the prior last
line when it lacked a terminator. -/
theorem lineinfile_insertion_positions (lines : List String) (line : String) :
    (∀ f ia ib, lastMatchIdx f lines = none →
        lineinfilePresent lines line (some f) ia ib
          = lineinfileInsert lines
              (if endsWithNl line then line else line ++ "\n") ia ib) ∧
    (∀ ia ib, lines.any (fun l => rstripNl l = rstripNl line) = false →
        lineinfilePresent lines line none ia ib
          = lineinfileInsert lines
              (if endsWithNl line then line else line ++ "\n") ia ib) ∧
    (∀ lwn ia, lineinfileInsert lines lwn ia (some .bof) = lwn :: lines) ∧
    (∀ lwn f j, lastMatchIdx f lines = some j →
        lineinfileInsert lines lwn none (some (.pat f)) = lines.insertIdx j lwn ∧
        j < lines.length ∧ f (lines.getD j "") = true ∧
        ∀ k, j < k → k < lines.length → f (lines.getD k "") = false) ∧
    (∀ lwn f, lastMatchIdx f lines = none →
        lineinfileInsert lines lwn none (some (.pat f)) = lines ++ [lwn] ∧
        ∀ l ∈ lines, f l = false) ∧
    (∀ lwn f j, lastMatchIdx f lines = some j →
        lineinfileInsert lines lwn (some (.pat f)) none
            = lines.insertIdx (j + 1) lwn ∧
        j < lines.length ∧ f (lines.getD j "") = true ∧
        ∀ k, j < k → k < lines.length → f (lines.getD k "") = false) ∧
    (∀ lwn f, lastMatchIdx f lines = none →
        lineinfileInsert lines lwn (some (.pat f)) none = lines ++ [lwn] ∧
        ∀ l ∈ lines, f l = false) ∧
    (∀ lwn ia, ia = none ∨ ia = some AfterHint.eof →
        (lines = [] → lineinfileInsert lines lwn ia none = [lwn]) ∧
        (∀ l, lines.getLast? = some l → endsWithNl l = true →
            lineinfileInsert lines lwn ia none = lines ++ [lwn]) ∧
        (∀ l, lines.getLast? = some l → endsWithNl l = false →
            lineinfileInsert lines lwn ia none
              = lines.dropLast ++ [l ++ "\n", lwn])) := by
  refine ⟨?_, ?_, ?_, ?_, ?_, ?_, ?_, ?_⟩
  · intro f ia ib h
    simp [lineinfilePresent, h]
  · intro ia ib h
    simp [lineinfilePresent, h]
  · intro lwn ia
    rfl
  · intro lwn f j h
    obtain ⟨h1, h2, h3⟩ := lastMatchIdxSpec f lines j h
    exact ⟨by simp [lineinfileInsert, h], h1, h2, h3⟩
  · intro lwn f h
    exact ⟨by simp [lineinfileInsert, h], (lastMatchIdxNoneIff f lines).mp h⟩
  · intro lwn f j h
    obtain ⟨h1, h2, h3⟩ := lastMatchIdxSpec f lines j h
    exact ⟨by simp [lineinfileInsert, h], h1, h2, h3⟩
  · intro lwn f h
    exact ⟨by simp [lineinfileInsert, h], (lastMatchIdxNoneIff f lines).mp h⟩
  · intro lwn ia hia
    refine ⟨?_, ?_, ?_⟩
    · intro hnil
      cases hia with
      | inl h => subst h; subst hnil; rfl
      | inr h => subst h; subst hnil; rfl
    · intro l hl hnl
      cases hia with
      | inl h => subst h; simp [lineinfileInsert, hl, hnl]
      | inr h => subst h; simp [lineinfileInsert, hl, hnl]
    · intro l hl hnl
      cases hia with
      | inl h => subst h; simp [lineinfileInsert, hl, hnl]
      | inr h => subst h; simp [lineinfileInsert, hl, hnl]

/-- Witness for C7 at concrete inputs: inserting before the last line
matching a `^\[section2\]`-style matcher lands immediately before it,
and the no-hint default appends after newline-terminating the last
line. -/
theorem lineinfile_insertion_positions_witness :
    lineinfileInsert ["[defaults]\n", "key1=val1\n", "[section2]\n", "key2=val2\n"]
        "key0=val0\n" none (some (.pat (fun s => strPref "[section2]" s)))
      = ["[defaults]\n", "key1=val1\n", "key0=val0\n", "[section2]\n", "key2=val2\n"] ∧
    lineinfileInsert ["a\n", "b"] "x\n" none none = ["a\n", "b\n", "x\n"] := by
  constructor
  · have h := ((lineinfile_insertion_positions
        ["[defaults]\n", "key1=val1\n", "[section2]\n", "key2=val2\n"]
        "key0=val0").2.2.2.1 "key0=val0\n"
        (fun s => strPref "[section2]" s) 2 (by rfl)).1
    rw [h]
    rfl
  · have h := ((lineinfile_insertion_positions ["a\n", "b"] "x").2.2.2.2.2.2.2
        "x\n" none (Or.inl rfl)).2.2 "b" (by rfl) (by rfl)
    rw [h]
    rfl

/-! ### Filesystem lemma kit -/

theorem keyLenLeTotal (fs : FS) (pe : String × Entry) (h : pe ∈ fs) :
    pe.1.length ≤ totalPathLen fs := by
  induction fs with
  | nil => cases h
  | cons q qs ih =>
    simp only [totalPathLen, List.foldr] at *
    cases h with
    | head => omega
    | tail _ h => have := ih h; omega

/-- The staging name chosen by `mkstemp` is not an existing path. -/
theorem freshTmpNotIn (fs : FS) (d : String) :
    lookupFS fs (freshTmpName fs d) = none := by
  unfold lookupFS
  have h : List.find? (fun pe => pe.1 = freshTmpName fs d) fs = none := by
    rw [List.find?_eq_none]
    intro pe hmem
    simp only [decide_eq_true_eq]
    intro heq
    have hlen := congrArg String.length heq
    have hle := keyLenLeTotal fs pe hmem
    simp only [freshTmpName, String.length_append, String.length_mk,
      List.length_replicate] at hlen
    omega
  rw [h]
  rfl

theorem filterNeOfNone (fs : FS) (p : String) (h : lookupFS fs p = none) :
    List.filter (fun pe => pe.1 ≠ p) fs = fs := by
  rw [List.filter_eq_self]
  intro pe hmem
  unfold lookupFS at h
  rw [Option.map_eq_none', List.find?_eq_none] at h
  have := h pe hmem
  simpa using this

/-- Unlinking a freshly staged file restores the filesystem exactly. -/
theorem removeSetCancel (fs : FS) (p : String) (e : Entry)
    (h : lookupFS fs p = none) : removeEntry (setEntry fs p e) p = fs := by
  unfold removeEntry setEntry
  rw [List.filter_cons_of_neg (by simp)]
  rw [filterNeOfNone fs p h, filterNeOfNone fs p h]

/-! ### Path-prefix and lookup-preservation lemmas -/

theorem strPrefIff (a b : String) : strPref a b = true ↔ a.data <+: b.data := by
  simp [strPref]

theorem strPrefAppend (a b : String) : strPref a (a ++ b) = true := by
  rw [strPrefIff]
  simp

theorem strPrefTrans {a b c : String} (h1 : strPref a b = true)
    (h2 : strPref b c = true) : strPref a c = true := by
  rw [strPrefIff] at *
  exact h1.trans h2

theorem strPrefSelf (a : String) : strPref a a = true := by
  rw [strPrefIff]

theorem neOfNotPref {a b : String} (h : strPref a b = false) : b ≠ a := by
  intro he
  rw [he, strPrefSelf] at h
  exact Bool.noConfusion h

theorem underPathPref {d q : String} (h : underPath d q = true) :
    strPref d q = true := by
  unfold underPath at h
  rw [strPrefIff] at *
  refine List.IsPrefix.trans ?_ h
  simp

theorem lookupSetNe (fs : FS) (p q : String) (e : Entry) (h : q ≠ p) :
    lookupFS (setEntry fs p e) q = lookupFS fs q := by
  unfold lookupFS setEntry
  rw [List.find?_cons_of_neg _ (by simpa using Ne.symm h)]
  congr 1
  induction fs with
  | nil => rfl
  | cons x xs ih =>
    by_cases hx : x.1 = p
    · rw [List.filter_cons_of_neg (by simpa using hx)]
      rw [List.find?_cons_of_neg _ (by simp [hx, Ne.symm h])]
      exact ih
    · rw [List.filter_cons_of_pos (by simpa using hx)]
      by_cases hq : x.1 = q
      · rw [List.find?_cons_of_pos _ (by simpa using hq),
          List.find?_cons_of_pos _ (by simpa using hq)]
      · rw [List.find?_cons_of_neg _ (by simpa using hq),
          List.find?_cons_of_neg _ (by simpa using hq)]
        exact ih

theorem lookupRemoveNe (fs : FS) (p q : String) (h : q ≠ p) :
    lookupFS (removeEntry fs p) q = lookupFS fs q := by
  unfold lookupFS removeEntry
  congr 1
  induction fs with
  | nil => rfl
  | cons x xs ih =>
    by_cases hx : x.1 = p
    · rw [List.filter_cons_of_neg (by simpa using hx)]
      rw [List.find?_cons_of_neg _ (by simp [hx, Ne.symm h])]
      exact ih
    · rw [List.filter_cons_of_pos (by simpa using hx)]
      by_cases hq : x.1 = q
      · rw [List.find?_cons_of_pos _ (by simpa using hq),
          List.find?_cons_of_pos _ (by simpa using hq)]
      · rw [List.find?_cons_of_neg _ (by simpa using hq),
          List.find?_cons_of_neg _ (by simpa using hq)]
        exact ih

theorem lookupRemoveSubtreeOut (fs : FS) (d q : String) (hne : q ≠ d)
    (hout : underPath d q = false) :
    lookupFS (removeSubtree fs d) q = lookupFS fs q := by
  unfold lookupFS removeSubtree
  congr 1
  induction fs with
  | nil => rfl
  | cons x xs ih =>
    by_cases hx : x.1 = d ∨ underPath d x.1 = true
    · rw [List.filter_cons_of_neg
        (by simp only [decide_eq_true_eq, not_not]; exact hx)]
      have hxq : x.1 ≠ q := by
        intro he
        cases hx with
        | inl h1 => exact hne (he ▸ h1)
        | inr h1 => rw [he, hout] at h1; exact Bool.noConfusion h1
      rw [List.find?_cons_of_neg _ (by simpa using hxq)]
      exact ih
    · rw [List.filter_cons_of_pos (by simp only [decide_eq_true_eq]; exact hx)]
      by_cases hq : x.1 = q
      · rw [List.find?_cons_of_pos _ (by simpa using hq),
          List.find?_cons_of_pos _ (by simpa using hq)]
      · rw [List.find?_cons_of_neg _ (by simpa using hq),
          List.find?_cons_of_neg _ (by simpa using hq)]
        exact ih

theorem lookupRenameOut (fs : FS) (old new q : String)
    (hold : strPref old q = false) (hnew : strPref new q = false) :
    lookupFS (renameSubtree fs old new) q = lookupFS fs q := by
  unfold lookupFS renameSubtree
  congr 1
  induction fs with
  | nil => rfl
  | cons x xs ih =>
    simp only [List.map_cons]
    by_cases hx : x.1 = old ∨ underPath old x.1 = true
    · rw [if_pos hx]
      have htgt : new ++ x.1.drop old.length ≠ q := by
        intro he
        have : strPref new q = true := by
          rw [← he]
          exact strPrefAppend _ _
        rw [hnew] at this
        exact Bool.noConfusion this
      rw [List.find?_cons_of_neg _ (by simpa using htgt)]
      have hxq : x.1 ≠ q := by
        intro he
        cases hx with
        | inl h1 =>
          have : strPref old q = true := he ▸ h1 ▸ strPrefSelf old
          rw [hold] at this; exact Bool.noConfusion this
        | inr h1 =>
          have : strPref old q = true := he ▸ underPathPref h1
          rw [hold] at this; exact Bool.noConfusion this
      rw [List.find?_cons_of_neg _ (by simpa using hxq)]
      exact ih
    · rw [if_neg hx]
      by_cases hq : x.1 = q
      · rw [List.find?_cons_of_pos _ (by simpa using hq),
          List.find?_cons_of_pos _ (by simpa using hq)]
      · rw [List.find?_cons_of_neg _ (by simpa using hq),
          List.find?_cons_of_neg _ (by simpa using hq)]
        exact ih

/-- An existing path is never the freshly staged temp name. -/
theorem lookupSomeNeFresh {fs : FS} {q d : String} {e : Entry}
    (h : lookupFS fs q = some e) : q ≠ freshTmpName fs d := by
  intro he
  rw [he, freshTmpNotIn fs d] at h
  exact Option.noConfusion h

/-- The directory-creating fold of `makedirsFS` preserves every
existing binding (it only writes at previously missing paths). -/
theorem lookupMakedirsFold (now : Nat) (q : String) (e : Entry) :
    ∀ (anc : List String) (fs : FS), lookupFS fs q = some e →
      lookupFS (anc.foldl
        (fun f a => if (lookupFS f a).isSome then f
                    else setEntry f a (mkDir 0 (freshIno f) now)) fs) q = some e := by
  intro anc
  induction anc with
  | nil =>
    intro fs h
    simpa using h
  | cons a rest ih =>
    intro fs h
    simp only [List.foldl_cons]
    by_cases ha : (lookupFS fs a).isSome
    · rw [if_pos ha]
      exact ih fs h
    · rw [if_neg ha]
      refine ih _ ?_
      have haq : q ≠ a := by
        intro he
        rw [← he, h] at ha
        exact ha rfl
      rw [lookupSetNe fs a q _ haq]
      exact h

/-- `makedirsFS` only adds directories at previously missing paths:
every existing binding survives. -/
theorem lookupMakedirs {now : Nat} {fs fs2 : FS} {parent q : String} {e : Entry}
    (h : lookupFS fs q = some e) (hmk : makedirsFS now fs parent = some fs2) :
    lookupFS fs2 q = some e := by
  simp only [makedirsFS] at hmk
  split at hmk
  · exact Option.noConfusion hmk
  · split at hmk
    · exact Option.noConfusion hmk
    · cases hmk
      exact lookupMakedirsFold now q e _ fs h

/-- `stepMakedirs` preserves every existing binding. -/
theorem lookupStepMakedirs {ctx : Ctx} {p : Params} {path q : String}
    {fs fs2 : FS} {b : Bool} {e : Entry}
    (h : lookupFS fs q = some e) (hs : stepMakedirs ctx p path fs = some (fs2, b)) :
    lookupFS fs2 q = some e := by
  simp only [stepMakedirs] at hs
  split at hs
  · cases hs; exact h
  · split at hs
    · cases hs; exact h
    · split at hs
      · cases hs; exact h
      · split at hs
        · rename_i fs3 hmk
          cases hs
          exact lookupMakedirs h hmk
        · exact Option.noConfusion hs

theorem lookupValidateFail {ctx : Ctx} {fs fsF : FS} {t v q : String}
    {f : RunFail} (h : validateFile ctx fs t v = .fail fsF f) (hq : q ≠ t) :
    lookupFS fsF q = lookupFS fs q := by
  simp only [validateFile] at h
  split at h
  · cases h
    rfl
  · split at h
    · cases h
      exact lookupRemoveNe fs t q hq
    · exact ValidateRes.noConfusion h

theorem lookupAtomicMove {fs fs4 : FS} {t d q : String}
    (h : atomicMove fs t d = some fs4) (hq1 : q ≠ t) (hq2 : q ≠ d) :
    lookupFS fs4 q = lookupFS fs q := by
  unfold atomicMove at h
  split at h
  · split at h
    · exact Option.noConfusion h
    · split at h
      · cases h
        rw [lookupSetNe _ d q _ hq2]
        exact lookupRemoveNe fs t q hq1
      · exact Option.noConfusion h
  · split at h
    · cases h
      rw [lookupSetNe _ d q _ hq2]
      exact lookupRemoveNe fs t q hq1
    · exact Option.noConfusion h

theorem underPathFalseOfNotPref {d q : String} (h : strPref d q = false) :
    underPath d q = false := by
  by_cases hu : underPath d q = true
  · rw [underPathPref hu] at h
    exact Bool.noConfusion h
  · simpa using hu

/-- `_force_remove(dest)` never touches a path that does not extend
`dest` (removal only affects the `dest` subtree; the `.old` rename
targets all extend `dest`). -/
theorem lookupForceRemove (ctx : Ctx) (p : Params) (dest q : String) (fs : FS)
    (h : strPref dest q = false) :
    lookupFS (forceRemove ctx p dest fs) q = lookupFS fs q := by
  have hne : q ≠ dest := neOfNotPref h
  have hunder : underPath dest q = false := underPathFalseOfNotPref h
  simp only [forceRemove]
  split
  · split
    · refine lookupRenameOut fs dest _ q h ?_
      by_cases hw : strPref (dest ++ ".old." ++ toString ctx.now) q = true
      · have h1 : strPref dest (dest ++ ".old." ++ toString ctx.now) = true :=
          strPrefTrans (strPrefAppend dest ".old.") (strPrefAppend _ (toString ctx.now))
        rw [strPrefTrans h1 hw] at h
        exact Bool.noConfusion h
      · simpa using hw
    · refine lookupRenameOut fs dest _ q h ?_
      by_cases hw : strPref (dest ++ ".old") q = true
      · rw [strPrefTrans (strPrefAppend dest ".old") hw] at h
        exact Bool.noConfusion h
      · simpa using hw
  · split
    · exact lookupRemoveSubtreeOut fs dest q hne hunder
    · exact lookupRemoveNe fs dest q hne

/-- The timestamped `backup_local` name extends `dest`. -/
theorem backupNamePref (dest : String) (now : Nat) :
    strPref dest (backupLocalName dest now) = true := by
  unfold backupLocalName
  exact strPrefTrans (strPrefAppend dest ".")
    (strPrefTrans (strPrefAppend _ (toString now)) (strPrefAppend _ ".bak"))

theorem lookupValidateOptFail {ctx : Ctx} {fs fsF : FS} {t q : String}
    {ov : Option String} {f : RunFail}
    (h : (match ov with
          | some v => validateFile ctx fs t v
          | none => ValidateRes.pass) = .fail fsF f)
    (hq : q ≠ t) : lookupFS fsF q = lookupFS fs q := by
  cases ov with
  | none => exact ValidateRes.noConfusion h
  | some v => exact lookupValidateFail h hq

/-- `copySrcCommit` preserves any binding distinct from the staged
name, `dest`, and `dest`'s backup name. -/
theorem lookupCopySrcCommit (ctx : Ctx) (p : Params) (dest tmpPath q : String)
    (diff : Option (String × String)) (fs2 : FS) (e : Entry)
    (hentry : lookupFS fs2 q = some e)
    (ht : q ≠ tmpPath) (hd : q ≠ dest) (hb : q ≠ backupLocalName dest ctx.now) :
    lookupFS (copySrcCommit ctx p dest tmpPath diff fs2).finalFS q = some e := by
  simp only [copySrcCommit]
  split
  · rename_i fsF f hval
    simp only [Outcome.finalFS]
    rw [lookupValidateOptFail hval ht]
    exact hentry
  · rename_i hval
    have hpres : lookupFS (if (p.backup && isFile fs2 dest) = true
        then (backupLocal ctx.now fs2 dest).1 else fs2) q = some e := by
      split
      · simp only [backupLocal]
        rw [lookupSetNe _ _ _ _ hb]
        exact hentry
      · exact hentry
    split
    · rename_i fs4 hmv
      simp only [Outcome.finalFS]
      rw [lookupAtomicMove hmv ht hd]
      exact hpres
    · simp only [unexpectedFail, Outcome.finalFS]
      rw [lookupRemoveNe _ _ _ ht]
      exact hpres

/-- The body of `_copy_from_src` preserves any binding outside the
`dest`-derived names — in particular the source file itself. -/
theorem lookupCopySrcBody (ctx : Ctx) (p : Params) (dest src : String)
    (fs : FS) (e : Entry) (hentry : lookupFS fs src = some e)
    (halias : strPref dest src = false) :
    lookupFS (copySrcBody ctx p dest src fs).finalFS src = some e := by
  have hne : src ≠ dest := neOfNotPref halias
  have htmp : ∀ d, src ≠ freshTmpName fs d := fun _ => lookupSomeNeFresh hentry
  have hback : src ≠ backupLocalName dest ctx.now := by
    intro he
    have hp := backupNamePref dest ctx.now
    rw [← he, halias] at hp
    exact Bool.noConfusion hp
  simp only [copySrcBody]
  repeat' split
  all_goals simp only [Outcome.finalFS, unexpectedFail]
  all_goals try exact hentry
  all_goals
    first
      | (rw [lookupRemoveNe _ _ _ (htmp _), lookupSetNe _ _ _ _ (htmp _)]
         exact hentry)
      | (refine lookupCopySrcCommit ctx p dest _ src _ _ e ?_ (htmp _) hne hback
         rw [lookupSetNe _ _ _ _ (htmp _), lookupSetNe _ _ _ _ (htmp _)]
         exact hentry)

/-! ### Check-mode never mutates: per-handler lemmas -/

theorem checkStepMakedirs {ctx : Ctx} {p : Params} {path : String}
    {fs fs1 : FS} {b : Bool} (hck : ctx.checkMode = true)
    (h : stepMakedirs ctx p path fs = some (fs1, b)) : fs1 = fs := by
  simp only [stepMakedirs, hck, if_true] at h
  split at h
  · cases h; rfl
  · split at h
    · cases h; rfl
    · cases h; rfl

theorem checkWriteContent (ctx : Ctx) (p : Params) (dest content : String)
    (fs : FS) (hck : ctx.checkMode = true) :
    (writeContent ctx p dest content fs).finalFS = fs := by
  simp only [writeContent, hck, if_true]
  split
  · rfl
  · rfl

theorem checkCopySrcBody (ctx : Ctx) (p : Params) (dest src : String)
    (fs : FS) (hck : ctx.checkMode = true) :
    (copySrcBody ctx p dest src fs).finalFS = fs := by
  simp only [copySrcBody, hck, if_true]
  split
  · rfl
  · rfl

theorem copyContentFinishFS (ctx : Ctx) (d : String) (out : Outcome) :
    (copyContentFinish ctx d out).finalFS = out.finalFS := by
  cases out with
  | ok f r => rfl
  | failed f e => rfl

theorem checkCopyFromSrc (ctx : Ctx) (p : Params) (dest src : String)
    (fs : FS) (hck : ctx.checkMode = true) :
    (copyFromSrc ctx p dest src fs).finalFS = fs := by
  simp only [copyFromSrc, hck, if_true]
  repeat' split
  all_goals
    first
      | rfl
      | (exact checkCopySrcBody _ _ _ _ _ hck)

theorem checkHandleCopy (ctx : Ctx) (p : Params) (fs : FS)
    (hck : ctx.checkMode = true) : (handleCopy ctx p fs).finalFS = fs := by
  simp only [handleCopy]
  repeat' split
  all_goals try (have hfseq := checkStepMakedirs hck (by assumption); subst hfseq)
  all_goals
    first
      | rfl
      | (exact absurd hck (by assumption))
      | (exact checkCopySrcBody _ _ _ _ _ hck)
      | (exact checkCopyFromSrc _ _ _ _ _ hck)
      | (rw [copyContentFinishFS]
         exact checkWriteContent _ _ _ _ _ hck)

theorem checkHandleDirectory (ctx : Ctx) (p : Params) (fs : FS)
    (hck : ctx.checkMode = true) : (handleDirectory ctx p fs).finalFS = fs := by
  simp only [handleDirectory, dirCreate]
  repeat' split
  all_goals try (have hfseq := checkStepMakedirs hck (by assumption); subst hfseq)
  all_goals
    first
      | rfl
      | (exact absurd hck (by assumption))

theorem checkHandleExists (ctx : Ctx) (p : Params) (fs : FS)
    (hck : ctx.checkMode = true) : (handleExists ctx p fs).finalFS = fs := by
  simp only [handleExists, existsCreate]
  repeat' split
  all_goals try (have hfseq := checkStepMakedirs hck (by assumption); subst hfseq)
  all_goals
    first
      | rfl
      | (exact absurd hck (by assumption))

theorem checkHandleTouch (ctx : Ctx) (p : Params) (fs : FS)
    (hck : ctx.checkMode = true) : (handleTouch ctx p fs).finalFS = fs := by
  simp only [handleTouch]
  repeat' split
  all_goals try (have hfseq := checkStepMakedirs hck (by assumption); subst hfseq)
  all_goals
    first
      | rfl
      | (exact absurd hck (by assumption))

theorem checkHandleAbsent (ctx : Ctx) (p : Params) (fs : FS)
    (hck : ctx.checkMode = true) : (handleAbsent ctx p fs).finalFS = fs := by
  simp only [handleAbsent]
  repeat' split
  all_goals
    first
      | rfl
      | (exact absurd hck (by assumption))

theorem checkHandleLink (ctx : Ctx) (p : Params) (fs : FS)
    (hck : ctx.checkMode = true) : (handleLink ctx p fs).finalFS = fs := by
  simp only [handleLink, linkCreate]
  repeat' split
  all_goals try (have hfseq := checkStepMakedirs hck (by assumption); subst hfseq)
  all_goals
    first
      | rfl
      | (exact absurd hck (by assumption))

theorem checkHandleHard (ctx : Ctx) (p : Params) (fs : FS)
    (hck : ctx.checkMode = true) : (handleHard ctx p fs).finalFS = fs := by
  simp only [handleHard]
  repeat' split
  all_goals try (have hfseq := checkStepMakedirs hck (by assumption); subst hfseq)
  all_goals
    first
      | rfl
      | (exact absurd hck (by assumption))
      | (simp only [hck, Bool.not_true, Bool.and_false, Bool.false_eq_true] at *)

theorem checkEditWriteFinish (ctx : Ctx) (p : Params) (dest : String)
    (oldContent newContent : String) (fs : FS) (sn cm dm : String)
    (hck : ctx.checkMode = true) :
    (editWriteFinish ctx p dest oldContent newContent fs sn cm dm).finalFS = fs := by
  simp only [editWriteFinish, hck, if_true]
  rfl

theorem checkHandleLineinfile (ctx : Ctx) (p : Params) (fs : FS)
    (hck : ctx.checkMode = true) : (handleLineinfile ctx p fs).finalFS = fs := by
  simp only [handleLineinfile]
  repeat' split
  all_goals try (have hfseq := checkStepMakedirs hck (by assumption); subst hfseq)
  all_goals
    first
      | rfl
      | (exact checkEditWriteFinish ctx p _ _ _ _ _ _ _ hck)

theorem checkHandleBlockinfile (ctx : Ctx) (p : Params) (fs : FS)
    (hck : ctx.checkMode = true) : (handleBlockinfile ctx p fs).finalFS = fs := by
  simp only [handleBlockinfile]
  repeat' split
  all_goals try (have hfseq := checkStepMakedirs hck (by assumption); subst hfseq)
  all_goals
    first
      | rfl
      | (exact checkEditWriteFinish ctx p _ _ _ _ _ _ _ hck)

/-- Check mode performs no filesystem mutation, for every state and
parameter set: the filesystem after the call (success or failure) is
the filesystem before it. -/
theorem runFinishFS (s : String) (out : Outcome) :
    (runFinish s out).finalFS = out.finalFS := by
  cases out with
  | ok f r => rfl
  | failed f e => rfl

theorem runFinishIsOk (s : String) (out : Outcome) :
    (runFinish s out).isOk = out.isOk := by
  cases out with
  | ok f r => rfl
  | failed f e => rfl

theorem runFinishChanged (s : String) (out : Outcome) :
    (runFinish s out).changedOf = out.changedOf := by
  cases out with
  | ok f r => rfl
  | failed f e => rfl

theorem stepMakedirsNoMk {p : Params} (hmk : p.makedirs = false)
    (ctx : Ctx) (path : String) (fs : FS) :
    stepMakedirs ctx p path fs = some (fs, false) := by
  simp [stepMakedirs, hmk]

theorem lookupRenameSubtreeSelf (fs : FS) (old new : String)
    (hlen : old.length < new.length) :
    lookupFS (renameSubtree fs old new) old = none := by
  simp only [lookupFS, renameSubtree, Option.map_eq_none', List.find?_eq_none,
    List.mem_map, decide_eq_true_eq]
  rintro x ⟨pe, hmem, rfl⟩
  split
  · intro hc
    have := congrArg String.length hc
    rw [String.length_append] at this
    omega
  · rename_i hnot
    exact fun hc => hnot (Or.inl hc)

theorem lookupForceRemoveSelf (ctx : Ctx) (p : Params) (dest : String)
    (fs : FS) : lookupFS (forceRemove ctx p dest fs) dest = none := by
  simp only [forceRemove]
  split
  · split
    · apply lookupRenameSubtreeSelf
      rw [String.length_append, String.length_append]
      have h5 : String.length ".old." = 5 := rfl
      omega
    · apply lookupRenameSubtreeSelf
      rw [String.length_append]
      have h4 : String.length ".old" = 4 := rfl
      omega
  · split
    · simp only [lookupFS, removeSubtree, Option.map_eq_none', List.find?_eq_none,
        List.mem_filter, decide_eq_true_eq]
      rintro x ⟨hmem, hkeep⟩
      exact fun hc => hkeep (Or.inl hc)
    · simp only [lookupFS, removeEntry, Option.map_eq_none', List.find?_eq_none,
        List.mem_filter, decide_eq_true_eq]
      rintro x ⟨hmem, hkeep⟩
      exact fun hc => hkeep hc

theorem isFileForceRemoveSelf (ctx : Ctx) (p : Params) (dest : String)
    (fs : FS) : isFile (forceRemove ctx p dest fs) dest = false := by
  have h := lookupForceRemoveSelf ctx p dest fs
  simp only [isFile, entryAt, resolvePath, h]

theorem transferDirectory (ctxR ctxC : Ctx) (p : Params) (fs : FS)
    (hR : ctxR.checkMode = false) (hC : ctxC.checkMode = true)
    (hmk : p.makedirs = false) :
    (handleDirectory ctxR p fs).isOk = true →
    (handleDirectory ctxC p fs).isOk = true ∧
      (handleDirectory ctxC p fs).changedOf
        = (handleDirectory ctxR p fs).changedOf := by
  simp only [handleDirectory, dirCreate, stepMakedirsNoMk hmk, hR, hC,
    Bool.not_true, Bool.not_false, Bool.and_true, Bool.and_false,
    Bool.false_and, Bool.false_eq_true, ite_false, reduceIte]
  repeat' split
  all_goals
    first
      | (exact absurd (by assumption : false = true) Bool.false_ne_true)
      | (intro h; exact absurd h Bool.false_ne_true)
      | (intro h; exact ⟨rfl, rfl⟩)

theorem transferExists (ctxR ctxC : Ctx) (p : Params) (fs : FS)
    (hR : ctxR.checkMode = false) (hC : ctxC.checkMode = true)
    (hmk : p.makedirs = false) :
    (handleExists ctxR p fs).isOk = true →
    (handleExists ctxC p fs).isOk = true ∧
      (handleExists ctxC p fs).changedOf
        = (handleExists ctxR p fs).changedOf := by
  simp only [handleExists, existsCreate, stepMakedirsNoMk hmk, hR, hC,
    Bool.not_true, Bool.not_false, Bool.and_true, Bool.and_false,
    Bool.false_and, Bool.false_eq_true, ite_false, reduceIte]
  repeat' split
  all_goals
    first
      | (exact absurd (by assumption : false = true) Bool.false_ne_true)
      | (intro h; exact absurd h Bool.false_ne_true)
      | (intro h; exact ⟨rfl, rfl⟩)

theorem transferTouch (ctxR ctxC : Ctx) (p : Params) (fs : FS)
    (hR : ctxR.checkMode = false) (hC : ctxC.checkMode = true)
    (hmk : p.makedirs = false) :
    (handleTouch ctxR p fs).isOk = true →
    (handleTouch ctxC p fs).isOk = true ∧
      (handleTouch ctxC p fs).changedOf
        = (handleTouch ctxR p fs).changedOf := by
  simp only [handleTouch, stepMakedirsNoMk hmk, hR, hC,
    Bool.not_true, Bool.not_false, Bool.false_eq_true, ite_false, reduceIte]
  repeat' split
  all_goals
    first
      | (exact absurd (by assumption : false = true) Bool.false_ne_true)
      | (intro h; exact absurd h Bool.false_ne_true)
      | (intro h; exact ⟨rfl, rfl⟩)

theorem transferAbsent (ctxR ctxC : Ctx) (p : Params) (fs : FS)
    (hR : ctxR.checkMode = false) (hC : ctxC.checkMode = true) :
    (handleAbsent ctxR p fs).isOk = true →
    (handleAbsent ctxC p fs).isOk = true ∧
      (handleAbsent ctxC p fs).changedOf
        = (handleAbsent ctxR p fs).changedOf := by
  simp only [handleAbsent, hR, hC, Bool.not_true, Bool.not_false, Bool.false_eq_true, ite_false, reduceIte]
  repeat' split
  all_goals
    first
      | (exact absurd (by assumption : false = true) Bool.false_ne_true)
      | (intro h; exact absurd h Bool.false_ne_true)
      | (intro h; exact ⟨rfl, rfl⟩)

theorem transferLink (ctxR ctxC : Ctx) (p : Params) (fs : FS)
    (hR : ctxR.checkMode = false) (hC : ctxC.checkMode = true)
    (hmk : p.makedirs = false) :
    (handleLink ctxR p fs).isOk = true →
    (handleLink ctxC p fs).isOk = true ∧
      (handleLink ctxC p fs).changedOf
        = (handleLink ctxR p fs).changedOf := by
  simp only [handleLink, linkCreate, stepMakedirsNoMk hmk, hR, hC,
    Bool.not_true, Bool.not_false, Bool.and_true, Bool.and_false,
    Bool.false_and, Bool.false_eq_true, ite_false, reduceIte]
  repeat' split
  all_goals
    first
      | (exact absurd (by assumption : false = true) Bool.false_ne_true)
      | (intro h; exact absurd h Bool.false_ne_true)
      | (intro h; exact ⟨rfl, rfl⟩)

theorem copyContentFinishIsOk (ctx : Ctx) (d : String) (out : Outcome) :
    (copyContentFinish ctx d out).isOk = out.isOk := by
  cases out with
  | ok f r => rfl
  | failed f e => rfl

theorem copyContentFinishChanged (ctx : Ctx) (d : String) (out : Outcome) :
    (copyContentFinish ctx d out).changedOf = out.changedOf := by
  cases out with
  | ok f r => simp only [copyContentFinish, applyAttributes, ite_self, Outcome.changedOf]
  | failed f e => rfl

theorem transferWriteContent (ctxR ctxC : Ctx) (p : Params)
    (dest content : String) (fsR fsC : FS)
    (hR : ctxR.checkMode = false) (hC : ctxC.checkMode = true)
    (hcond : (isFile fsC dest && decide (readFileFS fsC dest = some content))
        = (isFile fsR dest && decide (readFileFS fsR dest = some content))) :
    (writeContent ctxR p dest content fsR).isOk = true →
    (writeContent ctxC p dest content fsC).isOk = true ∧
      (writeContent ctxC p dest content fsC).changedOf
        = (writeContent ctxR p dest content fsR).changedOf := by
  simp only [writeContent, hR, hC, Bool.not_true, Bool.not_false,
    Bool.false_eq_true, ite_false, reduceIte]
  rw [hcond]
  repeat' split
  all_goals
    first
      | (exact absurd (by assumption : false = true) Bool.false_ne_true)
      | (intro h; exact absurd h Bool.false_ne_true)
      | (intro h; exact ⟨rfl, rfl⟩)

theorem transferCopyContent (ctxR ctxC : Ctx) (p : Params)
    (dest content : String) (fsR fsC : FS)
    (hR : ctxR.checkMode = false) (hC : ctxC.checkMode = true)
    (hcond : (isFile fsC dest && decide (readFileFS fsC dest = some content))
        = (isFile fsR dest && decide (readFileFS fsR dest = some content))) :
    (copyContentFinish ctxR dest (writeContent ctxR p dest content fsR)).isOk
        = true →
    (copyContentFinish ctxC dest (writeContent ctxC p dest content fsC)).isOk
        = true ∧
      (copyContentFinish ctxC dest (writeContent ctxC p dest content fsC)).changedOf
        = (copyContentFinish ctxR dest
            (writeContent ctxR p dest content fsR)).changedOf := by
  rw [copyContentFinishIsOk, copyContentFinishIsOk, copyContentFinishChanged,
    copyContentFinishChanged]
  exact transferWriteContent ctxR ctxC p dest content fsR fsC hR hC hcond

theorem transferCopySrc (ctxR ctxC : Ctx) (p : Params) (dest src : String)
    (fsR fsC : FS)
    (hR : ctxR.checkMode = false) (hC : ctxC.checkMode = true)
    (hcond : (isFile fsC dest && decide (sha256FS fsC dest = sha256FS fsC src))
        = (isFile fsR dest && decide (sha256FS fsR dest = sha256FS fsR src))) :
    (copySrcBody ctxR p dest src fsR).isOk = true →
    (copySrcBody ctxC p dest src fsC).isOk = true ∧
      (copySrcBody ctxC p dest src fsC).changedOf
        = (copySrcBody ctxR p dest src fsR).changedOf := by
  simp only [copySrcBody, copySrcCommit, hR, hC, Bool.not_true, Bool.not_false,
    Bool.false_eq_true, ite_false, reduceIte]
  rw [hcond]
  repeat' split
  all_goals
    first
      | (exact absurd (by assumption : false = true) Bool.false_ne_true)
      | (intro h; exact absurd h Bool.false_ne_true)
      | (intro h; exact ⟨rfl, rfl⟩)

set_option maxHeartbeats 1000000 in
theorem transferCopy (ctxR ctxC : Ctx) (p : Params) (fs : FS)
    (hR : ctxR.checkMode = false) (hC : ctxC.checkMode = true)
    (hmk : p.makedirs = false) :
    (handleCopy ctxR p fs).isOk = true →
    (handleCopy ctxC p fs).isOk = true ∧
      (handleCopy ctxC p fs).changedOf
        = (handleCopy ctxR p fs).changedOf := by
  simp only [handleCopy, copyFromSrc, stepMakedirsNoMk hmk, hR, hC,
    Bool.not_true, Bool.not_false, Bool.and_true, Bool.and_false,
    Bool.false_and, Bool.false_eq_true, ite_false, reduceIte]
  repeat' split
  all_goals
    first
      | (exact absurd (by assumption : false = true) Bool.false_ne_true)
      | (intro h; exact absurd h Bool.false_ne_true)
      | (intro h; exact ⟨rfl, rfl⟩)
      | (exact fun h => transferCopyContent ctxR ctxC p p.dest _ fs fs hR hC rfl h)
      | (exact fun h => transferCopySrc ctxR ctxC p p.dest _ fs fs hR hC rfl h)
      | (intro h
         refine transferCopyContent ctxR ctxC p p.dest _ _ fs hR hC ?_ h
         rw [isFileForceRemoveSelf]
         simp_all [Bool.and_eq_true])
      | (intro h
         refine transferCopySrc ctxR ctxC p p.dest _ _ fs hR hC ?_ h
         rw [isFileForceRemoveSelf]
         simp_all [Bool.and_eq_true])

theorem transferHard (ctxR ctxC : Ctx) (p : Params) (fs : FS)
    (hR : ctxR.checkMode = false) (hC : ctxC.checkMode = true)
    (hmk : p.makedirs = false)
    (hsrc : pathExists fs (p.src.getD "") = true) :
    (handleHard ctxR p fs).isOk = true →
    (handleHard ctxC p fs).isOk = true ∧
      (handleHard ctxC p fs).changedOf
        = (handleHard ctxR p fs).changedOf := by
  cases hsv : p.src with
  | none =>
    simp only [handleHard, hsv]
    intro h
    exact absurd h Bool.false_ne_true
  | some src =>
    rw [hsv] at hsrc
    simp only [Option.getD_some] at hsrc
    simp only [handleHard, hsv, stepMakedirsNoMk hmk, hR, hC, hsrc,
      Bool.not_true, Bool.not_false, Bool.and_true, Bool.and_false,
    Bool.false_and, Bool.false_eq_true, ite_false, reduceIte]
    repeat' split
    all_goals
      first
        | (exact absurd (by assumption : false = true) Bool.false_ne_true)
        | (intro h; exact absurd h Bool.false_ne_true)
        | (intro h; exact ⟨rfl, rfl⟩)

theorem transferEditWrite (ctxR ctxC : Ctx) (p : Params)
    (dest old newc : String) (fs : FS) (sn cm dm : String)
    (hR : ctxR.checkMode = false) (hC : ctxC.checkMode = true) :
    (editWriteFinish ctxR p dest old newc fs sn cm dm).isOk = true →
    (editWriteFinish ctxC p dest old newc fs sn cm dm).isOk = true ∧
      (editWriteFinish ctxC p dest old newc fs sn cm dm).changedOf
        = (editWriteFinish ctxR p dest old newc fs sn cm dm).changedOf := by
  simp only [editWriteFinish, writeContent, hR, hC, Bool.not_true, Bool.not_false,
    Bool.false_eq_true, ite_false, reduceIte]
  repeat' split
  all_goals
    first
      | (exact absurd (by assumption : false = true) Bool.false_ne_true)
      | (intro h; exact absurd h Bool.false_ne_true)
      | (intro h; exact ⟨rfl, rfl⟩)

theorem transferLineinfile (ctxR ctxC : Ctx) (p : Params) (fs : FS)
    (hR : ctxR.checkMode = false) (hC : ctxC.checkMode = true)
    (hmk : p.makedirs = false) :
    (handleLineinfile ctxR p fs).isOk = true →
    (handleLineinfile ctxC p fs).isOk = true ∧
      (handleLineinfile ctxC p fs).changedOf
        = (handleLineinfile ctxR p fs).changedOf := by
  simp only [handleLineinfile, stepMakedirsNoMk hmk, hR, hC,
    Bool.not_true, Bool.not_false, Bool.false_eq_true, ite_false, reduceIte]
  repeat' split
  all_goals
    first
      | (exact absurd (by assumption : false = true) Bool.false_ne_true)
      | (intro h; exact absurd h Bool.false_ne_true)
      | (intro h; exact ⟨rfl, rfl⟩)
      | (exact fun h => transferEditWrite ctxR ctxC p p.dest _ _ fs _ _ _ hR hC h)

theorem transferBlockinfile (ctxR ctxC : Ctx) (p : Params) (fs : FS)
    (hR : ctxR.checkMode = false) (hC : ctxC.checkMode = true)
    (hmk : p.makedirs = false) :
    (handleBlockinfile ctxR p fs).isOk = true →
    (handleBlockinfile ctxC p fs).isOk = true ∧
      (handleBlockinfile ctxC p fs).changedOf
        = (handleBlockinfile ctxR p fs).changedOf := by
  simp only [handleBlockinfile, stepMakedirsNoMk hmk, hR, hC,
    Bool.not_true, Bool.not_false, Bool.false_eq_true, ite_false, reduceIte]
  repeat' split
  all_goals
    first
      | (exact absurd (by assumption : false = true) Bool.false_ne_true)
      | (intro h; exact absurd h Bool.false_ne_true)
      | (intro h; exact ⟨rfl, rfl⟩)
      | (exact fun h => transferEditWrite ctxR ctxC p p.dest _ _ fs _ _ _ hR hC h)

theorem lookupHandlerHard (s : String)
    (h : lookupHandler s = some "_handle_hard") : s = "hard" := by
  simp only [lookupHandler, STATE_HANDLERS, List.find?] at h
  repeat' split at h
  all_goals simp_all

set_option maxHeartbeats 1000000 in
theorem runTransfer (ctxR ctxC : Ctx) (p : Params) (fs : FS)
    (hR : ctxR.checkMode = false) (hC : ctxC.checkMode = true)
    (hmk : p.makedirs = false)
    (hsrc : p.state = "hard" → pathExists fs (p.src.getD "") = true) :
    (run ctxR p fs).isOk = true →
    (run ctxC p fs).isOk = true ∧
      (run ctxC p fs).changedOf = (run ctxR p fs).changedOf := by
  unfold run dispatchState
  split
  · intro h
    exact ⟨rfl, rfl⟩
  · rw [runFinishIsOk, runFinishIsOk, runFinishChanged, runFinishChanged]
    split
    · intro h
      exact absurd h Bool.false_ne_true
    · split
      · exact transferCopy ctxR ctxC p fs hR hC hmk
      · split
        · exact transferDirectory ctxR ctxC p fs hR hC hmk
        · split
          · exact transferExists ctxR ctxC p fs hR hC hmk
          · split
            · exact transferTouch ctxR ctxC p fs hR hC hmk
            · split
              · exact transferAbsent ctxR ctxC p fs hR hC
              · split
                · exact transferLink ctxR ctxC p fs hR hC hmk
                · split
                  · rename_i hname hlh hn1 hn2 hn3 hn4 hn5 hn6 hhard
                    rw [hhard] at hlh
                    exact transferHard ctxR ctxC p fs hR hC hmk
                      (hsrc (lookupHandlerHard p.state hlh))
                  · split
                    · exact transferLineinfile ctxR ctxC p fs hR hC hmk
                    · split
                      · exact transferBlockinfile ctxR ctxC p fs hR hC hmk
                      · intro h
                        exact absurd h Bool.false_ne_true

theorem check_mode_never_mutates (ctx : Ctx) (p : Params) (fs : FS)
    (hck : ctx.checkMode = true) : (run ctx p fs).finalFS = fs := by
  simp only [run]
  split
  · rfl
  · rw [runFinishFS]
    simp only [dispatchState]
    split
    · rfl
    · split
      · exact checkHandleCopy ctx p fs hck
      · split
        · exact checkHandleDirectory ctx p fs hck
        · split
          · exact checkHandleExists ctx p fs hck
          · split
            · exact checkHandleTouch ctx p fs hck
            · split
              · exact checkHandleAbsent ctx p fs hck
              · split
                · exact checkHandleLink ctx p fs hck
                · split
                  · exact checkHandleHard ctx p fs hck
                  · split
                    · exact checkHandleLineinfile ctx p fs hck
                    · split
                      · exact checkHandleBlockinfile ctx p fs hck
                      · rfl

/-- C5 (counterexample): check mode does not always return the
`changed` value a real run would have returned.  For `state=hard` with
`force=true` and `force_backup=true`, `dest=/d` a directory and
`src=/d.old/f` a path that only comes into existence when the real run
renames `/d` to `/d.old`, the real run succeeds with `changed=true`
while the same invocation in check mode fails with "Source file does
not exist" (and so returns no `changed` value at all). -/
theorem check_mode_prediction_counterexample :
    (run realCtx hardRenameParams hardRenameFS).isOk = true ∧
    (run realCtx hardRenameParams hardRenameFS).changedOf = some true ∧
    run checkCtx hardRenameParams hardRenameFS
      = .failed hardRenameFS { msg := "Source file does not exist: /d.old/f" } :=
  ⟨rfl, rfl, rfl⟩

/-- C5 (amended): for every state, check mode performs no filesystem
mutation — the filesystem after the call equals the filesystem before
it, on every outcome.  Moreover, provided `makedirs` is off and (for
`state=hard`) `src` names an existing path up front, whenever the same
invocation succeeds in a real run, the check-mode run also succeeds
and returns exactly the `changed` value of the real run.  (Without the
proviso the `changed`-prediction half is false: see the counterexample,
where a real `state=hard` run manufactures its own `src` by the
`force_backup` rename.) -/
theorem check_mode_nonmutation_and_prediction (ctx : Ctx) (p : Params)
    (fs : FS)
    (hmk : p.makedirs = false)
    (hsrc : p.state = "hard" → pathExists fs (p.src.getD "") = true) :
    (run { ctx with checkMode := true } p fs).finalFS = fs ∧
    ((run { ctx with checkMode := false } p fs).isOk = true →
      (run { ctx with checkMode := true } p fs).isOk = true ∧
        (run { ctx with checkMode := true } p fs).changedOf
          = (run { ctx with checkMode := false } p fs).changedOf) :=
  ⟨check_mode_never_mutates { ctx with checkMode := true } p fs rfl,
   fun hok => runTransfer { ctx with checkMode := false }
     { ctx with checkMode := true } p fs rfl rfl hmk hsrc hok⟩

/-- Witness for C5 (amended) at a concrete input: a content-based copy
into `/work/out.txt`; the real run succeeds, the check run leaves the
filesystem untouched and predicts the real run's `changed=true`. -/
theorem check_mode_nonmutation_and_prediction_witness :
    copyContentParams.makedirs = false ∧
    (copyContentParams.state = "hard" →
      pathExists stagedFS (copyContentParams.src.getD "") = true) ∧
    ((run { realCtx with checkMode := true } copyContentParams stagedFS).finalFS
        = stagedFS ∧
     ((run { realCtx with checkMode := false } copyContentParams stagedFS).isOk
          = true →
       (run { realCtx with checkMode := true } copyContentParams stagedFS).isOk
           = true ∧
         (run { realCtx with checkMode := true } copyContentParams
             stagedFS).changedOf
           = (run { realCtx with checkMode := false } copyContentParams
               stagedFS).changedOf)) :=
  ⟨rfl, fun h => absurd h (by decide),
   check_mode_nonmutation_and_prediction realCtx copyContentParams stagedFS
     rfl (fun h => absurd h (by decide))⟩

/-- C6 (counterexample): `state=copy` with `src` inside a directory
`dest` that gets force-replaced destroys the source file — the claim
that the source is byte-identical before and after the call on every
outcome is false as stated.  Here `dest=/d` is a directory containing
`src=/d/f`; with `force=true`, `_force_remove` runs `shutil.rmtree(/d)`
before the checksum comparison, so the source is gone afterwards (the
call then aborts in `shutil.copy2`). -/
theorem copy_force_can_destroy_source :
    lookupFS [("/", mkDir 0 1 0), ("/d", mkDir 0 2 0), ("/d/f", mkFile "precious" 0 3 0)]
        "/d/f" = some (mkFile "precious" 0 3 0) ∧
    run realCtx { dest := "/d", state := "copy", src := some "/d/f", force := true }
        [("/", mkDir 0 1 0), ("/d", mkDir 0 2 0), ("/d/f", mkFile "precious" 0 3 0)]
      = .failed [("/", mkDir 0 1 0)]
          { msg := "Unexpected error: shutil.copy2 failed" } ∧
    lookupFS [("/", mkDir 0 1 0)] "/d/f" = none := by
  refine ⟨by rfl, by rfl, by rfl⟩

/-- C6 (amended): for `state=copy` with `src` set to a regular file
whose path does not extend `dest` (it is not `dest` itself, not inside
`dest`, and not a `dest`-derived backup name — every name the handler
writes other than staging names starts with `dest`), the source's
binding — its content included — is byte-identical before and after the
call, on every outcome: no-op, successful copy, validation failure, or
any other failure. -/
theorem copy_preserves_source (ctx : Ctx) (p : Params) (src : String)
    (e : Entry) (fs : FS)
    (hstate : p.state = "copy")
    (hsrc : p.src = some src)
    (hentry : lookupFS fs src = some e)
    (halias : strPref p.dest src = false) :
    lookupFS (run ctx p fs).finalFS src = some e := by
  unfold run
  cases hcc : checkCreatesRemoves p fs with
  | some r => exact hentry
  | none =>
    rw [runFinishFS]
    simp only [dispatchState]
    rw [hstate]
    have hlh : lookupHandler "copy" = some "_handle_copy" := rfl
    rw [hlh]
    simp only [reduceIte]
    have hout : lookupFS (handleCopy ctx p fs).finalFS src = some e := by
      simp only [handleCopy]
      split
      · exact hentry
      · split
        · exact hentry
        · rename_i fs1 b hs
          have hentry1 : lookupFS fs1 src = some e := lookupStepMakedirs hentry hs
          have htmp1 : ∀ d, src ≠ freshTmpName fs1 d := fun _ => lookupSomeNeFresh hentry1
          split
          · rename_i content hcontent
            have hc : (p.content.isSome && p.src.isSome) = true := by
              rw [hcontent, hsrc]
              rfl
            exact absurd hc (by assumption)
          · rw [hsrc]
            simp only [copyFromSrc]
            split
            · exact hentry1
            · split
              · split
                · exact hentry1
                · refine lookupCopySrcBody ctx p p.dest src _ e ?_ halias
                  split
                  · exact hentry1
                  · rw [lookupForceRemove ctx p p.dest src fs1 halias]
                    exact hentry1
              · exact lookupCopySrcBody ctx p p.dest src fs1 e hentry1 halias
    exact hout

/-- Witness for C6 (amended) at a concrete input: a real copy run; the
source file's binding is unchanged afterwards. -/
theorem copy_preserves_source_witness :
    lookupFS (run realCtx
        { dest := "/work/out.txt", state := "copy", src := some "/src.txt" }
        [("/", mkDir 0 1 0), ("/work", mkDir 0 2 0),
         ("/src.txt", mkFile "payload\n" 0 3 0)]).finalFS "/src.txt"
      = some (mkFile "payload\n" 0 3 0) :=
  copy_preserves_source realCtx
    { dest := "/work/out.txt", state := "copy", src := some "/src.txt" }
    "/src.txt" (mkFile "payload\n" 0 3 0)
    [("/", mkDir 0 1 0), ("/work", mkDir 0 2 0),
     ("/src.txt", mkFile "payload\n" 0 3 0)]
    (by rfl) (by rfl) (by rfl) (by rfl)

/-- C4: a configured validate command that exits nonzero during a
file-content write makes `_write_content` fail with the filesystem
byte-identical to its pre-call state: the destination is untouched, the
staged temp file (which was never a pre-existing path) is deleted, and
no backup is created (backup ordering places it after validation). -/
theorem validation_failure_leaves_dest_untouched (ctx : Ctx) (p : Params)
    (dest content v : String) (fs : FS)
    (hck : ctx.checkMode = false)
    (hv : p.validate = some v)
    (hps : strContains v "%s" = true)
    (hne : readFileFS fs dest ≠ some content)
    (hdir : isDir fs (if dirname dest = "" then "." else dirname dest) = true)
    (hrc : (ctx.execCmd (substPercentS v
        (freshTmpName fs (if dirname dest = "" then "." else dirname dest)))).1 ≠ 0) :
    writeContent ctx p dest content fs
      = .failed fs
          { msg := "Validation failed: " ++ substPercentS v
              (freshTmpName fs (if dirname dest = "" then "." else dirname dest)),
            rc := some (ctx.execCmd (substPercentS v
              (freshTmpName fs (if dirname dest = "" then "." else dirname dest)))).1,
            stdout := some (ctx.execCmd (substPercentS v
              (freshTmpName fs (if dirname dest = "" then "." else dirname dest)))).2.1,
            stderr := some (ctx.execCmd (substPercentS v
              (freshTmpName fs (if dirname dest = "" then "." else dirname dest)))).2.2 } ∧
    lookupFS fs (freshTmpName fs
        (if dirname dest = "" then "." else dirname dest)) = none := by
  have hfresh := freshTmpNotIn fs (if dirname dest = "" then "." else dirname dest)
  refine ⟨?_, hfresh⟩
  have hc1 : (isFile fs dest && decide (readFileFS fs dest = some content)) = false := by
    simp [hne]
  unfold writeContent
  rw [hc1]
  simp only [Bool.false_eq_true, if_false, hck, hdir, Bool.not_true, hv]
  unfold validateFile
  rw [hps]
  simp only [Bool.not_true, Bool.false_eq_true, if_false]
  have hfresh1 : lookupFS (setEntry fs
      (freshTmpName fs (if dirname dest = "" then "." else dirname dest))
      (mkFile content 0 (freshIno fs) ctx.now))
      (freshTmpName fs (if dirname dest = "" then "." else dirname dest))
      = some (mkFile content 0 (freshIno fs) ctx.now) := by
    unfold lookupFS setEntry
    simp [List.find?_cons]
  rw [if_pos hrc]
  rw [removeSetCancel fs _ _ hfresh]

/-- Witness for C4 at a concrete input: a failing validate command
leaves the filesystem exactly as before the call. -/
theorem validation_failure_leaves_dest_untouched_witness :
    writeContent { execCmd := fun _ => (2, "so", "se") }
        { dest := "/work/cfg", state := "copy", content := some "new\n",
          validate := some "checker %s", backup := true }
        "/work/cfg" "new\n" stagedFS
      = .failed stagedFS
          { msg := "Validation failed: checker " ++ freshTmpName stagedFS "/work",
            rc := some 2, stdout := some "so", stderr := some "se" } ∧
    lookupFS stagedFS (freshTmpName stagedFS "/work") = none := by
  have h := validation_failure_leaves_dest_untouched
    { execCmd := fun _ => (2, "so", "se") }
    { dest := "/work/cfg", state := "copy", content := some "new\n",
      validate := some "checker %s", backup := true }
    "/work/cfg" "new\n" "checker %s" stagedFS
    (by rfl) (by rfl) (by decide) (by decide) (by rfl) (by decide)
  exact ⟨h.1, h.2⟩

/-- `_handle_copy` never reads the `state` parameter: its behaviour is
the same for any two parameter sets differing only in `state`. -/
theorem handleCopyStateIrrel (ctx : Ctx) (p : Params) (fs : FS) (s t : String) :
    handleCopy ctx { p with state := s } fs = handleCopy ctx { p with state := t } fs := by
  cases p
  rfl

/-- C10: the module defaults an omitted `state` to `"template"`
(`build_argument_spec`), `STATE_HANDLERS` dispatches `"template"` to the
very same handler as `"copy"` (`_handle_copy`), and an invocation with
the default state behaves identically to one with `state="copy"` and
the same remaining parameters: same final filesystem, same `changed`,
same message (the echoed `state` string in the result is the only
difference). -/
theorem template_defaults_to_copy_handler :
    stateDefault = "template" ∧
    lookupHandler "template" = lookupHandler "copy" ∧
    lookupHandler stateDefault = some "_handle_copy" ∧
    ∀ (ctx : Ctx) (p : Params) (fs : FS),
      (run ctx { p with state := stateDefault } fs).finalFS
          = (run ctx { p with state := "copy" } fs).finalFS ∧
      (run ctx { p with state := stateDefault } fs).changedOf
          = (run ctx { p with state := "copy" } fs).changedOf ∧
      (run ctx { p with state := stateDefault } fs).msgOf
          = (run ctx { p with state := "copy" } fs).msgOf := by
  refine ⟨rfl, rfl, rfl, ?_⟩
  intro ctx p fs
  show _ ∧ _ ∧ _
  unfold run
  have hcc : checkCreatesRemoves { p with state := stateDefault } fs
      = checkCreatesRemoves { p with state := "copy" } fs := by
    cases p; rfl
  rw [hcc]
  cases hc : checkCreatesRemoves { p with state := "copy" } fs with
  | some r => exact ⟨rfl, rfl, rfl⟩
  | none =>
    have hh : lookupHandler stateDefault = some "_handle_copy" := rfl
    have hh2 : lookupHandler "copy" = some "_handle_copy" := rfl
    show _ ∧ _ ∧ _
    simp only [dispatchState,
      show ({ p with state := stateDefault } : Params).state = stateDefault from rfl,
      show ({ p with state := "copy" } : Params).state = "copy" from rfl, hh, hh2]
    rw [handleCopyStateIrrel ctx p fs stateDefault "copy"]
    cases handleCopy ctx { p with state := "copy" } fs with
    | ok f r => exact ⟨rfl, rfl, rfl⟩
    | failed f e => exact ⟨rfl, rfl, rfl⟩

/-! ## Second-run (idempotence) helpers -/

theorem lookupSetSelf (fs : FS) (p : String) (e : Entry) :
    lookupFS (setEntry fs p e) p = some e := by
  simp [lookupFS, setEntry, List.find?]

theorem entryAtOfLookupFile {fs : FS} {p c : String} {e : Entry}
    (h : lookupFS fs p = some e) (hk : e.kind = .file c) :
    entryAt fs p = some e := by
  simp only [entryAt, resolvePath, h, hk]

theorem entryAtOfLookupDir {fs : FS} {p : String} {e : Entry}
    (h : lookupFS fs p = some e) (hk : e.kind = .dir) :
    entryAt fs p = some e := by
  simp only [entryAt, resolvePath, h, hk]

theorem fsViewFile {fs : FS} {p c : String} {e : Entry}
    (h : lookupFS fs p = some e) (hk : e.kind = .file c) :
    isFile fs p = true ∧ readFileFS fs p = some c ∧ pathExists fs p = true ∧
    isLink fs p = false ∧ isDir fs p = false ∧
    statFS fs p = some (e.dev, e.ino) := by
  have hE := entryAtOfLookupFile h hk
  refine ⟨?_, ?_, ?_, ?_, ?_, ?_⟩
  · simp only [isFile, hE, hk]
  · simp only [readFileFS, hE, hk]
  · simp only [pathExists, hE, Option.isSome_some]
  · simp only [isLink, h, hk]
  · simp only [isDir, hE, hk]
  · simp only [statFS, hE, Option.map_some']

theorem fsViewDir {fs : FS} {p : String} {e : Entry}
    (h : lookupFS fs p = some e) (hk : e.kind = .dir) :
    isDir fs p = true ∧ pathExists fs p = true ∧ isLink fs p = false ∧
    isFile fs p = false := by
  have hE := entryAtOfLookupDir h hk
  refine ⟨?_, ?_, ?_, ?_⟩
  · simp only [isDir, hE, hk]
  · simp only [pathExists, hE, Option.isSome_some]
  · simp only [isLink, h, hk]
  · simp only [isFile, hE, hk]

theorem fsViewNone {fs : FS} {p : String} (h : lookupFS fs p = none) :
    pathExists fs p = false ∧ isFile fs p = false ∧ isDir fs p = false ∧
    isLink fs p = false ∧ readFileFS fs p = none := by
  have hE : entryAt fs p = none := by
    simp only [entryAt, resolvePath, h]
  refine ⟨?_, ?_, ?_, ?_, ?_⟩
  · simp only [pathExists, hE, Option.isSome_none]
  · simp only [isFile, hE]
  · simp only [isDir, hE]
  · simp only [isLink, h]
  · simp only [readFileFS, hE]

theorem lookupNoneOfInvisible {fs : FS} {p : String}
    (hpe : pathExists fs p = false) (hl : isLink fs p = false) :
    lookupFS fs p = none := by
  cases h : lookupFS fs p with
  | none => rfl
  | some e =>
    cases hk : e.kind with
    | symlink t =>
      rw [show isLink fs p = true by simp only [isLink, h, hk]] at hl
      exact Bool.noConfusion hl
    | file c =>
      rw [(fsViewFile h hk).2.2.1] at hpe
      exact Bool.noConfusion hpe
    | dir =>
      rw [(fsViewDir h hk).2.1] at hpe
      exact Bool.noConfusion hpe

theorem applyAttrFold (l : List String) (c : Bool) :
    l.foldl (fun ch q => applyAttributes q ch) c = c := by
  induction l generalizing c with
  | nil => rfl
  | cons x t ih => exact ih c

theorem checkCRChanged {p : Params} {fs : FS} {r : Res}
    (h : checkCreatesRemoves p fs = some r) : r.changed = false := by
  simp only [checkCreatesRemoves] at h
  repeat' split at h
  all_goals
    first
      | (cases h; rfl)
      | (exact Option.noConfusion h)

theorem foldMkdirPreservesDir (now : Nat) (l : List String) (f : FS)
    (a : String) (h : ∃ e, lookupFS f a = some e ∧ e.kind = .dir) :
    ∃ e, lookupFS (l.foldl
        (fun f2 b => if (lookupFS f2 b).isSome then f2
                     else setEntry f2 b (mkDir 0 (freshIno f2) now)) f) a
      = some e ∧ e.kind = .dir := by
  induction l generalizing f with
  | nil => exact h
  | cons b t ih =>
    simp only [List.foldl_cons]
    by_cases hb : (lookupFS f b).isSome
    · rw [if_pos hb]
      exact ih f h
    · rw [if_neg hb]
      obtain ⟨e, he, hk⟩ := h
      by_cases hab : a = b
      · rw [← hab, he] at hb
        exact absurd rfl hb
      · refine ih _ ⟨e, ?_, hk⟩
        rw [lookupSetNe f b a _ hab]
        exact he

theorem foldMkdirCreates (now : Nat) (l : List String) (f : FS)
    (a : String) (ha : a ∈ l) (h0 : lookupFS f a = none) :
    ∃ e, lookupFS (l.foldl
        (fun f2 b => if (lookupFS f2 b).isSome then f2
                     else setEntry f2 b (mkDir 0 (freshIno f2) now)) f) a
      = some e ∧ e.kind = .dir := by
  induction l generalizing f with
  | nil => exact absurd ha (List.not_mem_nil a)
  | cons b t ih =>
    simp only [List.foldl_cons]
    by_cases hab : a = b
    · subst hab
      rw [if_neg (by rw [h0]; simp)]
      exact foldMkdirPreservesDir now t _ a ⟨_, lookupSetSelf _ _ _, rfl⟩
    · have ha2 : a ∈ t := by
        cases ha with
        | head => exact absurd rfl hab
        | tail _ hx => exact hx
      by_cases hb : (lookupFS f b).isSome
      · rw [if_pos hb]
        exact ih f ha2 h0
      · rw [if_neg hb]
        refine ih _ ha2 ?_
        rw [lookupSetNe f b a _ hab]
        exact h0

theorem makedirsCreatesDir {now : Nat} {f f2 : FS} {q : String}
    (h : makedirsFS now f q = some f2) (hq : lookupFS f q = none)
    (hmem : q ∈ ancestorPaths q) :
    ∃ e, lookupFS f2 q = some e ∧ e.kind = .dir := by
  simp only [makedirsFS] at h
  split at h
  · exact Option.noConfusion h
  · split at h
    · exact Option.noConfusion h
    · cases h
      exact foldMkdirCreates now _ f q hmem hq

theorem secondDirectory (ctx : Ctx) (p : Params) (fs fs1 : FS) (r1 : Res)
    (hck : ctx.checkMode = false) (hmk : p.makedirs = false)
    (hmem : (ancestorPaths (rstripSlash p.dest)).contains
        (rstripSlash p.dest) = true)
    (h1 : handleDirectory ctx p fs = .ok fs1 r1) :
    ∃ r2 : Res, handleDirectory ctx p fs1 = .ok fs1 r2 ∧ r2.changed = false := by
  have hmem2 : rstripSlash p.dest ∈ ancestorPaths (rstripSlash p.dest) := by
    simpa using hmem
  simp only [handleDirectory, dirCreate, stepMakedirsNoMk hmk, hck,
    Bool.not_false, Bool.and_true, Bool.false_eq_true, ite_false,
    reduceIte] at h1 ⊢
  split at h1
  · rename_i hcond
    rw [Outcome.ok.injEq] at h1
    obtain ⟨hf, hr⟩ := h1
    subst hf
    rw [if_pos hcond]
    exact ⟨_, rfl, by simp [applyAttrFold, applyAttributes]⟩
  · rename_i hnotdir
    split at h1
    · rename_i hconf
      split at h1
      · exact Outcome.noConfusion h1
      · split at h1
        · simp only [unexpectedFail] at h1
          exact Outcome.noConfusion h1
        · rename_i fs2 hmkd
          rw [Outcome.ok.injEq] at h1
          obtain ⟨hf, hr⟩ := h1
          subst hf
          obtain ⟨e, he, hk⟩ := makedirsCreatesDir hmkd
            (lookupForceRemoveSelf ctx p (rstripSlash p.dest) fs) hmem2
          have hv := fsViewDir he hk
          rw [if_pos (by rw [hv.1, hv.2.2.1]; rfl)]
          exact ⟨_, rfl, by simp [applyAttrFold, applyAttributes]⟩
    · rename_i hnoconf
      split at h1
      · simp only [unexpectedFail] at h1
        exact Outcome.noConfusion h1
      · rename_i fs2 hmkd
        rw [Outcome.ok.injEq] at h1
        obtain ⟨hf, hr⟩ := h1
        subst hf
        have hnone : lookupFS fs (rstripSlash p.dest) = none := by
          refine lookupNoneOfInvisible ?_ ?_
          · simp only [Bool.or_eq_true, not_or] at hnoconf
            exact Bool.not_eq_true _ |>.mp hnoconf.1
          · simp only [Bool.or_eq_true, not_or] at hnoconf
            exact Bool.not_eq_true _ |>.mp hnoconf.2
        obtain ⟨e, he, hk⟩ := makedirsCreatesDir hmkd hnone hmem2
        have hv := fsViewDir he hk
        rw [if_pos (by rw [hv.1, hv.2.2.1]; rfl)]
        exact ⟨_, rfl, by simp [applyAttrFold, applyAttributes]⟩

theorem openCreatePlain {now : Nat} {f f2 : FS} {q : String}
    (h : openAppendCreate now f q = some f2) (hq : lookupFS f q = none) :
    lookupFS f2 q = some (mkFile "" 0 (freshIno f) now) := by
  simp only [openAppendCreate, resolvePath, hq] at h
  cases h
  exact lookupSetSelf _ _ _

theorem secondExists (ctx : Ctx) (p : Params) (fs fs1 : FS) (r1 : Res)
    (hck : ctx.checkMode = false) (hmk : p.makedirs = false)
    (hstab : (!(isLink fs p.dest && isFile fs p.dest)) = true)
    (h1 : handleExists ctx p fs = .ok fs1 r1) :
    ∃ r2 : Res, handleExists ctx p fs1 = .ok fs1 r2 ∧ r2.changed = false := by
  simp only [handleExists, existsCreate, stepMakedirsNoMk hmk, hck,
    Bool.false_eq_true, ite_false, reduceIte] at h1 ⊢
  split at h1
  · rename_i hcond
    rw [Outcome.ok.injEq] at h1
    obtain ⟨hf, _⟩ := h1
    subst hf
    rw [if_pos hcond]
    exact ⟨_, rfl, by simp [applyAttributes]⟩
  · rename_i hnot1
    split at h1
    · rename_i hconf
      split at h1
      · exact Outcome.noConfusion h1
      · split at h1
        · simp only [unexpectedFail] at h1
          exact Outcome.noConfusion h1
        · rename_i fs2 hopen
          rw [Outcome.ok.injEq] at h1
          obtain ⟨hf, _⟩ := h1
          subst hf
          have hpl := openCreatePlain hopen
            (lookupForceRemoveSelf ctx p p.dest fs)
          have hv := fsViewFile hpl (c := "") rfl
          rw [if_pos (by rw [hv.1, hv.2.2.2.1]; rfl)]
          exact ⟨_, rfl, by simp [applyAttributes]⟩
    · rename_i hnoconf
      split at h1
      · simp only [unexpectedFail] at h1
        exact Outcome.noConfusion h1
      · rename_i fs2 hopen
        rw [Outcome.ok.injEq] at h1
        obtain ⟨hf, _⟩ := h1
        subst hf
        have hln : lookupFS fs p.dest = none := by
          cases hf : isFile fs p.dest with
          | true =>
            cases hl : isLink fs p.dest with
            | true =>
              rw [hl, hf] at hstab
              exact absurd hstab (by decide)
            | false => exact absurd (by rw [hf, hl]; rfl) hnot1
          | false =>
            cases hl : isLink fs p.dest with
            | true => exact absurd (by rw [hl, hf]; simp) hnoconf
            | false =>
              refine lookupNoneOfInvisible ?_ hl
              cases hpe : pathExists fs p.dest with
              | true => exact absurd (by rw [hpe, hl, hf]; rfl) hnoconf
              | false => rfl
        have hpl := openCreatePlain hopen hln
        have hv := fsViewFile hpl (c := "") rfl
        rw [if_pos (by rw [hv.1, hv.2.2.2.1]; rfl)]
        exact ⟨_, rfl, by simp [applyAttributes]⟩

theorem secondLink (ctx : Ctx) (p : Params) (fs fs1 : FS) (r1 : Res)
    (hck : ctx.checkMode = false) (hmk : p.makedirs = false)
    (h1 : handleLink ctx p fs = .ok fs1 r1) :
    ∃ r2 : Res, handleLink ctx p fs1 = .ok fs1 r2 ∧ r2.changed = false := by
  cases hsv : p.src with
  | none =>
    simp only [handleLink, hsv] at h1
    exact Outcome.noConfusion h1
  | some src =>
    simp only [handleLink, linkCreate, hsv, stepMakedirsNoMk hmk, hck,
      Bool.false_eq_true, ite_false, reduceIte] at h1 ⊢
    split at h1
    · exact Outcome.noConfusion h1
    · rename_i hsne
      rw [if_neg hsne]
      split at h1
      · rename_i hcond
        rw [Outcome.ok.injEq] at h1
        obtain ⟨hf, _⟩ := h1
        subst hf
        rw [if_pos hcond]
        exact ⟨_, rfl, by simp [applyAttributes]⟩
      · split at h1
        · split at h1
          · exact Outcome.noConfusion h1
          · rw [Outcome.ok.injEq] at h1
            obtain ⟨hf, _⟩ := h1
            subst hf
            rw [if_pos (by simp [isLink, readLink, lookupSetSelf, mkSymlink])]
            exact ⟨_, rfl, by simp [applyAttributes]⟩
        · rw [Outcome.ok.injEq] at h1
          obtain ⟨hf, _⟩ := h1
          subst hf
          rw [if_pos (by simp [isLink, readLink, lookupSetSelf, mkSymlink])]
          exact ⟨_, rfl, by simp [applyAttributes]⟩

theorem lookupRemoveSelf (fs : FS) (p : String) :
    lookupFS (removeEntry fs p) p = none := by
  simp only [lookupFS, removeEntry, Option.map_eq_none', List.find?_eq_none,
    List.mem_filter, decide_eq_true_eq]
  rintro x ⟨hmem, hkeep⟩
  exact fun hc => hkeep hc

theorem lookupRemoveSubtreeSelf (fs : FS) (p : String) :
    lookupFS (removeSubtree fs p) p = none := by
  simp only [lookupFS, removeSubtree, Option.map_eq_none', List.find?_eq_none,
    List.mem_filter, decide_eq_true_eq]
  rintro x ⟨hmem, hkeep⟩
  exact fun hc => hkeep (Or.inl hc)

theorem memKeysRemoveEntry {f : FS} {path q : String}
    (h : q ∈ keysFS (removeEntry f path)) : q ∈ keysFS f ∧ q ≠ path := by
  simp only [keysFS, removeEntry, List.mem_map, List.mem_filter,
    decide_eq_true_eq] at h ⊢
  obtain ⟨pe, ⟨hmem, hne⟩, rfl⟩ := h
  exact ⟨⟨pe, hmem, rfl⟩, hne⟩

theorem memKeysRemoveSubtree {f : FS} {path q : String}
    (h : q ∈ keysFS (removeSubtree f path)) : q ∈ keysFS f ∧ q ≠ path := by
  simp only [keysFS, removeSubtree, List.mem_map, List.mem_filter,
    decide_eq_true_eq] at h ⊢
  obtain ⟨pe, ⟨hmem, hne⟩, rfl⟩ := h
  exact ⟨⟨pe, hmem, rfl⟩, fun hc => hne (Or.inl hc)⟩

theorem memKeysGlobFold (l : List String) (f : FS) (q : String)
    (hq : q ∈ keysFS (l.foldl
      (fun f2 path => if isDir f2 path && !isLink f2 path then
          removeSubtree f2 path else removeEntry f2 path) f)) :
    q ∈ keysFS f ∧ q ∉ l := by
  induction l generalizing f with
  | nil => exact ⟨hq, List.not_mem_nil q⟩
  | cons path t ih =>
    simp only [List.foldl_cons] at hq
    obtain ⟨hmem, hnt⟩ := ih _ hq
    have hstep : q ∈ keysFS f ∧ q ≠ path := by
      by_cases hc : (isDir f path && !isLink f path) = true
      · rw [if_pos hc] at hmem
        exact memKeysRemoveSubtree hmem
      · rw [if_neg hc] at hmem
        exact memKeysRemoveEntry hmem
    refine ⟨hstep.1, ?_⟩
    intro hin
    cases hin with
    | head => exact hstep.2 rfl
    | tail _ hx => exact hnt hx

theorem globFoldEmpty (pat : String) (f : FS) :
    globMatches ((globMatches f pat).foldl
      (fun f2 path => if isDir f2 path && !isLink f2 path then
          removeSubtree f2 path else removeEntry f2 path) f) pat = [] := by
  rw [globMatches, List.filter_eq_nil]
  intro q hq hmatch
  obtain ⟨hmem, hnot⟩ := memKeysGlobFold _ f q hq
  refine hnot ?_
  rw [globMatches, List.mem_filter]
  exact ⟨hmem, hmatch⟩

theorem secondAbsent (ctx : Ctx) (p : Params) (fs fs1 : FS) (r1 : Res)
    (hck : ctx.checkMode = false)
    (h1 : handleAbsent ctx p fs = .ok fs1 r1) :
    ∃ r2 : Res, handleAbsent ctx p fs1 = .ok fs1 r2 ∧ r2.changed = false := by
  simp only [handleAbsent, hck, Bool.false_eq_true, ite_false, reduceIte] at h1 ⊢
  split at h1
  · rename_i hglob
    rw [if_pos hglob]
    split at h1
    · rename_i hempty
      rw [Outcome.ok.injEq] at h1
      obtain ⟨hf, _⟩ := h1
      subst hf
      rw [if_pos hempty]
      exact ⟨_, rfl, rfl⟩
    · rename_i hne
      rw [Outcome.ok.injEq] at h1
      obtain ⟨hf, _⟩ := h1
      subst hf
      rw [if_pos (by rw [globFoldEmpty]; rfl)]
      exact ⟨_, rfl, rfl⟩
  · rename_i hnoglob
    rw [if_neg hnoglob]
    split at h1
    · rename_i hno
      rw [Outcome.ok.injEq] at h1
      obtain ⟨hf, _⟩ := h1
      subst hf
      rw [if_pos hno]
      exact ⟨_, rfl, rfl⟩
    · rename_i hex
      rw [Outcome.ok.injEq] at h1
      obtain ⟨hf, _⟩ := h1
      subst hf
      have hln : lookupFS (if (isDir fs p.dest && !isLink fs p.dest) = true
          then removeSubtree fs p.dest else removeEntry fs p.dest)
          p.dest = none := by
        split
        · exact lookupRemoveSubtreeSelf fs p.dest
        · exact lookupRemoveSelf fs p.dest
      have hv := fsViewNone hln
      rw [if_pos (by rw [hv.1, hv.2.2.2.1]; rfl)]
      exact ⟨_, rfl, rfl⟩

theorem secondHard (ctx : Ctx) (p : Params) (fs fs1 : FS) (r1 : Res)
    (src c : String) (e : Entry)
    (hck : ctx.checkMode = false) (hmk : p.makedirs = false)
    (hsv : p.src = some src)
    (hle : lookupFS fs src = some e) (hkind : e.kind = .file c)
    (halias : strPref p.dest src = false)
    (h1 : handleHard ctx p fs = .ok fs1 r1) :
    ∃ r2 : Res, handleHard ctx p fs1 = .ok fs1 r2 ∧ r2.changed = false := by
  have hsd : src ≠ p.dest := neOfNotPref halias
  simp only [handleHard, hsv, stepMakedirsNoMk hmk, hck, Bool.not_false,
    Bool.and_true, Bool.false_eq_true, ite_false, reduceIte] at h1 ⊢
  split at h1
  · exact Outcome.noConfusion h1
  · rename_i hsne
    rw [if_neg hsne]
    split at h1
    · rename_i hcorr
      rw [Outcome.ok.injEq] at h1
      obtain ⟨hf, _⟩ := h1
      subst hf
      rw [if_pos hcorr]
      exact ⟨_, rfl, by simp [applyAttributes]⟩
    · rename_i hncorr
      split at h1
      · exact Outcome.noConfusion h1
      · rename_i hforce
        by_cases hconf : (pathExists fs p.dest || isLink fs p.dest) = true
        · by_cases hbk : ((pathExists fs p.dest || isLink fs p.dest)
              && p.backup && isFile fs p.dest) = true
          · rw [if_pos hbk, if_pos hconf] at h1
            have hsrc2 : lookupFS (forceRemove ctx p p.dest
                (backupLocal ctx.now fs p.dest).1) src = some e := by
              rw [lookupForceRemove ctx p p.dest src _ halias]
              simp only [backupLocal]
              rw [lookupSetNe _ _ _ _ (by
                intro h
                rw [h, backupNamePref] at halias
                exact Bool.noConfusion halias)]
              exact hle
            rw [(fsViewFile hsrc2 hkind).2.2.1] at h1
            simp only [Bool.not_true, Bool.false_eq_true, ite_false] at h1
            rw [entryAtOfLookupFile hsrc2 hkind] at h1
            simp only [hkind] at h1
            rw [Outcome.ok.injEq] at h1
            obtain ⟨hf, _⟩ := h1
            subst hf
            have hd := fsViewFile (lookupSetSelf (forceRemove ctx p p.dest
              (backupLocal ctx.now fs p.dest).1) p.dest e) hkind
            have hs2 : lookupFS (setEntry (forceRemove ctx p p.dest
                (backupLocal ctx.now fs p.dest).1) p.dest e) src = some e := by
              rw [lookupSetNe _ _ _ _ hsd]
              exact hsrc2
            have hv3 := fsViewFile hs2 hkind
            rw [if_pos (by
              rw [hd.2.2.1, hv3.2.2.1, hd.2.2.2.2.2, hv3.2.2.2.2.2]; simp)]
            exact ⟨_, rfl, by simp [applyAttributes]⟩
          · rw [if_neg hbk, if_pos hconf] at h1
            have hsrc2 : lookupFS (forceRemove ctx p p.dest fs) src = some e := by
              rw [lookupForceRemove ctx p p.dest src _ halias]
              exact hle
            rw [(fsViewFile hsrc2 hkind).2.2.1] at h1
            simp only [Bool.not_true, Bool.false_eq_true, ite_false] at h1
            rw [entryAtOfLookupFile hsrc2 hkind] at h1
            simp only [hkind] at h1
            rw [Outcome.ok.injEq] at h1
            obtain ⟨hf, _⟩ := h1
            subst hf
            have hd := fsViewFile
              (lookupSetSelf (forceRemove ctx p p.dest fs) p.dest e) hkind
            have hs2 : lookupFS (setEntry (forceRemove ctx p p.dest fs)
                p.dest e) src = some e := by
              rw [lookupSetNe _ _ _ _ hsd]
              exact hsrc2
            have hv3 := fsViewFile hs2 hkind
            rw [if_pos (by
              rw [hd.2.2.1, hv3.2.2.1, hd.2.2.2.2.2, hv3.2.2.2.2.2]; simp)]
            exact ⟨_, rfl, by simp [applyAttributes]⟩
        · rw [if_neg hconf] at h1
          rw [(fsViewFile hle hkind).2.2.1] at h1
          simp only [Bool.not_true, Bool.false_eq_true, ite_false] at h1
          rw [entryAtOfLookupFile hle hkind] at h1
          simp only [hkind] at h1
          rw [Outcome.ok.injEq] at h1
          obtain ⟨hf, _⟩ := h1
          subst hf
          have hd := fsViewFile (lookupSetSelf fs p.dest e) hkind
          have hs2 : lookupFS (setEntry fs p.dest e) src = some e := by
            rw [lookupSetNe _ _ _ _ hsd]
            exact hle
          have hv3 := fsViewFile hs2 hkind
          rw [if_pos (by
            rw [hd.2.2.1, hv3.2.2.1, hd.2.2.2.2.2, hv3.2.2.2.2.2]; simp)]
          exact ⟨_, rfl, by simp [applyAttributes]⟩

theorem neOfRevHeadNe {a b : String} {c1 c2 : Char}
    (ha : a.data.reverse.head? = some c1) (hb : b.data.reverse.head? = some c2)
    (hc : c1 ≠ c2) : a ≠ b := by
  intro h
  rw [h, hb] at ha
  exact hc (Option.some.inj ha).symm

theorem freshTmpRevHead (f : FS) (dir : String) :
    (freshTmpName f dir).data.reverse.head? = some 'x' := by
  simp [freshTmpName, List.replicate_succ']

theorem backupRevHead (dest : String) (now : Nat) :
    (backupLocalName dest now).data.reverse.head? = some 'k' := by
  simp [backupLocalName]

theorem atomicMoveState {f : FS} {tmp dest : String} {f3 : FS} {te : Entry}
    (hte : lookupFS f tmp = some te)
    (h : atomicMove f tmp dest = some f3) :
    f3 = setEntry (removeEntry f tmp) dest te := by
  simp only [atomicMove, hte] at h
  repeat' split at h
  all_goals
    first
      | (exact Option.noConfusion h)
      | (cases h; rfl)

theorem atomicMoveLookup {f : FS} {tmp dest : String} {f3 : FS} {te : Entry}
    (hte : lookupFS f tmp = some te)
    (h : atomicMove f tmp dest = some f3) :
    lookupFS f3 dest = some te := by
  rw [atomicMoveState hte h]
  exact lookupSetSelf _ _ _

theorem writeContentOkState {ctx : Ctx} {p : Params} {dest content : String}
    {f f2 : FS} {r : Res}
    (hck : ctx.checkMode = false)
    (h : writeContent ctx p dest content f = .ok f2 r) :
    (f2 = f ∧ (isFile f dest && decide (readFileFS f dest = some content)) = true)
    ∨ ∃ i n, lookupFS f2 dest = some (mkFile content 0 i n) := by
  simp only [writeContent, hck, Bool.false_eq_true, ite_false, reduceIte] at h
  have hteS : ∀ (dd : String), lookupFS
      (setEntry f (freshTmpName f dd) (mkFile content 0 (freshIno f) ctx.now))
      (freshTmpName f dd) = some (mkFile content 0 (freshIno f) ctx.now) :=
    fun dd => lookupSetSelf _ _ _
  have hteB : ∀ (dd : String), lookupFS
      (backupLocal ctx.now (setEntry f (freshTmpName f dd)
        (mkFile content 0 (freshIno f) ctx.now)) dest).1
      (freshTmpName f dd) = some (mkFile content 0 (freshIno f) ctx.now) := by
    intro dd
    simp only [backupLocal]
    rw [lookupSetNe _ _ _ _ (neOfRevHeadNe (freshTmpRevHead _ _)
      (backupRevHead _ _) (by decide))]
    exact lookupSetSelf _ _ _
  have hteI : ∀ (dd : String) (db : Bool), lookupFS
      (if db = true
       then (backupLocal ctx.now (setEntry f (freshTmpName f dd)
          (mkFile content 0 (freshIno f) ctx.now)) dest).1
       else setEntry f (freshTmpName f dd)
          (mkFile content 0 (freshIno f) ctx.now))
      (freshTmpName f dd) = some (mkFile content 0 (freshIno f) ctx.now) := by
    intro dd db
    cases db with
    | false =>
      rw [if_neg (by simp)]
      exact hteS dd
    | true =>
      rw [if_pos rfl]
      exact hteB dd
  repeat' split at h
  all_goals try (exact Outcome.noConfusion h)
  all_goals try (simp only [unexpectedFail] at h
                 exact Outcome.noConfusion h)
  all_goals try (rw [Outcome.ok.injEq] at h
                 exact Or.inl ⟨h.1.symm, by assumption⟩)
  all_goals
    (rw [Outcome.ok.injEq] at h
     obtain ⟨hf, _⟩ := h
     refine Or.inr ⟨freshIno f, ctx.now, ?_⟩
     rw [← hf]
     first
       | exact atomicMoveLookup (hteI _ _) (by assumption)
       | exact atomicMoveLookup (hteB _) (by assumption)
       | exact atomicMoveLookup (hteS _) (by assumption))

theorem secondCopyContent (ctx : Ctx) (p : Params) (fs fs1 : FS) (r1 : Res)
    (content : String)
    (hck : ctx.checkMode = false) (hmk : p.makedirs = false)
    (hc : p.content = some content)
    (h1 : handleCopy ctx p fs = .ok fs1 r1) :
    ∃ r2 : Res, handleCopy ctx p fs1 = .ok fs1 r2 ∧ r2.changed = false := by
  simp only [handleCopy, hc, Option.isSome_some, Bool.true_and, copyContentFinish,
    stepMakedirsNoMk hmk, hck, Bool.false_eq_true, ite_false, reduceIte] at h1
  simp only [handleCopy, hc, Option.isSome_some, Bool.true_and, copyContentFinish,
    writeContent, stepMakedirsNoMk hmk, hck, Bool.false_eq_true, ite_false,
    reduceIte]
  repeat' split at h1
  all_goals try (exact Outcome.noConfusion h1)
  all_goals
    (rw [Outcome.ok.injEq] at h1
     obtain ⟨hf, _⟩ := h1
     rcases writeContentOkState hck (by assumption) with ⟨hfe, hcnd⟩ | ⟨i, n, hdest⟩
     · rw [hf] at hfe
       subst hfe
       first
         | (rw [isFileForceRemoveSelf] at hcnd
            exact absurd hcnd (by simp))
         | (have hcnd2 := hcnd
            simp only [Bool.and_eq_true] at hcnd2
            rw [if_neg (by assumption : ¬p.src.isSome = true)]
            rw [if_neg (by rw [hcnd2.1]; simp)]
            rw [if_pos hcnd]
            exact ⟨_, rfl, rfl⟩)
     · rw [hf] at hdest
       have hv := fsViewFile hdest rfl
       rw [if_neg (by assumption : ¬p.src.isSome = true)]
       rw [if_neg (by rw [hv.1]; simp)]
       rw [if_pos (by rw [hv.1, hv.2.1]; simp)]
       exact ⟨_, rfl, rfl⟩)

theorem copySrcBodyOkState {ctx : Ctx} {p : Params} {dest src : String}
    {f f2 : FS} {r : Res} {e : Entry} {c0 : String}
    (hck : ctx.checkMode = false)
    (hle : lookupFS f src = some e) (hkind : e.kind = .file c0)
    (h : copySrcBody ctx p dest src f = .ok f2 r) :
    (f2 = f ∧ (isFile f dest && decide (sha256FS f dest = sha256FS f src)) = true)
    ∨ ∃ i n, lookupFS f2 dest = some (mkFile c0 0 i n) := by
  have hrf : ∀ dd, readFileFS (setEntry f (freshTmpName f dd)
      (mkFile "" 0 (freshIno f) ctx.now)) src = some c0 := by
    intro dd
    have hl2 : lookupFS (setEntry f (freshTmpName f dd)
        (mkFile "" 0 (freshIno f) ctx.now)) src = some e := by
      rw [lookupSetNe _ _ _ _ (lookupSomeNeFresh hle)]
      exact hle
    exact (fsViewFile hl2 hkind).2.1
  simp only [copySrcBody, copySrcCommit, hck, hrf, (fsViewFile hle hkind).2.1,
    Bool.false_eq_true, ite_false, reduceIte] at h
  have hteS : ∀ (dd : String), lookupFS
      (setEntry (setEntry f (freshTmpName f dd) (mkFile "" 0 (freshIno f) ctx.now))
        (freshTmpName f dd) (mkFile c0 0 (freshIno f) ctx.now))
      (freshTmpName f dd) = some (mkFile c0 0 (freshIno f) ctx.now) :=
    fun dd => lookupSetSelf _ _ _
  have hteB : ∀ (dd : String), lookupFS
      (backupLocal ctx.now (setEntry (setEntry f (freshTmpName f dd)
          (mkFile "" 0 (freshIno f) ctx.now))
        (freshTmpName f dd) (mkFile c0 0 (freshIno f) ctx.now)) dest).1
      (freshTmpName f dd) = some (mkFile c0 0 (freshIno f) ctx.now) := by
    intro dd
    simp only [backupLocal]
    rw [lookupSetNe _ _ _ _ (neOfRevHeadNe (freshTmpRevHead _ _)
      (backupRevHead _ _) (by decide))]
    exact hteS dd
  have hteI : ∀ (dd : String) (db : Bool), lookupFS
      (if db = true
       then (backupLocal ctx.now (setEntry (setEntry f (freshTmpName f dd)
            (mkFile "" 0 (freshIno f) ctx.now))
          (freshTmpName f dd) (mkFile c0 0 (freshIno f) ctx.now)) dest).1
       else setEntry (setEntry f (freshTmpName f dd)
            (mkFile "" 0 (freshIno f) ctx.now))
          (freshTmpName f dd) (mkFile c0 0 (freshIno f) ctx.now))
      (freshTmpName f dd) = some (mkFile c0 0 (freshIno f) ctx.now) := by
    intro dd db
    cases db with
    | false =>
      rw [if_neg (by simp)]
      exact hteS dd
    | true =>
      rw [if_pos rfl]
      exact hteB dd
  repeat' split at h
  all_goals try (exact Outcome.noConfusion h)
  all_goals try (simp only [unexpectedFail] at h
                 exact Outcome.noConfusion h)
  all_goals try (rw [Outcome.ok.injEq] at h
                 exact Or.inl ⟨h.1.symm, by assumption⟩)
  all_goals
    (rw [Outcome.ok.injEq] at h
     obtain ⟨hf, _⟩ := h
     refine Or.inr ⟨freshIno f, ctx.now, ?_⟩
     rw [← hf]
     first
       | exact atomicMoveLookup (hteI _ _) (by assumption)
       | exact atomicMoveLookup (hteB _) (by assumption)
       | exact atomicMoveLookup (hteS _) (by assumption))

theorem secondCopySrc (ctx : Ctx) (p : Params) (fs fs1 : FS) (r1 : Res)
    (src c0 : String) (e : Entry)
    (hck : ctx.checkMode = false) (hmk : p.makedirs = false)
    (hcn : p.content = none) (hsv : p.src = some src)
    (hle : lookupFS fs src = some e) (hkind : e.kind = .file c0)
    (halias : strPref p.dest src = false)
    (h1 : handleCopy ctx p fs = .ok fs1 r1) :
    ∃ r2 : Res, handleCopy ctx p fs1 = .ok fs1 r2 ∧ r2.changed = false := by
  have hpe := (fsViewFile hle hkind).2.2.1
  simp only [handleCopy, hcn, hsv, Option.isSome_none, Bool.false_and,
    copyFromSrc, stepMakedirsNoMk hmk, hck, hpe, Bool.not_true,
    Bool.false_eq_true, ite_false, reduceIte] at h1
  simp only [handleCopy, hcn, hsv, Option.isSome_none, Bool.false_and,
    copyFromSrc, copySrcBody, stepMakedirsNoMk hmk, hck, Bool.not_true,
    Bool.false_eq_true, ite_false, reduceIte]
  split at h1
  · -- conflict: dest exists and is not a regular file
    rename_i hconf
    split at h1
    · exact Outcome.noConfusion h1
    · rcases copySrcBodyOkState hck
        (by rw [lookupForceRemove ctx p p.dest src fs halias]; exact hle)
        hkind h1 with ⟨hfe, hcnd⟩ | ⟨i, n, hdest⟩
      · rw [isFileForceRemoveSelf] at hcnd
        exact absurd hcnd (by simp)
      · have hsrcp : lookupFS fs1 src = some e := by
          have hpres := lookupCopySrcBody ctx p p.dest src
            (forceRemove ctx p p.dest fs) e
            (by rw [lookupForceRemove ctx p p.dest src fs halias]; exact hle)
            halias
          rw [h1] at hpres
          exact hpres
        have hv := fsViewFile hdest rfl
        have hvs := fsViewFile hsrcp hkind
        rw [if_neg (by rw [hvs.2.2.1]; simp)]
        rw [if_neg (by rw [hv.1]; simp)]
        rw [if_pos (by
          rw [show sha256FS fs1 p.dest = some c0 from hv.2.1,
            show sha256FS fs1 src = some c0 from hvs.2.1, hv.1]
          simp)]
        exact ⟨_, rfl, rfl⟩
  · rename_i hnconf
    rcases copySrcBodyOkState hck hle hkind h1 with ⟨hfe, hcnd⟩ | ⟨i, n, hdest⟩
    · subst hfe
      have hcnd2 := hcnd
      simp only [Bool.and_eq_true] at hcnd2
      rw [if_neg (by rw [(fsViewFile hle hkind).2.2.1]; simp)]
      rw [if_neg (by rw [hcnd2.1]; simp)]
      rw [if_pos hcnd]
      exact ⟨_, rfl, rfl⟩
    · have hsrcp : lookupFS fs1 src = some e := by
        have hpres := lookupCopySrcBody ctx p p.dest src fs e hle halias
        rw [h1] at hpres
        exact hpres
      have hv := fsViewFile hdest rfl
      have hvs := fsViewFile hsrcp hkind
      rw [if_neg (by rw [hvs.2.2.1]; simp)]
      rw [if_neg (by rw [hv.1]; simp)]
      rw [if_pos (by
        rw [show sha256FS fs1 p.dest = some c0 from hv.2.1,
          show sha256FS fs1 src = some c0 from hvs.2.1, hv.1]
        simp)]
      exact ⟨_, rfl, rfl⟩

/-! ### Line-splitting round trips (for the lineinfile/blockinfile
second-run analysis) -/

theorem stringMkData (s : String) : String.mk s.data = s := rfl

theorem dataAppend (a b : String) : (a ++ b).data = a.data ++ b.data := rfl

theorem dataNeNil {s : String} (h : ¬s = "") : s.data ≠ [] := by
  intro hd
  exact h (by rw [← stringMkData s, hd])

theorem splitAfterNlConsNe (c : Char) (cs : List Char) (hc : ¬c = '\n') :
    splitAfterNl (c :: cs)
      = match splitAfterNl cs with
        | [] => [[c]]
        | l :: ls => (c :: l) :: ls := by
  simp only [splitAfterNl, if_neg hc]

theorem splitAfterNlLine : ∀ (body rest : List Char), (∀ c ∈ body, ¬c = '\n') →
    splitAfterNl (body ++ '\n' :: rest)
      = (body ++ ['\n']) :: splitAfterNl rest := by
  intro body
  induction body with
  | nil =>
    intro rest _
    simp [splitAfterNl]
  | cons c cs ih =>
    intro rest hb
    have hc : ¬(c = '\n') := hb c (List.mem_cons_self c cs)
    have hcs : ∀ x ∈ cs, ¬x = '\n' := fun x hx => hb x (List.mem_cons_of_mem c hx)
    rw [List.cons_append, splitAfterNlConsNe c _ hc, ih rest hcs]
    rfl

theorem splitAfterNlNoNl : ∀ (body : List Char), body ≠ [] →
    (∀ c ∈ body, ¬c = '\n') → splitAfterNl body = [body] := by
  intro body
  induction body with
  | nil =>
    intro h _
    exact absurd rfl h
  | cons c cs ih =>
    intro _ hb
    have hc : ¬(c = '\n') := hb c (List.mem_cons_self c cs)
    have hcs : ∀ x ∈ cs, ¬x = '\n' := fun x hx => hb x (List.mem_cons_of_mem c hx)
    cases cs with
    | nil => simp [splitAfterNl, if_neg hc]
    | cons d ds =>
      have hrec := ih (List.cons_ne_nil d ds) hcs
      rw [splitAfterNlConsNe c _ hc, hrec]

theorem dataOfEndsNl {l : String} (h : endsWithNl l = true) :
    l.data = l.data.dropLast ++ ['\n'] := by
  cases hd : l.data.reverse with
  | nil => simp [endsWithNl, hd] at h
  | cons c cs =>
    have hl : l.data = cs.reverse ++ [c] := by
      have h2 := congrArg List.reverse hd
      simpa using h2
    have hc : c = '\n' := by
      simp only [endsWithNl, hd, decide_eq_true_eq] at h
      exact h
    rw [hl, hc, List.dropLast_concat]

theorem noNlOfNotEnds {l : String} (hne : ¬l = "")
    (hwf : ∀ c ∈ l.data.dropLast, ¬c = '\n')
    (h : endsWithNl l = false) : ∀ c ∈ l.data, ¬c = '\n' := by
  cases hd : l.data.reverse with
  | nil =>
    have hnil : l.data = [] := by simpa using congrArg List.reverse hd
    exact absurd hnil (dataNeNil hne)
  | cons c cs =>
    have hl : l.data = cs.reverse ++ [c] := by
      simpa using congrArg List.reverse hd
    have hc : ¬(c = '\n') := by
      simp only [endsWithNl, hd, decide_eq_false_iff_not] at h
      exact h
    have hdl : l.data.dropLast = cs.reverse := by
      rw [hl, List.dropLast_concat]
    intro x hx
    rw [hl] at hx
    rcases List.mem_append.mp hx with hin | hin
    · exact hwf x (by rw [hdl]; exact hin)
    · rw [List.mem_singleton] at hin
      rw [hin]
      exact hc

theorem endsWithNlAppendNl (s : String) : endsWithNl (s ++ "\n") = true := by
  have hd : (s ++ "\n").data = s.data ++ ['\n'] := dataAppend s "\n"
  simp [endsWithNl, hd]

theorem dataDropLastAppendNl (s : String) :
    (s ++ "\n").data.dropLast = s.data := by
  have hd : (s ++ "\n").data = s.data ++ ['\n'] := dataAppend s "\n"
  rw [hd, List.dropLast_concat]

theorem rstripNlAppendNl (s : String) : rstripNl (s ++ "\n") = rstripNl s := by
  have hd : (s ++ "\n").data = s.data ++ ['\n'] := dataAppend s "\n"
  simp [rstripNl, hd, List.dropWhile_cons]

theorem appendNlNeEmpty (s : String) : ¬(s ++ "\n") = "" := by
  intro h
  have hd := congrArg String.data h
  rw [dataAppend] at hd
  exact absurd hd (by simp)

theorem noNlMem {s : String} (h : noNl s = true) : ∀ c ∈ s.data, ¬c = '\n' := by
  intro c hc
  simp only [noNl, List.all_eq_true] at h
  have h2 := h c hc
  simpa using h2

theorem noCrMem {s : String} (h : noCr s = true) : ∀ c ∈ s.data, ¬c = '\r' := by
  intro c hc
  simp only [noCr, List.all_eq_true] at h
  have h2 := h c hc
  simpa using h2

theorem appendNlNoCr {s : String} (h : noCr s = true) :
    ∀ c ∈ (s ++ "\n").data, ¬c = '\r' := by
  intro c hc
  rw [dataAppend] at hc
  rcases List.mem_append.mp hc with h1 | h2
  · exact noCrMem h c h1
  · rw [List.mem_singleton] at h2
    rw [h2]
    decide

theorem noNlEndsFalse {s : String} (h : noNl s = true) :
    endsWithNl s = false := by
  cases hd : s.data.reverse with
  | nil => simp [endsWithNl, hd]
  | cons c cs =>
    have hcm : c ∈ s.data := by
      have h2 : c ∈ s.data.reverse := by
        rw [hd]
        exact List.mem_cons_self c cs
      simpa using h2
    have hc := noNlMem h c hcm
    simp [endsWithNl, hd, hc]

theorem joinLinesCons (l : String) (t : List String) :
    joinLines (l :: t) = l ++ joinLines t := rfl

theorem splitJoinRaw : ∀ (ls : List String),
    (∀ x ∈ ls, ¬x = "" ∧ ∀ c ∈ x.data.dropLast, ¬c = '\n') →
    (∀ x ∈ ls.dropLast, endsWithNl x = true) →
    (splitAfterNl (joinLines ls).data).map String.mk = ls := by
  intro ls
  induction ls with
  | nil =>
    intro _ _
    rfl
  | cons l t ih =>
    intro hwf hterm
    obtain ⟨hne, hdl⟩ := hwf l (List.mem_cons_self l t)
    cases t with
    | nil =>
      have hd0 : (joinLines [l]).data = l.data := by
        have h1 : (joinLines [l]).data = l.data ++ [] := dataAppend l ""
        simpa using h1
      cases he : endsWithNl l with
      | true =>
        have hdata := dataOfEndsNl he
        have hsp : splitAfterNl (joinLines [l]).data = [l.data] := by
          rw [hd0, hdata, splitAfterNlLine _ _ hdl]
          rw [← hdata]
          rfl
        simp only [hsp, List.map_cons, List.map_nil, stringMkData]
      | false =>
        have hnl := noNlOfNotEnds hne hdl he
        have hsp : splitAfterNl (joinLines [l]).data = [l.data] := by
          rw [hd0]
          exact splitAfterNlNoNl l.data (dataNeNil hne) hnl
        simp only [hsp, List.map_cons, List.map_nil, stringMkData]
    | cons t0 ts =>
      have he : endsWithNl l = true := hterm l (List.mem_cons_self l _)
      have hdata := dataOfEndsNl he
      have hd0 : (joinLines (l :: t0 :: ts)).data
          = l.data.dropLast ++ '\n' :: (joinLines (t0 :: ts)).data := by
        have h1 : (joinLines (l :: t0 :: ts)).data
            = (l.data.dropLast ++ ['\n']) ++ (joinLines (t0 :: ts)).data := by
          rw [joinLinesCons, dataAppend, ← hdata]
        rw [h1, List.append_assoc, List.singleton_append]
      have hrec := ih (fun x hx => hwf x (List.mem_cons_of_mem l hx))
        (fun x hx => hterm x (List.mem_cons_of_mem l hx))
      rw [hd0, splitAfterNlLine _ _ hdl, List.map_cons, hrec]
      have hmk : String.mk (l.data.dropLast ++ ['\n']) = l := by
        rw [← hdata]
      rw [hmk]

theorem univNlConsNe (c : Char) (cs : List Char) (hc : ¬c = '\r') :
    univNl (c :: cs) = c :: univNl cs := by
  cases cs with
  | nil => simp [univNl, hc]
  | cons d ds =>
    by_cases hd : d = '\n'
    · subst hd
      simp [univNl, hc]
    · simp [univNl, hc, hd]

theorem univNlId : ∀ (l : List Char), (∀ c ∈ l, ¬c = '\r') → univNl l = l := by
  intro l
  induction l with
  | nil =>
    intro _
    rfl
  | cons c cs ih =>
    intro h
    rw [univNlConsNe c cs (h c (List.mem_cons_self c cs)),
      ih (fun x hx => h x (List.mem_cons_of_mem c hx))]

theorem memJoinLines : ∀ (ls : List String) (c : Char),
    c ∈ (joinLines ls).data → ∃ x ∈ ls, c ∈ x.data := by
  intro ls
  induction ls with
  | nil =>
    intro c hc
    exact absurd hc (List.not_mem_nil c)
  | cons l t ih =>
    intro c hc
    rw [joinLinesCons, dataAppend] at hc
    rcases List.mem_append.mp hc with h1 | h2
    · exact ⟨l, List.mem_cons_self l t, h1⟩
    · obtain ⟨x, hx1, hx2⟩ := ih c h2
      exact ⟨x, List.mem_cons_of_mem l hx1, hx2⟩

theorem toLinesJoin (ls : List String)
    (hwf : ∀ x ∈ ls, ¬x = "" ∧ (∀ c ∈ x.data.dropLast, ¬c = '\n') ∧
      ∀ c ∈ x.data, ¬c = '\r')
    (hterm : ∀ x ∈ ls.dropLast, endsWithNl x = true) :
    toLines (joinLines ls) = ls := by
  have hnr : univNl (joinLines ls).data = (joinLines ls).data :=
    univNlId _ (fun c hc => by
      obtain ⟨x, hx, hcx⟩ := memJoinLines ls c hc
      exact (hwf x hx).2.2 c hcx)
  simp only [toLines, hnr]
  exact splitJoinRaw ls (fun x hx => ⟨(hwf x hx).1, (hwf x hx).2.1⟩) hterm

/-! ### Last-match indices, setting and inserting (lineinfile shapes) -/

theorem lastMatchIdxNoneFree (f : String → Bool) :
    ∀ (ls : List String), lastMatchIdx f ls = none → ∀ x ∈ ls, f x = false := by
  intro ls
  induction ls with
  | nil =>
    intro _ x hx
    exact absurd hx (List.not_mem_nil x)
  | cons a t ih =>
    intro h x hx
    cases hm : lastMatchIdx f t with
    | some j =>
      simp only [lastMatchIdx, hm] at h
      exact Option.noConfusion h
    | none =>
      simp only [lastMatchIdx, hm] at h
      cases hf : f a with
      | true =>
        rw [hf] at h
        simp at h
      | false =>
        cases hx with
        | head => exact hf
        | tail _ hx2 => exact ih hm x hx2

theorem lastMatchIdxFreeNone (f : String → Bool) :
    ∀ (ls : List String), (∀ x ∈ ls, f x = false) → lastMatchIdx f ls = none := by
  intro ls
  induction ls with
  | nil => intro _; rfl
  | cons a t ih =>
    intro h
    have ht := ih (fun x hx => h x (List.mem_cons_of_mem a hx))
    have ha := h a (List.mem_cons_self a t)
    simp [lastMatchIdx, ht, ha]

theorem lastMatchIdxAt (f : String → Bool) (m : String) (hm : f m = true) :
    ∀ (pre suf : List String), (∀ x ∈ suf, f x = false) →
    lastMatchIdx f (pre ++ m :: suf) = some pre.length := by
  intro pre
  induction pre with
  | nil =>
    intro suf hsuf
    have ht := lastMatchIdxFreeNone f suf hsuf
    simp [lastMatchIdx, ht, hm]
  | cons a pre ih =>
    intro suf hsuf
    have ht := ih suf hsuf
    simp [lastMatchIdx, ht]

theorem lastMatchIdxDecomp (f : String → Bool) :
    ∀ (ls : List String) (i : Nat), lastMatchIdx f ls = some i →
    ∃ pre m suf, ls = pre ++ m :: suf ∧ pre.length = i ∧ f m = true ∧
      ∀ x ∈ suf, f x = false := by
  intro ls
  induction ls with
  | nil =>
    intro i h
    exact Option.noConfusion h
  | cons a t ih =>
    intro i h
    cases hm : lastMatchIdx f t with
    | some j =>
      simp only [lastMatchIdx, hm] at h
      obtain ⟨pre, m, suf, hl, hlen, hfm, hsuf⟩ := ih j hm
      refine ⟨a :: pre, m, suf, ?_, ?_, hfm, hsuf⟩
      · rw [hl, List.cons_append]
      · rw [List.length_cons, hlen]
        exact Option.some.inj h
    | none =>
      simp only [lastMatchIdx, hm] at h
      cases hf : f a with
      | false =>
        rw [hf] at h
        simp at h
      | true =>
        rw [hf] at h
        have hi : (0 : Nat) = i := by simpa using h
        refine ⟨[], a, t, rfl, hi, hf, lastMatchIdxNoneFree f t hm⟩

theorem lastMatchIdxLtLength (g : String → Bool) (lines : List String) (i : Nat)
    (hg : lastMatchIdx g lines = some i) : i < lines.length := by
  obtain ⟨pre, m, suf, hl, hlen, _, _⟩ := lastMatchIdxDecomp g lines i hg
  rw [hl, ← hlen]
  simp only [List.length_append, List.length_cons]
  omega

theorem getDAtLen (m d : String) : ∀ (pre suf : List String),
    (pre ++ m :: suf).getD pre.length d = m := by
  intro pre
  induction pre with
  | nil => intro suf; rfl
  | cons a pre ih =>
    intro suf
    simpa using ih suf

theorem setAtLen (m x : String) : ∀ (pre suf : List String),
    (pre ++ m :: suf).set pre.length x = pre ++ x :: suf := by
  intro pre
  induction pre with
  | nil => intro suf; rfl
  | cons a pre ih =>
    intro suf
    simpa using ih suf

theorem insertIdxDecomp (x : String) :
    ∀ (i : Nat) (l : List String), i ≤ l.length →
    l.insertIdx i x = l.take i ++ x :: l.drop i := by
  intro i
  induction i with
  | zero =>
    intro l _
    rfl
  | succ n ih =>
    intro l hl
    cases l with
    | nil => simp at hl
    | cons a t =>
      have ht : n ≤ t.length := by simpa using hl
      simpa using ih t ht

theorem memDropLastCons {a x : String} {t : List String}
    (h : x ∈ t.dropLast) : x ∈ (a :: t).dropLast := by
  cases t with
  | nil => simpa using h
  | cons b u => exact List.mem_cons_of_mem a h

theorem memOfMemDropLast {x : String} :
    ∀ {l : List String}, x ∈ l.dropLast → x ∈ l := by
  intro l
  induction l with
  | nil => intro h; simpa using h
  | cons a t ih =>
    intro h
    cases t with
    | nil => simp at h
    | cons b u =>
      rcases List.mem_cons.mp h with rfl | h2
      · exact List.mem_cons_self _ _
      · exact List.mem_cons_of_mem a (ih h2)

theorem memDropLastFilter (q : String → Bool) :
    ∀ (l : List String) (x : String),
    x ∈ (l.filter q).dropLast → x ∈ l.dropLast := by
  intro l
  induction l with
  | nil =>
    intro x hx
    simpa using hx
  | cons a t ih =>
    intro x hx
    cases hq : q a with
    | false =>
      rw [List.filter_cons, hq] at hx
      simp only [Bool.false_eq_true, ite_false] at hx
      exact memDropLastCons (ih x hx)
    | true =>
      rw [List.filter_cons, hq] at hx
      simp only [ite_true] at hx
      cases hft : t.filter q with
      | nil =>
        rw [hft] at hx
        simp at hx
      | cons b u =>
        rw [hft] at hx
        have htne : t ≠ [] := by
          intro h0
          rw [h0] at hft
          exact List.noConfusion hft
        rcases List.mem_cons.mp hx with rfl | hx2
        · cases t with
          | nil => exact absurd rfl htne
          | cons c v => exact List.mem_cons_self _ _
        · rw [← hft] at hx2
          exact memDropLastCons (ih x hx2)

theorem filterIdem (q : String → Bool) (l : List String) :
    (l.filter q).filter q = l.filter q :=
  List.filter_eq_self.mpr (fun a ha => List.of_mem_filter ha)

/-! ### lineinfile transforms are fixed points on their own output -/

theorem lineinfileInsertShape (lines : List String) (lwn : String)
    (ia : Option AfterHint) (ib : Option BeforeHint)
    (hterm : ∀ x ∈ lines, endsWithNl x = true) :
    ∃ i, i ≤ lines.length ∧
      lineinfileInsert lines lwn ia ib = lines.take i ++ lwn :: lines.drop i := by
  have happend : lines ++ [lwn]
      = lines.take lines.length ++ lwn :: lines.drop lines.length := by
    rw [List.take_length, List.drop_length]
  have hpat : ∀ (g : String → Bool) (i : Nat), lastMatchIdx g lines = some i →
      i < lines.length := by
    intro g i hg
    obtain ⟨pre, m, suf, hl, hlen, _, _⟩ := lastMatchIdxDecomp g lines i hg
    rw [hl, ← hlen]
    simp only [List.length_append, List.length_cons]
    omega
  cases ib with
  | some hb =>
    cases hb with
    | bof => exact ⟨0, Nat.zero_le _, rfl⟩
    | pat g =>
      cases hg : lastMatchIdx g lines with
      | some i =>
        have hle : i ≤ lines.length := Nat.le_of_lt (hpat g i hg)
        refine ⟨i, hle, ?_⟩
        simp only [lineinfileInsert, hg]
        exact insertIdxDecomp lwn i lines hle
      | none =>
        refine ⟨lines.length, Nat.le_refl _, ?_⟩
        simp only [lineinfileInsert, hg]
        exact happend
  | none =>
    cases ia with
    | some ha =>
      cases ha with
      | pat g =>
        cases hg : lastMatchIdx g lines with
        | some i =>
          have hle : i + 1 ≤ lines.length := hpat g i hg
          refine ⟨i + 1, hle, ?_⟩
          simp only [lineinfileInsert, hg]
          exact insertIdxDecomp lwn (i + 1) lines hle
        | none =>
          refine ⟨lines.length, Nat.le_refl _, ?_⟩
          simp only [lineinfileInsert, hg]
          exact happend
      | eof =>
        refine ⟨lines.length, Nat.le_refl _, ?_⟩
        cases hlast : lines.getLast? with
        | none =>
          rw [List.getLast?_eq_none_iff] at hlast
          subst hlast
          rfl
        | some l0 =>
          have hmem := List.mem_of_mem_getLast? hlast
          have he := hterm l0 hmem
          simp only [lineinfileInsert, hlast, he, Bool.not_true,
            Bool.false_eq_true, ite_false]
          exact happend
    | none =>
      refine ⟨lines.length, Nat.le_refl _, ?_⟩
      cases hlast : lines.getLast? with
      | none =>
        rw [List.getLast?_eq_none_iff] at hlast
        subst hlast
        rfl
      | some l0 =>
        have hmem := List.mem_of_mem_getLast? hlast
        have he := hterm l0 hmem
        simp only [lineinfileInsert, hlast, he, Bool.not_true,
          Bool.false_eq_true, ite_false]
        exact happend

theorem lineinfilePresentStable (lines : List String) (l : String)
    (regexp : Option (String → Bool)) (ia : Option AfterHint)
    (ib : Option BeforeHint)
    (hnl : noNl l = true)
    (hterm : ∀ x ∈ lines, endsWithNl x = true)
    (hre : ∀ f, regexp = some f → f (l ++ "\n") = true) :
    lineinfilePresent (lineinfilePresent lines l regexp ia ib) l regexp ia ib
      = lineinfilePresent lines l regexp ia ib
    ∧ ∀ x ∈ lineinfilePresent lines l regexp ia ib,
        x ∈ lines ∨ x = l ++ "\n" := by
  have hEnds := noNlEndsFalse hnl
  have hrs : rstripNl (l ++ "\n") = rstripNl l := rstripNlAppendNl l
  cases regexp with
  | none =>
    cases hany : lines.any (fun l2 => decide (rstripNl l2 = rstripNl l)) with
    | true =>
      have hres : lineinfilePresent lines l none ia ib = lines := by
        simp [lineinfilePresent, hany]
      rw [hres]
      exact ⟨hres, fun x hx => Or.inl hx⟩
    | false =>
      obtain ⟨i, hle, hshape⟩ := lineinfileInsertShape lines (l ++ "\n") ia ib hterm
      have hres : lineinfilePresent lines l none ia ib
          = lines.take i ++ (l ++ "\n") :: lines.drop i := by
        simp only [lineinfilePresent, hEnds, Bool.false_eq_true, ite_false,
          hany]
        exact hshape
      rw [hres]
      constructor
      · have hany2 : (lines.take i ++ (l ++ "\n") :: lines.drop i).any
            (fun l2 => decide (rstripNl l2 = rstripNl l)) = true := by
          rw [List.any_eq_true]
          exact ⟨l ++ "\n", List.mem_append_right _ (List.mem_cons_self _ _),
            by simp [hrs]⟩
        simp [lineinfilePresent, hany2]
      · intro x hx
        rcases List.mem_append.mp hx with hx1 | hx2
        · exact Or.inl (List.take_subset _ _ hx1)
        · rcases List.mem_cons.mp hx2 with rfl | hx3
          · exact Or.inr rfl
          · exact Or.inl (List.drop_subset _ _ hx3)
  | some f =>
    have hf : f (l ++ "\n") = true := hre f rfl
    cases hg : lastMatchIdx f lines with
    | some i =>
      obtain ⟨pre, m, suf, hl, hlen, hfm, hsuf⟩ := lastMatchIdxDecomp f lines i hg
      subst hl
      subst hlen
      by_cases hcond : rstripNl ((pre ++ m :: suf).getD pre.length "")
          ≠ rstripNl l
      · have hres : lineinfilePresent (pre ++ m :: suf) l (some f) ia ib
            = pre ++ (l ++ "\n") :: suf := by
          simp only [lineinfilePresent, hg, hEnds, Bool.false_eq_true, ite_false]
          rw [if_pos hcond, setAtLen]
        have hg2 : lastMatchIdx f (pre ++ (l ++ "\n") :: suf) = some pre.length :=
          lastMatchIdxAt f (l ++ "\n") hf pre suf hsuf
        have hget2 : (pre ++ (l ++ "\n") :: suf).getD pre.length "" = l ++ "\n" :=
          getDAtLen _ _ pre suf
        have hres2 : lineinfilePresent (pre ++ (l ++ "\n") :: suf) l (some f) ia ib
            = pre ++ (l ++ "\n") :: suf := by
          simp only [lineinfilePresent, hg2, hget2, hrs, hEnds,
            Bool.false_eq_true, ite_false]
          rw [if_neg (by simp)]
        rw [hres]
        refine ⟨hres2, ?_⟩
        intro x hx
        rcases List.mem_append.mp hx with hx1 | hx2
        · exact Or.inl (List.mem_append_left _ hx1)
        · rcases List.mem_cons.mp hx2 with rfl | hx3
          · exact Or.inr rfl
          · exact Or.inl (List.mem_append_right _ (List.mem_cons_of_mem _ hx3))
      · have hres : lineinfilePresent (pre ++ m :: suf) l (some f) ia ib
            = pre ++ m :: suf := by
          simp only [lineinfilePresent, hg, hEnds, Bool.false_eq_true, ite_false]
          rw [if_neg hcond]
        rw [hres]
        exact ⟨hres, fun x hx => Or.inl hx⟩
    | none =>
      have hfree := lastMatchIdxNoneFree f lines hg
      obtain ⟨i, hle, hshape⟩ := lineinfileInsertShape lines (l ++ "\n") ia ib hterm
      have hres : lineinfilePresent lines l (some f) ia ib
          = lines.take i ++ (l ++ "\n") :: lines.drop i := by
        simp only [lineinfilePresent, hg, hEnds, Bool.false_eq_true, ite_false]
        exact hshape
      have hg2 : lastMatchIdx f (lines.take i ++ (l ++ "\n") :: lines.drop i)
          = some i := by
        have h0 := lastMatchIdxAt f (l ++ "\n") hf (lines.take i) (lines.drop i)
          (fun x hx => hfree x (List.drop_subset _ _ hx))
        rw [h0, List.length_take, Nat.min_eq_left hle]
      have hget2 : (lines.take i ++ (l ++ "\n") :: lines.drop i).getD i ""
          = l ++ "\n" := by
        have h0 := getDAtLen (l ++ "\n") "" (lines.take i) (lines.drop i)
        rw [List.length_take, Nat.min_eq_left hle] at h0
        exact h0
      have hres2 : lineinfilePresent
          (lines.take i ++ (l ++ "\n") :: lines.drop i) l (some f) ia ib
          = lines.take i ++ (l ++ "\n") :: lines.drop i := by
        simp only [lineinfilePresent, hg2, hget2, hrs, hEnds,
          Bool.false_eq_true, ite_false]
        rw [if_neg (by simp)]
      rw [hres]
      refine ⟨hres2, ?_⟩
      intro x hx
      rcases List.mem_append.mp hx with hx1 | hx2
      · exact Or.inl (List.take_subset _ _ hx1)
      · rcases List.mem_cons.mp hx2 with rfl | hx3
        · exact Or.inr rfl
        · exact Or.inl (List.drop_subset _ _ hx3)

theorem lineinfileAbsentStable (lines : List String) (line : Option String)
    (regexp : Option (String → Bool)) :
    lineinfileAbsent (lineinfileAbsent lines line regexp) line regexp
      = lineinfileAbsent lines line regexp
    ∧ ∀ x ∈ lineinfileAbsent lines line regexp, x ∈ lines := by
  cases regexp with
  | some f =>
    exact ⟨filterIdem _ lines, fun x hx => List.mem_of_mem_filter hx⟩
  | none =>
    cases line with
    | some l0 =>
      exact ⟨filterIdem _ lines, fun x hx => List.mem_of_mem_filter hx⟩
    | none => exact ⟨rfl, fun x hx => hx⟩

/-! ### blockinfile marker scans and fixed points -/

theorem findPairGoFreeNone (bm em : String) :
    ∀ (ls : List String) (b : Option Nat) (i : Nat),
    (∀ x ∈ ls, rstripNl x ≠ bm ∧ rstripNl x ≠ em) →
    findPairGo bm em ls b i = none := by
  intro ls
  induction ls with
  | nil =>
    intro b i _
    rfl
  | cons a t ih =>
    intro b i h
    have ha := h a (List.mem_cons_self a t)
    have ht := fun x hx => h x (List.mem_cons_of_mem a hx)
    simp only [findPairGo, if_neg ha.1]
    cases b with
    | none => exact ih none (i + 1) ht
    | some bi =>
      simp only [if_neg ha.2]
      exact ih (some bi) (i + 1) ht

theorem findPairGoNoneSkip (bm em : String) :
    ∀ (pre rest : List String) (i : Nat),
    (∀ x ∈ pre, rstripNl x ≠ bm ∧ rstripNl x ≠ em) →
    findPairGo bm em (pre ++ rest) none i
      = findPairGo bm em rest none (i + pre.length) := by
  intro pre
  induction pre with
  | nil =>
    intro rest i _
    simp
  | cons a t ih =>
    intro rest i h
    have ha := h a (List.mem_cons_self a t)
    have ht := fun x hx => h x (List.mem_cons_of_mem a hx)
    rw [List.cons_append]
    simp only [findPairGo, if_neg ha.1]
    rw [ih rest (i + 1) ht]
    have harith : i + 1 + t.length = i + (a :: t).length := by
      rw [List.length_cons]
      omega
    rw [harith]

theorem findPairGoSomeSkip (bm em : String) :
    ∀ (mid rest : List String) (bi i : Nat),
    (∀ x ∈ mid, rstripNl x ≠ bm ∧ rstripNl x ≠ em) →
    findPairGo bm em (mid ++ rest) (some bi) i
      = findPairGo bm em rest (some bi) (i + mid.length) := by
  intro mid
  induction mid with
  | nil =>
    intro rest bi i _
    simp
  | cons a t ih =>
    intro rest bi i h
    have ha := h a (List.mem_cons_self a t)
    have ht := fun x hx => h x (List.mem_cons_of_mem a hx)
    rw [List.cons_append]
    simp only [findPairGo, if_neg ha.1, if_neg ha.2]
    rw [ih rest bi (i + 1) ht]
    have harith : i + 1 + t.length = i + (a :: t).length := by
      rw [List.length_cons]
      omega
    rw [harith]

theorem findPairHit (bm em : String) (hne : bm ≠ em)
    (hrbm : rstripNl bm = bm) (hrem : rstripNl em = em)
    (pre mid suf : List String)
    (hpre : ∀ x ∈ pre, rstripNl x ≠ bm ∧ rstripNl x ≠ em)
    (hmid : ∀ x ∈ mid, rstripNl x ≠ bm ∧ rstripNl x ≠ em) :
    findPair bm em (pre ++ ((bm ++ "\n") :: (mid ++ ((em ++ "\n") :: suf))))
      = some (pre.length, pre.length + mid.length + 1) := by
  have hsbm : rstripNl (bm ++ "\n") = bm := by rw [rstripNlAppendNl, hrbm]
  have hsem : rstripNl (em ++ "\n") = em := by rw [rstripNlAppendNl, hrem]
  have h0 : findPair bm em (pre ++ ((bm ++ "\n") :: (mid ++ ((em ++ "\n") :: suf))))
      = findPairGo bm em (pre ++ ((bm ++ "\n") :: (mid ++ ((em ++ "\n") :: suf))))
          none 0 := rfl
  rw [h0, findPairGoNoneSkip bm em pre _ 0 hpre, Nat.zero_add]
  have hstep1 : findPairGo bm em
      ((bm ++ "\n") :: (mid ++ ((em ++ "\n") :: suf))) none pre.length
      = findPairGo bm em (mid ++ ((em ++ "\n") :: suf)) (some pre.length)
          (pre.length + 1) := by
    simp [findPairGo, hsbm, hne]
  rw [hstep1, findPairGoSomeSkip bm em mid _ _ _ hmid]
  have hstep2 : findPairGo bm em ((em ++ "\n") :: suf) (some pre.length)
      (pre.length + 1 + mid.length)
      = some (pre.length, pre.length + 1 + mid.length) := by
    simp [findPairGo, hsem, Ne.symm hne]
  rw [hstep2]
  have harith : pre.length + 1 + mid.length = pre.length + mid.length + 1 := by
    omega
  rw [harith]

theorem findPairReassemble (bm em : String) (hne : bm ≠ em)
    (hrbm : rstripNl bm = bm) (hrem : rstripNl em = em)
    (pre mid suf : List String)
    (hpre : ∀ x ∈ pre, rstripNl x ≠ bm ∧ rstripNl x ≠ em)
    (hmid : ∀ x ∈ mid, rstripNl x ≠ bm ∧ rstripNl x ≠ em) :
    findPair bm em ((pre ++ ((bm ++ "\n") :: mid ++ [em ++ "\n"])) ++ suf)
      = some (pre.length, pre.length + mid.length + 1)
    ∧ ((pre ++ ((bm ++ "\n") :: mid ++ [em ++ "\n"])) ++ suf).take pre.length
        = pre
    ∧ ((pre ++ ((bm ++ "\n") :: mid ++ [em ++ "\n"])) ++ suf).drop
        (pre.length + mid.length + 1 + 1) = suf := by
  refine ⟨?_, ?_, ?_⟩
  · have hassoc : (pre ++ ((bm ++ "\n") :: mid ++ [em ++ "\n"])) ++ suf
        = pre ++ ((bm ++ "\n") :: (mid ++ ((em ++ "\n") :: suf))) := by
      simp [List.append_assoc]
    rw [hassoc]
    exact findPairHit bm em hne hrbm hrem pre mid suf hpre hmid
  · rw [List.append_assoc]
    exact List.take_left' rfl
  · have hlen : (pre ++ ((bm ++ "\n") :: mid ++ [em ++ "\n"])).length
        = pre.length + mid.length + 1 + 1 := by
      simp only [List.length_append, List.length_cons, List.length_nil]
      omega
    exact List.drop_left' hlen

theorem appendBlockShape (lines bl : List String)
    (hterm : ∀ x ∈ lines, endsWithNl x = true) :
    appendBlockAtEof lines bl
      = lines.take lines.length ++ bl ++ lines.drop lines.length := by
  cases hlast : lines.getLast? with
  | none =>
    rw [List.getLast?_eq_none_iff] at hlast
    subst hlast
    simp [appendBlockAtEof]
  | some l0 =>
    have he := hterm l0 (List.mem_of_mem_getLast? hlast)
    simp [appendBlockAtEof, hlast, he]

theorem blockinfilePresentShape (lines : List String) (block bm em : String)
    (ia : Option AfterHint) (ib : Option BeforeHint)
    (hterm : ∀ x ∈ lines, endsWithNl x = true)
    (hfree : ∀ x ∈ lines, rstripNl x ≠ bm ∧ rstripNl x ≠ em) :
    ∃ i, i ≤ lines.length ∧
      blockinfilePresent lines block bm em ia ib
        = lines.take i
          ++ ((bm ++ "\n") :: toLinesKeep (if block ≠ "" && !endsWithNl block
                then block ++ "\n" else block) ++ [em ++ "\n"])
          ++ lines.drop i := by
  have hfp : findPair bm em lines = none :=
    findPairGoFreeNone bm em lines none 0 hfree
  cases ib with
  | some hb =>
    cases hb with
    | bof =>
      refine ⟨0, Nat.zero_le _, ?_⟩
      simp only [blockinfilePresent, hfp]
      rfl
    | pat g =>
      cases hg : lastMatchIdx g lines with
      | some i =>
        have hle : i ≤ lines.length := Nat.le_of_lt (lastMatchIdxLtLength g lines i hg)
        refine ⟨i, hle, ?_⟩
        simp only [blockinfilePresent, hfp, hg]
      | none =>
        refine ⟨lines.length, Nat.le_refl _, ?_⟩
        simp only [blockinfilePresent, hfp, hg]
        exact appendBlockShape lines _ hterm
  | none =>
    cases ia with
    | some ha =>
      cases ha with
      | pat g =>
        cases hg : lastMatchIdx g lines with
        | some i =>
          have hle : i + 1 ≤ lines.length := lastMatchIdxLtLength g lines i hg
          refine ⟨i + 1, hle, ?_⟩
          simp only [blockinfilePresent, hfp, hg]
        | none =>
          refine ⟨lines.length, Nat.le_refl _, ?_⟩
          simp only [blockinfilePresent, hfp, hg]
          exact appendBlockShape lines _ hterm
      | eof =>
        refine ⟨lines.length, Nat.le_refl _, ?_⟩
        simp only [blockinfilePresent, hfp]
        exact appendBlockShape lines _ hterm
    | none =>
      refine ⟨lines.length, Nat.le_refl _, ?_⟩
      simp only [blockinfilePresent, hfp]
      exact appendBlockShape lines _ hterm

theorem blockinfilePresentStable (lines : List String) (block bm em : String)
    (ia : Option AfterHint) (ib : Option BeforeHint)
    (hne : bm ≠ em)
    (hrbm : rstripNl bm = bm) (hrem : rstripNl em = em)
    (hterm : ∀ x ∈ lines, endsWithNl x = true)
    (hfree : ∀ x ∈ lines, rstripNl x ≠ bm ∧ rstripNl x ≠ em)
    (hbfree : ∀ x ∈ toLinesKeep (if block ≠ "" && !endsWithNl block
        then block ++ "\n" else block), rstripNl x ≠ bm ∧ rstripNl x ≠ em) :
    blockinfilePresent (blockinfilePresent lines block bm em ia ib)
        block bm em ia ib
      = blockinfilePresent lines block bm em ia ib
    ∧ ∀ x ∈ blockinfilePresent lines block bm em ia ib,
        x ∈ lines ∨ x ∈ toLinesKeep (if block ≠ "" && !endsWithNl block
            then block ++ "\n" else block) ∨ x = bm ++ "\n" ∨ x = em ++ "\n" := by
  obtain ⟨i, hle, hshape⟩ :=
    blockinfilePresentShape lines block bm em ia ib hterm hfree
  have hpre : ∀ x ∈ lines.take i, rstripNl x ≠ bm ∧ rstripNl x ≠ em :=
    fun x hx => hfree x (List.take_subset _ _ hx)
  have hR := findPairReassemble bm em hne hrbm hrem (lines.take i)
    (toLinesKeep (if block ≠ "" && !endsWithNl block then block ++ "\n" else block))
    (lines.drop i) hpre hbfree
  constructor
  · rw [hshape]
    simp only [blockinfilePresent, hR.1]
    rw [hR.2.1, hR.2.2]
  · intro x hx
    rw [hshape] at hx
    rcases List.mem_append.mp hx with hx1 | hx4
    · rcases List.mem_append.mp hx1 with hx2 | hx3
      · exact Or.inl (List.take_subset _ _ hx2)
      · rcases List.mem_append.mp hx3 with hx5 | hx7
        · rcases List.mem_cons.mp hx5 with rfl | hx6
          · exact Or.inr (Or.inr (Or.inl rfl))
          · exact Or.inr (Or.inl hx6)
        · rw [List.mem_singleton] at hx7
          exact Or.inr (Or.inr (Or.inr hx7))
    · exact Or.inl (List.drop_subset _ _ hx4)

theorem blockinfileAbsentFree (lines : List String) (bm em : String)
    (hfree : ∀ x ∈ lines, rstripNl x ≠ bm ∧ rstripNl x ≠ em) :
    blockinfileAbsent lines bm em = lines := by
  have hfp : findPair bm em lines = none :=
    findPairGoFreeNone bm em lines none 0 hfree
  simp [blockinfileAbsent, hfp]

/-! ### One edit step stabilises the file (lineinfile and blockinfile) -/

theorem lineinfileAbsentDropLastTerm (lines : List String) (line : Option String)
    (regexp : Option (String → Bool))
    (hterm : ∀ x ∈ lines.dropLast, endsWithNl x = true) :
    ∀ x ∈ (lineinfileAbsent lines line regexp).dropLast, endsWithNl x = true := by
  cases regexp with
  | some f => exact fun x hx => hterm x (memDropLastFilter _ lines x hx)
  | none =>
    cases line with
    | some l0 => exact fun x hx => hterm x (memDropLastFilter _ lines x hx)
    | none => exact fun x hx => hterm x hx

theorem lineinfileStepFix (lines lines2 : List String) (lineState : String)
    (line : Option String) (regexp : Option (String → Bool))
    (ia : Option AfterHint) (ib : Option BeforeHint)
    (hwf : ∀ x ∈ lines, ¬x = "" ∧ (∀ c ∈ x.data.dropLast, ¬c = '\n') ∧
      ∀ c ∈ x.data, ¬c = '\r')
    (hpres : lineState = "present" → ∃ l, line = some l ∧ noNl l = true ∧
        noCr l = true ∧
        (∀ f, regexp = some f → f (l ++ "\n") = true) ∧
        ∀ x ∈ lines, endsWithNl x = true)
    (habs : ¬lineState = "present" → ∀ x ∈ lines.dropLast, endsWithNl x = true)
    (h2 : lines2 = if lineState = "present"
        then lineinfilePresent lines (line.getD "") regexp ia ib
        else lineinfileAbsent lines line regexp) :
    (if lineState = "present"
        then lineinfilePresent lines2 (line.getD "") regexp ia ib
        else lineinfileAbsent lines2 line regexp) = lines2
    ∧ toLines (joinLines lines2) = lines2 := by
  by_cases hps : lineState = "present"
  · obtain ⟨l, hline, hnl, hcr, hre, hterm⟩ := hpres hps
    rw [if_pos hps] at h2
    simp only [hline, Option.getD_some] at h2 ⊢
    subst h2
    rw [if_pos hps]
    have hst := lineinfilePresentStable lines l regexp ia ib hnl hterm hre
    refine ⟨hst.1, toLinesJoin _ ?_ ?_⟩
    · intro x hx
      rcases hst.2 x hx with hxl | rfl
      · exact hwf x hxl
      · refine ⟨appendNlNeEmpty l, ?_, appendNlNoCr hcr⟩
        intro c hc
        rw [dataDropLastAppendNl] at hc
        exact noNlMem hnl c hc
    · intro x hx
      have hx2 := memOfMemDropLast hx
      rcases hst.2 x hx2 with hxl | rfl
      · exact hterm x hxl
      · exact endsWithNlAppendNl l
  · rw [if_neg hps] at h2
    subst h2
    rw [if_neg hps]
    have hst := lineinfileAbsentStable lines line regexp
    refine ⟨hst.1, toLinesJoin _ ?_ ?_⟩
    · intro x hx
      exact hwf x (hst.2 x hx)
    · exact lineinfileAbsentDropLastTerm lines line regexp (habs hps)

theorem blockinfileStepFix (lines lines2 : List String) (blockState : String)
    (block : Option String) (bm em : String)
    (ia : Option AfterHint) (ib : Option BeforeHint)
    (hwf : ∀ x ∈ lines, ¬x = "" ∧ (∀ c ∈ x.data.dropLast, ¬c = '\n') ∧
      ∀ c ∈ x.data, ¬c = '\r')
    (hterm : ∀ x ∈ lines, endsWithNl x = true)
    (hne : ¬bm = em) (hnlbm : noNl bm = true) (hnlem : noNl em = true)
    (hcrbm : noCr bm = true) (hcrem : noCr em = true)
    (hbmne : ¬bm = "") (hemne : ¬em = "")
    (hrbm : rstripNl bm = bm) (hrem : rstripNl em = em)
    (hfree : ∀ x ∈ lines, rstripNl x ≠ bm ∧ rstripNl x ≠ em)
    (hpres : blockState = "present" → ∃ b, block = some b ∧
        ∀ x ∈ toLinesKeep (if b ≠ "" && !endsWithNl b then b ++ "\n" else b),
          (¬x = "" ∧ (∀ c ∈ x.data.dropLast, ¬c = '\n') ∧
            ∀ c ∈ x.data, ¬c = '\r') ∧ endsWithNl x = true ∧
          rstripNl x ≠ bm ∧ rstripNl x ≠ em)
    (h2 : lines2 = if blockState = "present"
        then blockinfilePresent lines (block.getD "") bm em ia ib
        else blockinfileAbsent lines bm em) :
    (if blockState = "present"
        then blockinfilePresent lines2 (block.getD "") bm em ia ib
        else blockinfileAbsent lines2 bm em) = lines2
    ∧ toLines (joinLines lines2) = lines2 := by
  by_cases hps : blockState = "present"
  · obtain ⟨b, hb, hblock⟩ := hpres hps
    rw [if_pos hps] at h2
    simp only [hb, Option.getD_some] at h2 ⊢
    subst h2
    rw [if_pos hps]
    have hst := blockinfilePresentStable lines b bm em ia ib hne hrbm hrem
      hterm hfree (fun x hx => ⟨(hblock x hx).2.2.1, (hblock x hx).2.2.2⟩)
    refine ⟨hst.1, toLinesJoin _ ?_ ?_⟩
    · intro x hx
      rcases hst.2 x hx with hxl | hxb | rfl | rfl
      · exact hwf x hxl
      · exact (hblock x hxb).1
      · refine ⟨appendNlNeEmpty bm, ?_, appendNlNoCr hcrbm⟩
        intro c hc
        rw [dataDropLastAppendNl] at hc
        exact noNlMem hnlbm c hc
      · refine ⟨appendNlNeEmpty em, ?_, appendNlNoCr hcrem⟩
        intro c hc
        rw [dataDropLastAppendNl] at hc
        exact noNlMem hnlem c hc
    · intro x hx
      have hx2 := memOfMemDropLast hx
      rcases hst.2 x hx2 with hxl | hxb | rfl | rfl
      · exact hterm x hxl
      · exact (hblock x hxb).2.1
      · exact endsWithNlAppendNl bm
      · exact endsWithNlAppendNl em
  · rw [if_neg hps] at h2
    subst h2
    rw [if_neg hps]
    have habs := blockinfileAbsentFree lines bm em hfree
    constructor
    · rw [habs]
      exact habs
    · rw [habs]
      exact toLinesJoin lines hwf (fun x hx => hterm x (memOfMemDropLast hx))

theorem secondLineinfile (ctx : Ctx) (p : Params) (fs fs1 : FS) (r1 : Res)
    (hck : ctx.checkMode = false) (hmk : p.makedirs = false)
    (hwfS : ∀ x ∈ (if isFile fs p.dest
        then toLines ((readFileFS fs p.dest).getD "") else []),
        ¬x = "" ∧ (∀ c ∈ x.data.dropLast, ¬c = '\n') ∧ ∀ c ∈ x.data, ¬c = '\r')
    (hpresS : p.lineState = "present" → ∀ l, p.line = some l →
        noNl l = true ∧ noCr l = true ∧
        (∀ f, p.regexp = some f → f (l ++ "\n") = true) ∧
        ∀ x ∈ (if isFile fs p.dest
          then toLines ((readFileFS fs p.dest).getD "") else []),
          endsWithNl x = true)
    (habsS : ¬p.lineState = "present" →
        ∀ x ∈ (if isFile fs p.dest
          then toLines ((readFileFS fs p.dest).getD "") else []).dropLast,
          endsWithNl x = true)
    (h1 : handleLineinfile ctx p fs = .ok fs1 r1) :
    ∃ r2 : Res, handleLineinfile ctx p fs1 = .ok fs1 r2 ∧ r2.changed = false := by
  simp only [handleLineinfile, stepMakedirsNoMk hmk, hck, Bool.false_eq_true,
    ite_false, reduceIte] at h1 ⊢
  by_cases hG1 : (p.insertafter.isSome && p.insertbefore.isSome) = true
  · rw [if_pos hG1] at h1
    exact Outcome.noConfusion h1
  rw [if_neg hG1] at h1 ⊢
  by_cases hG2 : (p.lineState = "present" && p.line.isNone) = true
  · rw [if_pos hG2] at h1
    exact Outcome.noConfusion h1
  rw [if_neg hG2] at h1 ⊢
  by_cases hG3 : (p.lineState = "absent" && p.line.isNone && p.regexp.isNone)
      = true
  · rw [if_pos hG3] at h1
    exact Outcome.noConfusion h1
  rw [if_neg hG3] at h1 ⊢
  by_cases hB4 : (!isFile fs p.dest && decide (p.lineState ≠ "present")) = true
  · rw [if_pos hB4] at h1
    rw [Outcome.ok.injEq] at h1
    obtain ⟨hf, _⟩ := h1
    subst hf
    rw [if_pos hB4]
    exact ⟨_, rfl, rfl⟩
  rw [if_neg hB4] at h1
  by_cases heq : (if p.lineState = "present"
      then lineinfilePresent (if isFile fs p.dest
          then toLines ((readFileFS fs p.dest).getD "") else [])
        (p.line.getD "") p.regexp p.insertafter p.insertbefore
      else lineinfileAbsent (if isFile fs p.dest
          then toLines ((readFileFS fs p.dest).getD "") else [])
        p.line p.regexp)
      = (if isFile fs p.dest then toLines ((readFileFS fs p.dest).getD "") else [])
  · rw [if_pos heq] at h1
    rw [Outcome.ok.injEq] at h1
    obtain ⟨hf, _⟩ := h1
    subst hf
    rw [if_neg hB4, if_pos heq]
    exact ⟨_, rfl, by simp [applyAttributes]⟩
  rw [if_neg heq] at h1
  simp only [editWriteFinish, hck, Bool.false_eq_true, ite_false, reduceIte] at h1
  have hpres2 : p.lineState = "present" → ∃ l, p.line = some l ∧
      noNl l = true ∧ noCr l = true ∧
      (∀ f, p.regexp = some f → f (l ++ "\n") = true) ∧
      ∀ x ∈ (if isFile fs p.dest
        then toLines ((readFileFS fs p.dest).getD "") else []),
        endsWithNl x = true := by
    intro hps
    cases hline : p.line with
    | none =>
      rw [hps, hline] at hG2
      simp at hG2
    | some l =>
      obtain ⟨hnl, hcr, hre, hterm⟩ := hpresS hps l hline
      exact ⟨l, rfl, hnl, hcr, hre, hterm⟩
  have hstep := lineinfileStepFix
    (if isFile fs p.dest then toLines ((readFileFS fs p.dest).getD "") else [])
    (if p.lineState = "present"
      then lineinfilePresent (if isFile fs p.dest
          then toLines ((readFileFS fs p.dest).getD "") else [])
        (p.line.getD "") p.regexp p.insertafter p.insertbefore
      else lineinfileAbsent (if isFile fs p.dest
          then toLines ((readFileFS fs p.dest).getD "") else [])
        p.line p.regexp)
    p.lineState p.line p.regexp p.insertafter p.insertbefore
    hwfS hpres2 habsS rfl
  cases hwc : writeContent ctx p p.dest (joinLines (if p.lineState = "present"
      then lineinfilePresent (if isFile fs p.dest
          then toLines ((readFileFS fs p.dest).getD "") else [])
        (p.line.getD "") p.regexp p.insertafter p.insertbefore
      else lineinfileAbsent (if isFile fs p.dest
          then toLines ((readFileFS fs p.dest).getD "") else [])
        p.line p.regexp)) fs with
  | failed fsF ff =>
    rw [hwc] at h1
    exact Outcome.noConfusion h1
  | ok fs2 wr =>
    rw [hwc] at h1
    simp only [Outcome.ok.injEq] at h1
    obtain ⟨hf, _⟩ := h1
    rcases writeContentOkState hck hwc with ⟨hfe, hcnd⟩ | ⟨i, n, hdest⟩
    · simp only [Bool.and_eq_true, decide_eq_true_eq] at hcnd
      have hL : (if isFile fs p.dest
          then toLines ((readFileFS fs p.dest).getD "") else [])
          = toLines (joinLines (if p.lineState = "present"
            then lineinfilePresent (if isFile fs p.dest
                then toLines ((readFileFS fs p.dest).getD "") else [])
              (p.line.getD "") p.regexp p.insertafter p.insertbefore
            else lineinfileAbsent (if isFile fs p.dest
                then toLines ((readFileFS fs p.dest).getD "") else [])
              p.line p.regexp)) := by
        have e1 : (if isFile fs p.dest = true
            then toLines ((readFileFS fs p.dest).getD "") else [])
            = toLines ((readFileFS fs p.dest).getD "") := if_pos hcnd.1
        exact e1.trans (congrArg toLines
          (congrArg (fun o => Option.getD o "") hcnd.2))
      exact absurd (hstep.2.symm.trans hL.symm) heq
    · rw [hf] at hdest
      have hv := fsViewFile hdest rfl
      rw [if_neg (by rw [hv.1]; simp)]
      have hlines2 : (if isFile fs1 p.dest
          then toLines ((readFileFS fs1 p.dest).getD "") else [])
          = (if p.lineState = "present"
            then lineinfilePresent (if isFile fs p.dest
                then toLines ((readFileFS fs p.dest).getD "") else [])
              (p.line.getD "") p.regexp p.insertafter p.insertbefore
            else lineinfileAbsent (if isFile fs p.dest
                then toLines ((readFileFS fs p.dest).getD "") else [])
              p.line p.regexp) := by
        rw [if_pos hv.1, hv.2.1]
        exact hstep.2
      rw [hlines2, hstep.1, if_pos rfl]
      exact ⟨_, rfl, by simp [applyAttributes]⟩

theorem secondBlockinfile (ctx : Ctx) (p : Params) (fs fs1 : FS) (r1 : Res)
    (hck : ctx.checkMode = false) (hmk : p.makedirs = false)
    (hwfS : ∀ x ∈ (if isFile fs p.dest
        then toLines ((readFileFS fs p.dest).getD "") else []),
        ¬x = "" ∧ (∀ c ∈ x.data.dropLast, ¬c = '\n') ∧ ∀ c ∈ x.data, ¬c = '\r')
    (htermS : ∀ x ∈ (if isFile fs p.dest
        then toLines ((readFileFS fs p.dest).getD "") else []),
        endsWithNl x = true)
    (hneS : ¬replaceSub p.marker "{mark}" p.markerBegin
        = replaceSub p.marker "{mark}" p.markerEnd)
    (hnlbmS : noNl (replaceSub p.marker "{mark}" p.markerBegin) = true)
    (hnlemS : noNl (replaceSub p.marker "{mark}" p.markerEnd) = true)
    (hcrbmS : noCr (replaceSub p.marker "{mark}" p.markerBegin) = true)
    (hcremS : noCr (replaceSub p.marker "{mark}" p.markerEnd) = true)
    (hbmneS : ¬replaceSub p.marker "{mark}" p.markerBegin = "")
    (hemneS : ¬replaceSub p.marker "{mark}" p.markerEnd = "")
    (hrbmS : rstripNl (replaceSub p.marker "{mark}" p.markerBegin)
        = replaceSub p.marker "{mark}" p.markerBegin)
    (hremS : rstripNl (replaceSub p.marker "{mark}" p.markerEnd)
        = replaceSub p.marker "{mark}" p.markerEnd)
    (hfreeS : ∀ x ∈ (if isFile fs p.dest
        then toLines ((readFileFS fs p.dest).getD "") else []),
        rstripNl x ≠ replaceSub p.marker "{mark}" p.markerBegin ∧
        rstripNl x ≠ replaceSub p.marker "{mark}" p.markerEnd)
    (hblockS : ∀ b, p.block = some b →
        ∀ x ∈ toLinesKeep (if b ≠ "" && !endsWithNl b then b ++ "\n" else b),
          (¬x = "" ∧ (∀ c ∈ x.data.dropLast, ¬c = '\n') ∧
            ∀ c ∈ x.data, ¬c = '\r') ∧ endsWithNl x = true ∧
          rstripNl x ≠ replaceSub p.marker "{mark}" p.markerBegin ∧
          rstripNl x ≠ replaceSub p.marker "{mark}" p.markerEnd)
    (h1 : handleBlockinfile ctx p fs = .ok fs1 r1) :
    ∃ r2 : Res, handleBlockinfile ctx p fs1 = .ok fs1 r2 ∧ r2.changed = false := by
  simp only [handleBlockinfile, stepMakedirsNoMk hmk, hck, Bool.false_eq_true,
    ite_false, reduceIte] at h1 ⊢
  by_cases hG1 : (p.insertafter.isSome && p.insertbefore.isSome) = true
  · rw [if_pos hG1] at h1
    exact Outcome.noConfusion h1
  rw [if_neg hG1] at h1 ⊢
  by_cases hG2 : (p.blockState = "present" && p.block.isNone) = true
  · rw [if_pos hG2] at h1
    exact Outcome.noConfusion h1
  rw [if_neg hG2] at h1 ⊢
  by_cases hB4 : (!isFile fs p.dest && decide (p.blockState ≠ "present")) = true
  · rw [if_pos hB4] at h1
    rw [Outcome.ok.injEq] at h1
    obtain ⟨hf, _⟩ := h1
    subst hf
    rw [if_pos hB4]
    exact ⟨_, rfl, rfl⟩
  rw [if_neg hB4] at h1
  by_cases heq : (if p.blockState = "present"
      then blockinfilePresent (if isFile fs p.dest
          then toLines ((readFileFS fs p.dest).getD "") else [])
        (p.block.getD "") (replaceSub p.marker "{mark}" p.markerBegin)
        (replaceSub p.marker "{mark}" p.markerEnd) p.insertafter p.insertbefore
      else blockinfileAbsent (if isFile fs p.dest
          then toLines ((readFileFS fs p.dest).getD "") else [])
        (replaceSub p.marker "{mark}" p.markerBegin)
        (replaceSub p.marker "{mark}" p.markerEnd))
      = (if isFile fs p.dest then toLines ((readFileFS fs p.dest).getD "") else [])
  · rw [if_pos heq] at h1
    rw [Outcome.ok.injEq] at h1
    obtain ⟨hf, _⟩ := h1
    subst hf
    rw [if_neg hB4, if_pos heq]
    exact ⟨_, rfl, by simp [applyAttributes]⟩
  rw [if_neg heq] at h1
  simp only [editWriteFinish, hck, Bool.false_eq_true, ite_false, reduceIte] at h1
  have hpres2 : p.blockState = "present" → ∃ b, p.block = some b ∧
      ∀ x ∈ toLinesKeep (if b ≠ "" && !endsWithNl b then b ++ "\n" else b),
        (¬x = "" ∧ (∀ c ∈ x.data.dropLast, ¬c = '\n') ∧
          ∀ c ∈ x.data, ¬c = '\r') ∧ endsWithNl x = true ∧
        rstripNl x ≠ replaceSub p.marker "{mark}" p.markerBegin ∧
        rstripNl x ≠ replaceSub p.marker "{mark}" p.markerEnd := by
    intro hps
    cases hb : p.block with
    | none =>
      rw [hps, hb] at hG2
      simp at hG2
    | some b =>
      exact ⟨b, rfl, hblockS b hb⟩
  have hstep := blockinfileStepFix
    (if isFile fs p.dest then toLines ((readFileFS fs p.dest).getD "") else [])
    (if p.blockState = "present"
      then blockinfilePresent (if isFile fs p.dest
          then toLines ((readFileFS fs p.dest).getD "") else [])
        (p.block.getD "") (replaceSub p.marker "{mark}" p.markerBegin)
        (replaceSub p.marker "{mark}" p.markerEnd) p.insertafter p.insertbefore
      else blockinfileAbsent (if isFile fs p.dest
          then toLines ((readFileFS fs p.dest).getD "") else [])
        (replaceSub p.marker "{mark}" p.markerBegin)
        (replaceSub p.marker "{mark}" p.markerEnd))
    p.blockState p.block (replaceSub p.marker "{mark}" p.markerBegin)
    (replaceSub p.marker "{mark}" p.markerEnd) p.insertafter p.insertbefore
    hwfS htermS hneS hnlbmS hnlemS hcrbmS hcremS hbmneS hemneS hrbmS hremS
    hfreeS hpres2 rfl
  cases hwc : writeContent ctx p p.dest (joinLines (if p.blockState = "present"
      then blockinfilePresent (if isFile fs p.dest
          then toLines ((readFileFS fs p.dest).getD "") else [])
        (p.block.getD "") (replaceSub p.marker "{mark}" p.markerBegin)
        (replaceSub p.marker "{mark}" p.markerEnd) p.insertafter p.insertbefore
      else blockinfileAbsent (if isFile fs p.dest
          then toLines ((readFileFS fs p.dest).getD "") else [])
        (replaceSub p.marker "{mark}" p.markerBegin)
        (replaceSub p.marker "{mark}" p.markerEnd))) fs with
  | failed fsF ff =>
    rw [hwc] at h1
    exact Outcome.noConfusion h1
  | ok fs2 wr =>
    rw [hwc] at h1
    simp only [Outcome.ok.injEq] at h1
    obtain ⟨hf, _⟩ := h1
    rcases writeContentOkState hck hwc with ⟨hfe, hcnd⟩ | ⟨i, n, hdest⟩
    · simp only [Bool.and_eq_true, decide_eq_true_eq] at hcnd
      have hL : (if isFile fs p.dest
          then toLines ((readFileFS fs p.dest).getD "") else [])
          = toLines (joinLines (if p.blockState = "present"
            then blockinfilePresent (if isFile fs p.dest
                then toLines ((readFileFS fs p.dest).getD "") else [])
              (p.block.getD "") (replaceSub p.marker "{mark}" p.markerBegin)
              (replaceSub p.marker "{mark}" p.markerEnd)
              p.insertafter p.insertbefore
            else blockinfileAbsent (if isFile fs p.dest
                then toLines ((readFileFS fs p.dest).getD "") else [])
              (replaceSub p.marker "{mark}" p.markerBegin)
              (replaceSub p.marker "{mark}" p.markerEnd))) := by
        have e1 : (if isFile fs p.dest = true
            then toLines ((readFileFS fs p.dest).getD "") else [])
            = toLines ((readFileFS fs p.dest).getD "") := if_pos hcnd.1
        exact e1.trans (congrArg toLines
          (congrArg (fun o => Option.getD o "") hcnd.2))
      exact absurd (hstep.2.symm.trans hL.symm) heq
    · rw [hf] at hdest
      have hv := fsViewFile hdest rfl
      rw [if_neg (by rw [hv.1]; simp)]
      have hlines2 : (if isFile fs1 p.dest
          then toLines ((readFileFS fs1 p.dest).getD "") else [])
          = (if p.blockState = "present"
            then blockinfilePresent (if isFile fs p.dest
                then toLines ((readFileFS fs p.dest).getD "") else [])
              (p.block.getD "") (replaceSub p.marker "{mark}" p.markerBegin)
              (replaceSub p.marker "{mark}" p.markerEnd)
              p.insertafter p.insertbefore
            else blockinfileAbsent (if isFile fs p.dest
                then toLines ((readFileFS fs p.dest).getD "") else [])
              (replaceSub p.marker "{mark}" p.markerBegin)
              (replaceSub p.marker "{mark}" p.markerEnd)) := by
        rw [if_pos hv.1, hv.2.1]
        exact hstep.2
      rw [hlines2, hstep.1, if_pos rfl]
      exact ⟨_, rfl, by simp [applyAttributes]⟩

theorem andTrueSplit {a b : Bool} (h : (a && b) = true) : a = true ∧ b = true := by
  simp only [Bool.and_eq_true] at h
  exact h

theorem plainFileAtInv {fs : FS} {q : String} (h : plainFileAt fs q = true) :
    ∃ e c, lookupFS fs q = some e ∧ e.kind = .file c := by
  unfold plainFileAt at h
  cases hl : lookupFS fs q with
  | none =>
    rw [hl] at h
    exact Bool.noConfusion h
  | some e =>
    rw [hl] at h
    obtain ⟨k, dv, ino2, a2, m2⟩ := e
    cases k with
    | file c => exact ⟨_, c, rfl, rfl⟩
    | dir => exact Bool.noConfusion h
    | symlink t => exact Bool.noConfusion h

theorem secondCopyDispatch (ctx : Ctx) (p : Params) (fs fs1 : FS) (r1 : Res)
    (hck : ctx.checkMode = false) (hmk : p.makedirs = false)
    (hstabC : (match p.src with
      | some src => plainFileAt fs src && !strPref p.dest src
      | none => true) = true)
    (h1 : handleCopy ctx p fs = .ok fs1 r1) :
    ∃ r2 : Res, handleCopy ctx p fs1 = .ok fs1 r2 ∧ r2.changed = false := by
  cases hc : p.content with
  | some content => exact secondCopyContent ctx p fs fs1 r1 content hck hmk hc h1
  | none =>
    cases hsv : p.src with
    | none =>
      simp only [handleCopy, hc, hsv, Option.isSome_none, Bool.false_and,
        Bool.and_false, stepMakedirsNoMk hmk, Bool.false_eq_true, ite_false] at h1
      exact Outcome.noConfusion h1
    | some src =>
      rw [hsv] at hstabC
      simp only [Bool.and_eq_true, Bool.not_eq_true'] at hstabC
      obtain ⟨e, c, hle, hkind⟩ := plainFileAtInv hstabC.1
      exact secondCopySrc ctx p fs fs1 r1 src c e hck hmk hc hsv hle hkind
        hstabC.2 h1

theorem secondDispatch (ctx : Ctx) (p : Params) (fs fs1 : FS) (r1 : Res)
    (hck : ctx.checkMode = false) (hmk : p.makedirs = false)
    (hstab : stableForSecond p fs = true)
    (h1 : dispatchState ctx p fs = .ok fs1 r1) :
    ∃ r2 : Res, dispatchState ctx p fs1 = .ok fs1 r2 ∧ r2.changed = false := by
  by_cases hs1 : p.state = "copy"
  · simp only [dispatchState, hs1,
      show lookupHandler "copy" = some "_handle_copy" from rfl] at h1 ⊢
    rw [if_pos trivial] at h1 ⊢
    simp only [stableForSecond] at hstab
    rw [if_pos (Or.inl hs1)] at hstab
    exact secondCopyDispatch ctx p fs fs1 r1 hck hmk hstab h1
  by_cases hs2 : p.state = "template"
  · simp only [dispatchState, hs2,
      show lookupHandler "template" = some "_handle_copy" from rfl] at h1 ⊢
    rw [if_pos trivial] at h1 ⊢
    simp only [stableForSecond] at hstab
    rw [if_pos (Or.inr hs2)] at hstab
    exact secondCopyDispatch ctx p fs fs1 r1 hck hmk hstab h1
  by_cases hs3 : p.state = "directory"
  · simp only [dispatchState, hs3,
      show lookupHandler "directory" = some "_handle_directory" from rfl] at h1 ⊢
    rw [if_neg (by decide), if_pos trivial] at h1 ⊢
    simp only [stableForSecond] at hstab
    rw [if_neg (by rw [hs3]; decide), if_pos hs3] at hstab
    exact secondDirectory ctx p fs fs1 r1 hck hmk hstab h1
  by_cases hs4 : p.state = "exists"
  · simp only [dispatchState, hs4,
      show lookupHandler "exists" = some "_handle_exists" from rfl] at h1 ⊢
    rw [if_neg (by decide), if_neg (by decide), if_pos trivial] at h1 ⊢
    simp only [stableForSecond] at hstab
    rw [if_neg (by rw [hs4]; decide), if_neg (by rw [hs4]; decide),
      if_pos hs4] at hstab
    exact secondExists ctx p fs fs1 r1 hck hmk hstab h1
  by_cases hs5 : p.state = "touch"
  · simp only [stableForSecond] at hstab
    rw [if_neg (by rw [hs5]; decide), if_neg (by rw [hs5]; decide),
      if_neg (by rw [hs5]; decide), if_neg (by rw [hs5]; decide),
      if_pos hs5] at hstab
    exact absurd hstab (by decide)
  by_cases hs6 : p.state = "absent"
  · simp only [dispatchState, hs6,
      show lookupHandler "absent" = some "_handle_absent" from rfl] at h1 ⊢
    rw [if_neg (by decide), if_neg (by decide), if_neg (by decide),
      if_neg (by decide), if_pos trivial] at h1 ⊢
    exact secondAbsent ctx p fs fs1 r1 hck h1
  by_cases hs7 : p.state = "link"
  · simp only [dispatchState, hs7,
      show lookupHandler "link" = some "_handle_link" from rfl] at h1 ⊢
    rw [if_neg (by decide), if_neg (by decide), if_neg (by decide),
      if_neg (by decide), if_neg (by decide), if_pos trivial] at h1 ⊢
    exact secondLink ctx p fs fs1 r1 hck hmk h1
  by_cases hs8 : p.state = "hard"
  · simp only [dispatchState, hs8,
      show lookupHandler "hard" = some "_handle_hard" from rfl] at h1 ⊢
    rw [if_neg (by decide), if_neg (by decide), if_neg (by decide),
      if_neg (by decide), if_neg (by decide), if_neg (by decide),
      if_pos trivial] at h1 ⊢
    simp only [stableForSecond] at hstab
    rw [if_neg (by rw [hs8]; decide), if_neg (by rw [hs8]; decide),
      if_neg (by rw [hs8]; decide), if_pos hs8] at hstab
    cases hsv : p.src with
    | none =>
      simp only [handleHard, hsv] at h1
      exact Outcome.noConfusion h1
    | some src =>
      rw [hsv] at hstab
      simp only [Bool.and_eq_true, Bool.not_eq_true'] at hstab
      obtain ⟨e, c, hle, hkind⟩ := plainFileAtInv hstab.1
      exact secondHard ctx p fs fs1 r1 src c e hck hmk hsv hle hkind hstab.2 h1
  by_cases hs9 : p.state = "lineinfile"
  · simp only [dispatchState, hs9,
      show lookupHandler "lineinfile" = some "_handle_lineinfile" from rfl]
      at h1 ⊢
    rw [if_neg (by decide), if_neg (by decide), if_neg (by decide),
      if_neg (by decide), if_neg (by decide), if_neg (by decide),
      if_neg (by decide), if_pos trivial] at h1 ⊢
    simp only [stableForSecond] at hstab
    rw [if_neg (by rw [hs9]; decide), if_neg (by rw [hs9]; decide),
      if_neg (by rw [hs9]; decide), if_neg (by rw [hs9]; decide),
      if_neg (by rw [hs9]; decide), if_pos hs9] at hstab
    simp only [Bool.and_eq_true] at hstab
    obtain ⟨hwfB, hcaseB⟩ := hstab
    have hwfS : ∀ x ∈ (if isFile fs p.dest
        then toLines ((readFileFS fs p.dest).getD "") else []),
        ¬x = "" ∧ (∀ c ∈ x.data.dropLast, ¬c = '\n') ∧
          ∀ c ∈ x.data, ¬c = '\r' := by
      intro x hx
      have h2 := List.all_eq_true.mp hwfB x hx
      simp only [Bool.and_eq_true, Bool.not_eq_true', decide_eq_false_iff_not,
        List.all_eq_true] at h2
      exact ⟨h2.1.1, h2.1.2, h2.2⟩
    have hpresS : p.lineState = "present" → ∀ l, p.line = some l →
        noNl l = true ∧ noCr l = true ∧
        (∀ f, p.regexp = some f → f (l ++ "\n") = true) ∧
        ∀ x ∈ (if isFile fs p.dest
          then toLines ((readFileFS fs p.dest).getD "") else []),
          endsWithNl x = true := by
      intro hps l hline
      rw [if_pos hps] at hcaseB
      simp only [hline, Bool.and_eq_true] at hcaseB
      refine ⟨hcaseB.1.1.1, hcaseB.1.1.2, ?_,
        fun x hx => List.all_eq_true.mp hcaseB.2 x hx⟩
      intro f hf
      have h3 := hcaseB.1.2
      rw [hf] at h3
      exact h3
    have habsS : ¬p.lineState = "present" →
        ∀ x ∈ (if isFile fs p.dest
          then toLines ((readFileFS fs p.dest).getD "") else []).dropLast,
          endsWithNl x = true := by
      intro hps x hx
      rw [if_neg hps] at hcaseB
      exact List.all_eq_true.mp hcaseB x hx
    exact secondLineinfile ctx p fs fs1 r1 hck hmk hwfS hpresS habsS h1
  by_cases hs10 : p.state = "blockinfile"
  · simp only [dispatchState, hs10,
      show lookupHandler "blockinfile" = some "_handle_blockinfile" from rfl]
      at h1 ⊢
    rw [if_neg (by decide), if_neg (by decide), if_neg (by decide),
      if_neg (by decide), if_neg (by decide), if_neg (by decide),
      if_neg (by decide), if_neg (by decide), if_pos trivial] at h1 ⊢
    simp only [stableForSecond] at hstab
    rw [if_neg (by rw [hs10]; decide), if_neg (by rw [hs10]; decide),
      if_neg (by rw [hs10]; decide), if_neg (by rw [hs10]; decide),
      if_neg (by rw [hs10]; decide), if_neg (by rw [hs10]; decide),
      if_pos hs10] at hstab
    have s1 := andTrueSplit hstab
    have s2 := andTrueSplit s1.1
    have s3 := andTrueSplit s2.1
    have s4 := andTrueSplit s3.1
    have s5 := andTrueSplit s4.1
    have s6 := andTrueSplit s5.1
    have s7 := andTrueSplit s6.1
    have s8 := andTrueSplit s7.1
    have s9 := andTrueSplit s8.1
    have s10 := andTrueSplit s9.1
    have s11 := andTrueSplit s10.1
    have s12 := andTrueSplit s11.1
    have hwfB := s12.1
    have htermB := s12.2
    have hbmB := s11.2
    have hemB := s10.2
    have hcrbmB := s9.2
    have hcremB := s8.2
    have hneB := s7.2
    have hbmneB := s6.2
    have hemneB := s5.2
    have hrbmB := s4.2
    have hremB := s3.2
    have hblockB := s2.2
    have hfreeB := s1.2
    have hwfS : ∀ x ∈ (if isFile fs p.dest
        then toLines ((readFileFS fs p.dest).getD "") else []),
        ¬x = "" ∧ (∀ c ∈ x.data.dropLast, ¬c = '\n') ∧
          ∀ c ∈ x.data, ¬c = '\r' := by
      intro x hx
      have h2 := List.all_eq_true.mp hwfB x hx
      simp only [Bool.and_eq_true, Bool.not_eq_true', decide_eq_false_iff_not,
        List.all_eq_true] at h2
      exact ⟨h2.1.1, h2.1.2, h2.2⟩
    have hfreeS : ∀ x ∈ (if isFile fs p.dest
        then toLines ((readFileFS fs p.dest).getD "") else []),
        rstripNl x ≠ replaceSub p.marker "{mark}" p.markerBegin ∧
        rstripNl x ≠ replaceSub p.marker "{mark}" p.markerEnd := by
      intro x hx
      have h2 := List.all_eq_true.mp hfreeB x hx
      simpa using h2
    have hblockS : ∀ b, p.block = some b →
        ∀ x ∈ toLinesKeep (if b ≠ "" && !endsWithNl b then b ++ "\n" else b),
          (¬x = "" ∧ (∀ c ∈ x.data.dropLast, ¬c = '\n') ∧
            ∀ c ∈ x.data, ¬c = '\r') ∧ endsWithNl x = true ∧
          rstripNl x ≠ replaceSub p.marker "{mark}" p.markerBegin ∧
          rstripNl x ≠ replaceSub p.marker "{mark}" p.markerEnd := by
      intro b hb
      simp only [hb] at hblockB
      intro x hx
      have h2 := List.all_eq_true.mp hblockB x hx
      have t1 := andTrueSplit h2
      have t2 := andTrueSplit t1.1
      have t3 := andTrueSplit t2.1
      have t4 := andTrueSplit t3.1
      have t5 := andTrueSplit t4.1
      refine ⟨⟨by simpa using t5.1, ?_, ?_⟩, t3.2, by simpa using t2.2,
        by simpa using t1.2⟩
      · intro c hc
        have h5 := List.all_eq_true.mp t5.2 c hc
        simpa using h5
      · intro c hc
        have h6 := List.all_eq_true.mp t4.2 c hc
        simpa using h6
    exact secondBlockinfile ctx p fs fs1 r1 hck hmk hwfS
      (fun x hx => List.all_eq_true.mp htermB x hx)
      (by simpa using hneB) hbmB hemB hcrbmB hcremB (by simpa using hbmneB)
      (by simpa using hemneB) (of_decide_eq_true hrbmB)
      (of_decide_eq_true hremB) hfreeS hblockS h1
  have hfind : STATE_HANDLERS.find? (fun kv => kv.1 = p.state) = none := by
    rw [List.find?_eq_none]
    intro x hx
    simp only [STATE_HANDLERS, List.mem_cons, List.not_mem_nil, or_false] at hx
    rcases hx with rfl | rfl | rfl | rfl | rfl | rfl | rfl | rfl | rfl | rfl
    all_goals
      simp only [decide_eq_true_eq]
      first
        | exact fun h => hs1 h.symm
        | exact fun h => hs2 h.symm
        | exact fun h => hs3 h.symm
        | exact fun h => hs4 h.symm
        | exact fun h => hs5 h.symm
        | exact fun h => hs6 h.symm
        | exact fun h => hs7 h.symm
        | exact fun h => hs8 h.symm
        | exact fun h => hs9 h.symm
        | exact fun h => hs10 h.symm
  have hnone : lookupHandler p.state = none := by
    simp only [lookupHandler, hfind, Option.map_none']
  simp only [dispatchState, hnone] at h1
  exact Outcome.noConfusion h1

/-- The concrete filesystem produced by the first
`run realCtx copyContentParams stagedFS` invocation. -/
def copiedFS : FS :=
  [("/work/out.txt", mkFile "x" 0 3 0), ("/work", mkDir 0 1 0),
   ("/work/stage.tmp", mkFile "cfg\n" 0 2 0)]

/-- C3 counterexample: `state=touch` reports `changed=true` on the second
identical invocation as well (the handler always reports a change), even
though the filesystem is left exactly as after the first call — the
spec's unconditional idempotence claim is false (and contradicts its own
touch clause). -/
theorem touch_second_run_reports_changed_again :
    (run realCtx touchParams stagedFS).changedOf = some true ∧
    (run realCtx touchParams
      ((run realCtx touchParams stagedFS).finalFS)).changedOf = some true ∧
    (run realCtx touchParams
      ((run realCtx touchParams stagedFS).finalFS)).finalFS
      = (run realCtx touchParams stagedFS).finalFS :=
  ⟨rfl, rfl, rfl⟩

/-- C3 (amended): in a real (non-check) run with `makedirs` off, for
every parameter set satisfying the aliasing/wellformedness side
conditions `stableForSecond` (which exclude `touch`, a copy/hard source
reachable through `dest`, an `exists` destination that is a symlink to a
file, and ill-formed lineinfile/blockinfile line or marker data), a
successful invocation followed by a second identical invocation leaves
the filesystem of the first run unchanged and reports `changed=false`
the second time. -/
theorem second_identical_run_reports_no_change
    (ctx : Ctx) (p : Params) (fs fs1 : FS) (r1 : Res)
    (hck : ctx.checkMode = false) (hmk : p.makedirs = false)
    (hstab : stableForSecond p fs = true)
    (h1 : run ctx p fs = .ok fs1 r1) :
    ∃ r2 : Res, run ctx p fs1 = .ok fs1 r2 ∧ r2.changed = false := by
  simp only [run] at h1
  cases hcr : checkCreatesRemoves p fs with
  | some r =>
    simp only [hcr, Outcome.ok.injEq] at h1
    obtain ⟨hf, _⟩ := h1
    subst hf
    simp only [run, hcr]
    have hch0 := checkCRChanged hcr
    exact ⟨_, rfl, hch0⟩
  | none =>
    simp only [hcr] at h1
    cases hd : dispatchState ctx p fs with
    | failed f ff =>
      rw [hd] at h1
      simp only [runFinish] at h1
      exact Outcome.noConfusion h1
    | ok fsd rd =>
      rw [hd] at h1
      simp only [runFinish, Outcome.ok.injEq] at h1
      obtain ⟨hf, _⟩ := h1
      subst hf
      obtain ⟨r2, hd2, hch⟩ := secondDispatch ctx p fs fsd rd hck hmk hstab hd
      simp only [run]
      cases hcr2 : checkCreatesRemoves p fsd with
      | some r3 =>
        have hch3 := checkCRChanged hcr2
        exact ⟨_, rfl, hch3⟩
      | none =>
        rw [hd2]
        simp only [runFinish]
        exact ⟨_, rfl, hch⟩

/-- C3 witness: a content-based copy onto `stagedFS` satisfies every
hypothesis concretely, and its second run reports no change. -/
theorem second_identical_run_reports_no_change_witness :
    realCtx.checkMode = false ∧ copyContentParams.makedirs = false ∧
    stableForSecond copyContentParams stagedFS = true ∧
    ∃ r2 : Res, run realCtx copyContentParams copiedFS = .ok copiedFS r2 ∧
      r2.changed = false :=
  ⟨rfl, rfl, by decide,
    second_identical_run_reports_no_change realCtx copyContentParams stagedFS
      copiedFS { changed := true, msg := "content updated", stateField := "copy" }
      rfl rfl (by decide) (by decide)⟩

end FSBuilder
